import Mathlib

/-!
# mocker: request dispatch engine

A shallow embedding of the mock HTTP server: the request dispatch code
(package httpx: variant selection, the middleware chain, server
construction), the template renderer (package render), the authentication
providers (package auth), the configuration check (packages config and errx)
and the command dispatch (package cli), together with the properties stated
about them.

Conventions of the embedding:

* a Go `map[string]string` is an association list `List (String × String)`;
  the code only ranges over such maps or looks keys up. A theorem holds for
  every list, hence for every iteration order of the map, unless it asks in
  a hypothesis that the keys be distinct, as the keys of a map are;
* `url.Values` and `http.Header` (`map[string][]string`) are association
  lists `List (String × List String)`, looked up by their first entry;
* a Go pointer that may be nil is an `Option`;
* an index expression that can go out of range yields `none`;
* what the code takes from libraries and from the file system is an argument
  of the definition that uses it (`Env`, `RenderEnv`, `ConfigEnv`,
  `SchemaEnv`).
-/

namespace Mocker

/-! ## Configuration model (internal/config/types.go) -/

/-- Go `map[string]string`. -/
abbrev StrMap := List (String × String)

/-- Go `map[string][]string`, the shape of `url.Values` and `http.Header`. -/
abbrev MultiMap := List (String × List String)

/-- Go's `[]byte`. -/
abbrev Bytes := List UInt8

/-- The conversion `[]byte(s)`: the UTF-8 bytes of a text. -/
def bytesOf (s : String) : Bytes := s.toList.flatMap String.utf8EncodeChar

/-- The record `config.WhenClause`. -/
structure WhenClause where
  Query : StrMap
  Header : StrMap
  deriving DecidableEq, Repr

/-- The record `config.ResponseVariant`. -/
structure ResponseVariant where
  When : Option WhenClause
  Status : Int
  Headers : StrMap
  Body : String
  BodyFile : String
  DelayMs : Int
  deriving DecidableEq, Repr

/-- The record `config.ValidateSpec`. -/
structure ValidateSpec where
  ContentType : String
  SchemaFile : String
  deriving DecidableEq, Repr

/-- The record `config.Endpoint`. -/
structure Endpoint where
  Method : String
  Path : String
  Validate : Option ValidateSpec
  Responses : List ResponseVariant
  deriving DecidableEq, Repr

/-- The record `config.CORSConfig`. -/
structure CORSConfig where
  Enabled : Bool
  AllowOrigins : List String
  AllowMethods : List String
  AllowHeaders : List String
  deriving DecidableEq, Repr

/-- The record `config.ServerConfig`. -/
structure ServerConfig where
  Addr : String
  BasePath : String
  DefaultHeaders : StrMap
  CORS : Option CORSConfig
  deriving DecidableEq, Repr

/-- The record `config.TokenAuthConfig`. -/
structure TokenAuthConfig where
  Header : String
  Prefix : String
  Tokens : List String
  deriving DecidableEq, Repr

/-- The record `config.BasicUser`. -/
structure BasicUser where
  Username : String
  Password : String
  deriving DecidableEq, Repr

/-- The record `config.BasicAuthConfig`. -/
structure BasicAuthConfig where
  Users : List BasicUser
  deriving DecidableEq, Repr

/-- The record `config.AuthConfig`; `Type_` is the field `Type` ("none", "token" or
"basic"), the two pointers are `none` when the section is absent. -/
structure AuthConfig where
  Type_ : String
  Token : Option TokenAuthConfig
  Basic : Option BasicAuthConfig
  deriving DecidableEq, Repr

/-- The record `config.Config`. -/
structure Config where
  Server : ServerConfig
  Auth : AuthConfig
  Endpoints : List Endpoint
  deriving DecidableEq, Repr

/-! ## Header names (Go standard library, net/textproto) -/

/-- The token characters of RFC 7230, the bytes for which Go's
`validHeaderFieldByte` answers true. -/
def validHeaderFieldByte (c : Char) : Bool :=
  c.isAlphanum || "!#$%&*+-.^_|~".toList.contains c || c == Char.ofNat 39 || c == Char.ofNat 96

/-- The casing loop of Go's `canonicalMIMEHeaderKey`: a letter is upper-cased
at the start and after a hyphen and lower-cased elsewhere. -/
def canonLoop : Bool → List Char → List Char
  | _, [] => []
  | upper, c :: cs =>
    let c1 := if upper && c.isLower then c.toUpper
              else if !upper && c.isUpper then c.toLower
              else c
    c1 :: canonLoop (c1 == '-') cs

/-- Go's `textproto.CanonicalMIMEHeaderKey`: a key holding a space or any
other byte that is not a token character is returned unchanged; any other
key gets the canonical casing. -/
def CanonicalMIMEHeaderKey (s : String) : String :=
  if s.toList.all validHeaderFieldByte then String.mk (canonLoop true s.toList) else s

/-! ## Requests -/

/-- The record `auth.Principal`. -/
structure Principal where
  Name : String
  deriving DecidableEq, Repr

/-- The values a request context carries in this program: the request id
stored by `requestIDMW` under `ctxKeyReqID`, the principal stored by
`requireAuth` under `ctxKeyPrincipal`, the keys and values of the URL
parameters of the route context the router stores (`none` when there is no
route context), and `doneFirst`: whether the channel `Done()` of the context
delivers before the timer of a handler that waits on both. -/
structure Context where
  reqID : Option String
  principal : Option Principal
  routeParams : Option (List String × List String)
  doneFirst : Bool
  deriving DecidableEq, Repr

/-- The parts of `*http.Request` the program reads. `Query` is the result of
`r.URL.Query()`, `Body` the bytes the body reader delivers. -/
structure Request where
  Method : String
  Path : String
  Query : MultiMap
  Header : MultiMap
  Body : Bytes
  ctx : Context
  deriving DecidableEq, Repr

/-- Go's `url.Values.Get`: the first value stored under the key, or the
empty string when there is none. -/
def Values.Get (q : MultiMap) (key : String) : String :=
  match q.lookup key with
  | some (v :: _) => v
  | _ => ""

/-- Go's `http.Header.Get`: the first value stored under the canonical form
of the key, or the empty string when there is none. -/
def Header.Get (h : MultiMap) (key : String) : String :=
  match h.lookup (CanonicalMIMEHeaderKey key) with
  | some (v :: _) => v
  | _ => ""

/-! ## Variant selection (internal/httpx/variant.go) -/

/-- The loop over `w.Query` in `whenMatches`: `false` as soon as one entry
differs from the request's value. -/
def queryLoop (q : MultiMap) : StrMap → Bool
  | [] => true
  | (k, want) :: rest => if Values.Get q k != want then false else queryLoop q rest

/-- The loop over `w.Header` in `whenMatches`. -/
def headerLoop (h : MultiMap) : StrMap → Bool
  | [] => true
  | (k, want) :: rest => if Header.Get h k != want then false else headerLoop h rest

/-- The function `whenMatches`. -/
def whenMatches (r : Request) (w : WhenClause) : Bool :=
  if w.Query.length > 0 && !queryLoop r.Query w.Query then false
  else if w.Header.length > 0 && !headerLoop r.Header w.Header then false
  else true

/-- The test at the head of the loop body of `pickVariant`:
`v.When == nil || (len(v.When.Query) == 0 && len(v.When.Header) == 0)`. -/
def noPredicate (v : ResponseVariant) : Bool :=
  match v.When with
  | none => true
  | some w => w.Query.length == 0 && w.Header.length == 0

/-- The variant carries a non-empty when clause that the request satisfies. -/
def fullMatch (r : Request) (v : ResponseVariant) : Bool :=
  match v.When with
  | none => false
  | some w => !(w.Query.length == 0 && w.Header.length == 0) && whenMatches r w

/-- The loop of `pickVariant` from index `i` on, `vs` being the responses
still to scan and `fallback` the index remembered so far. The result is
`Sum.inl j` when the loop returns variant `j` at once and `Sum.inr fb` when
it runs to its end with fallback `fb`. -/
def pickLoop (r : Request) : List ResponseVariant → Nat → Option Nat → Sum Nat (Option Nat)
  | [], _, fallback => Sum.inr fallback
  | v :: vs, i, fallback =>
    match v.When with
    | none => pickLoop r vs (i + 1) (if fallback.isNone then some i else fallback)
    | some w =>
      if w.Query.length == 0 && w.Header.length == 0 then
        pickLoop r vs (i + 1) (if fallback.isNone then some i else fallback)
      else if whenMatches r w then Sum.inl i
      else pickLoop r vs (i + 1) fallback

/-- The index of the variant `pickVariant` returns: the early return of the
loop, else the fallback, else index 0. -/
def pickIndex (ep : Endpoint) (r : Request) : Nat :=
  match pickLoop r ep.Responses 0 none with
  | Sum.inl i => i
  | Sum.inr (some fb) => fb
  | Sum.inr none => 0

/-- The function `pickVariant`. The result is `none` when the index
expression would be out of range, which makes the Go code fail. -/
def pickVariant (ep : Endpoint) (r : Request) : Option ResponseVariant :=
  ep.Responses[pickIndex ep r]?

/-! ## Response writer (Go standard library, net/http) -/

/-- Go's `http.Header.Set`: the canonical form of the key now holds exactly
the given value. -/
def Header.Set (h : MultiMap) (key value : String) : MultiMap :=
  (CanonicalMIMEHeaderKey key, [value]) ::
    h.filter (fun e => e.1 != CanonicalMIMEHeaderKey key)

/-- Go's `http.Header.Add`: the value is appended to those stored under the
canonical form of the key. -/
def Header.Add (h : MultiMap) (key value : String) : MultiMap :=
  (CanonicalMIMEHeaderKey key, (h.lookup (CanonicalMIMEHeaderKey key)).getD [] ++ [value]) ::
    h.filter (fun e => e.1 != CanonicalMIMEHeaderKey key)

/-- Go's `http.Header.Del`. -/
def Header.Del (h : MultiMap) (key : String) : MultiMap :=
  h.filter (fun e => e.1 != CanonicalMIMEHeaderKey key)

/-- The state of an `http.ResponseWriter`: the header map a handler edits
through `w.Header()`, whether the status line has gone out, with which
status and which copy of the header map, the informational (1xx) statuses
sent before it, the bytes handed to `Write`, and every code handed to
`WriteHeader` (what the logging wrapper records). -/
structure ResponseWriter where
  header : MultiMap
  wroteHeader : Bool
  status : Int
  sent : MultiMap
  early : List Int
  body : Bytes
  codes : List Int
  deriving DecidableEq, Repr

/-- A writer on which nothing has happened yet. -/
def ResponseWriter.fresh : ResponseWriter :=
  { header := [], wroteHeader := false, status := 0, sent := [], early := [], body := [], codes := [] }

/-- The header map of the response as the client gets it: the copy taken
when the status line went out, or the live map when the handler returned
without writing (the server then sends status 200 with it). -/
def ResponseWriter.finalHeader (w : ResponseWriter) : MultiMap :=
  if w.wroteHeader then w.sent else w.header

/-- The status of the response as the client gets it. -/
def ResponseWriter.finalStatus (w : ResponseWriter) : Int :=
  if w.wroteHeader then w.status else 200

/-- One record written through `slog`; the attribute that holds a measured
duration is left out. -/
structure LogRecord where
  level : String
  msg : String
  attrs : List (String × String)
  deriving DecidableEq, Repr

/-- What a handler acts upon besides the request: the response writer and
the log. -/
structure Exchange where
  w : ResponseWriter
  log : List LogRecord
  deriving DecidableEq, Repr

/-- How a call of a handler ends: it returns, or it panics with a value;
either way the effects made so far stay. -/
inductive Outcome where
  | ok (x : Exchange)
  | panic (x : Exchange) (value : String)
  deriving DecidableEq, Repr

/-- The exchange an outcome leaves behind. -/
def Outcome.exchange : Outcome → Exchange
  | Outcome.ok x => x
  | Outcome.panic x _ => x

/-- The outcome is a panic. -/
def Outcome.panicked : Outcome → Bool
  | Outcome.ok _ => false
  | Outcome.panic _ _ => true

/-- Sequencing of two steps of a handler: a panic ends the handler. -/
def Outcome.andThen (o : Outcome) (f : Exchange → Outcome) : Outcome :=
  match o with
  | Outcome.ok x => f x
  | Outcome.panic x v => Outcome.panic x v

/-- Go's `http.Handler`. -/
abbrev Handler := Request → Exchange → Outcome

/-- The method `WriteHeader` of the server's response writer: a call after
the status line went out changes nothing; a code outside 100..999 panics; a
1xx code other than 101 sends an informational response and leaves the final
status open; any other code fixes the status and the header copy. -/
def WriteHeader (x : Exchange) (code : Int) : Outcome :=
  let w := { x.w with codes := x.w.codes ++ [code] }
  if x.w.wroteHeader then Outcome.ok { x with w := w }
  else if code < 100 || code > 999 then
    Outcome.panic { x with w := w } "invalid WriteHeader code"
  else if 100 ≤ code && code ≤ 199 && code != 101 then
    Outcome.ok { x with w := { w with early := w.early ++ [code] } }
  else
    Outcome.ok { x with w := { w with wroteHeader := true, status := code, sent := w.header } }

/-- The method `Write`: the status line goes out with 200 first if it has
not gone out yet. -/
def Write (x : Exchange) (b : Bytes) : Outcome :=
  let w := if x.w.wroteHeader then x.w
           else { x.w with wroteHeader := true, status := 200, sent := x.w.header }
  Outcome.ok { x with w := { w with body := w.body ++ b } }

/-- Edit of the live header map, `w.Header().Set(key, value)`. -/
def setHeader (x : Exchange) (key value : String) : Exchange :=
  { x with w := { x.w with header := Header.Set x.w.header key value } }

/-- Go's `http.Error`: drops Content-Length, sets the content type and the
nosniff option, writes the status, then the message and a newline. -/
def httpError (x : Exchange) (msg : String) (code : Int) : Outcome :=
  let h := Header.Del x.w.header "Content-Length"
  let h := Header.Set h "Content-Type" "text/plain; charset=utf-8"
  let h := Header.Set h "X-Content-Type-Options" "nosniff"
  (WriteHeader { x with w := { x.w with header := h } } code).andThen
    (fun x1 => Write x1 (bytesOf (msg ++ "\n")))

/-- One record appended to the log. -/
def logTo (x : Exchange) (level msg : String) (attrs : List (String × String)) : Exchange :=
  { x with log := x.log ++ [{ level := level, msg := msg, attrs := attrs }] }

/-! ## Middleware (internal/httpx/middleware.go) -/

/-- The middleware `recoverMW`: a panic of the wrapped handler is logged
and answered with status 500; the middleware itself returns. -/
def recoverMW (next : Handler) : Handler := fun r x =>
  match next r x with
  | Outcome.ok x1 => Outcome.ok x1
  | Outcome.panic x1 val =>
    match httpError (logTo x1 "ERROR" "panic" [("err", val)]) "internal error" 500 with
    | Outcome.ok x2 => Outcome.ok x2
    | Outcome.panic x2 v => Outcome.panic x2 v

/-- The digits of Go's `strconv.FormatInt`. -/
def digitChar36 (d : Nat) : Char :=
  "0123456789abcdefghijklmnopqrstuvwxyz".toList.getD d '0'

/-- Go's `strconv.FormatInt(i, 36)`. -/
def formatInt36 (i : Int) : String :=
  let digits (n : Nat) : List Char :=
    if n = 0 then ['0'] else ((Nat.digits 36 n).reverse.map digitChar36)
  if i < 0 then String.mk ('-' :: digits i.natAbs) else String.mk (digits i.natAbs)

/-- The middleware `requestIDMW`; `now` is the reading `time.Now().UnixNano()`. -/
def requestIDMW (now : Int) (next : Handler) : Handler := fun r x =>
  let id := formatInt36 now
  let ctx := { r.ctx with reqID := some id }
  next { r with ctx := ctx } (setHeader x "X-Request-ID" id)

/-- The middleware `loggingMW`. The wrapper `loggingResponseWriter` starts
at status 200 and keeps the last code passed to `WriteHeader` during the
wrapped call; a panic passes through before anything is logged. -/
def loggingMW (next : Handler) : Handler := fun r x =>
  match next r x with
  | Outcome.ok x1 =>
    let status := ((x1.w.codes.drop x.w.codes.length).getLast?).getD 200
    Outcome.ok (logTo x1 "INFO" "http"
      [("method", r.Method), ("path", r.Path), ("status", toString status),
       ("rid", r.ctx.reqID.getD "")])
  | Outcome.panic x1 v => Outcome.panic x1 v

/-- The interface `auth.Provider`: the principal, whether the request is
accepted, and an error if there is one. -/
abbrev Provider := Request → Principal × Bool × Option String

/-- The function `principalFrom`. -/
def principalFrom (ctx : Context) : Principal × Bool :=
  match ctx.principal with
  | some p => (p, true)
  | none => ({ Name := "" }, false)

/-- The middleware `requireAuth`. -/
def requireAuth (p : Option Provider) (mode : String) (next : Handler) : Handler :=
  match p with
  | none => next
  | some prov =>
    if mode == "none" then next
    else fun r x =>
      match prov r with
      | (_, _, some _) => httpError x "unauthorized" 401
      | (pr, ok, none) =>
        if !ok then
          let x1 := if mode == "basic" then
              setHeader x "WWW-Authenticate" "Basic realm=\"mocker\"" else x
          httpError x1 "unauthorized" 401
        else
          next { r with ctx := { r.ctx with principal := some pr } } x

/-- The middleware `skipAuthForOPTIONS`. -/
def skipAuthForOPTIONS (mw : Handler → Handler) (next : Handler) : Handler :=
  mw (fun r x =>
    if r.Method == "OPTIONS" then next r x
    else next r x)

/-! ## What the handlers take from outside -/

/-- Go's `unicode.IsSpace`. -/
def isSpace (c : Char) : Bool :=
  let n := c.toNat
  (9 ≤ n && n ≤ 13) || n == 32 || n == 0x85 || n == 0xA0 || n == 0x1680 ||
    (0x2000 ≤ n && n ≤ 0x200A) || n == 0x2028 || n == 0x2029 || n == 0x202F ||
    n == 0x205F || n == 0x3000

/-- Go's `strings.TrimSpace`. -/
def trimSpace (s : String) : String :=
  String.mk ((s.toList.dropWhile isSpace).reverse.dropWhile isSpace).reverse

/-- The type `validate.JSONSchemaValidator`, seen through the two library
calls its method makes: the error of `jsonschema.UnmarshalJSON` on the body
and the error of `schema.Validate` on the decoded body, if any. -/
structure JSONSchemaValidator where
  unmarshalErr : Bytes → Option String
  schemaErr : Bytes → Option String

/-- The method `JSONSchemaValidator.Validate`
(internal/validate/validator.go): the error text, or `none` for nil. -/
def JSONSchemaValidator.Validate (v : JSONSchemaValidator) (body : Bytes) : Option String :=
  match v.unmarshalErr body with
  | some e => some ("unmarshal instance: " ++ e)
  | none =>
    match v.schemaErr body with
    | some e => some ("schema validation: " ++ e)
    | none => none

/-- The record `render.Data`; its field `Body` is never set by the program. -/
structure Data where
  Path : StrMap
  Query : StrMap
  Header : StrMap
  Body : Option String
  NowRFC3339 : String
  deriving DecidableEq, Repr

/-- The type `render.Renderer` as the handler uses it: the results of
`RenderString` and `RenderFile`, bytes or an error. -/
structure Renderer where
  RenderString : String → Data → Except String Bytes
  RenderFile : String → Data → Except String Bytes

/-- How the router (package chi, outside this repository) resolves a
request: the index of the endpoint whose route matches together with the
URL parameters it extracted, no route, or a route under another method (with
the methods it reports as allowed). -/
inductive RouteMatch where
  | found (i : Nat) (keys : List String) (values : List String)
  | notFound
  | methodNotAllowed (allowed : List String)
  deriving DecidableEq, Repr

/-- What the code takes from outside while it serves one request: the two
clock readings, the library functions `mime.ParseMediaType` (its media
type) and `strings.EqualFold`, `filepath.Abs`, `os.ReadFile`, and the
route resolution of the router. -/
structure Env where
  nowUnixNano : Int
  nowRFC3339 : String
  parseMediaType : String → Except String String
  equalFold : String → String → Bool
  abs : String → String
  readFile : String → Except String Bytes
  route : Request → RouteMatch

/-- The fields of `httpx.Server` that serving reads. -/
structure Server where
  cfg : Config
  authMode : String
  authProv : Option Provider
  validators : List (String × JSONSchemaValidator)
  renderer : Option Renderer

/-! ## Validation gate (internal/httpx/middleware.go) -/

/-- The constant `maxBody` of `validateBody`, 1 MiB. -/
def maxBody : Nat := 1 <<< 20

/-- The middleware `validateBody`. -/
def validateBody (env : Env) (wantCT : String) (v : Option JSONSchemaValidator)
    (next : Handler) : Handler :=
  if trimSpace wantCT == "" && v.isNone then next
  else fun r x =>
    let ct := trimSpace wantCT
    let mismatch :=
      if ct != "" then
        match env.parseMediaType (Header.Get r.Header "Content-Type") with
        | Except.error _ => true
        | Except.ok got => !env.equalFold got ct
      else false
    if mismatch then httpError x "invalid content-type" 415
    else
      match v with
      | none => next r x
      | some val =>
        if r.Body.length > maxBody then httpError x "failed to read body" 400
        else
          match val.Validate r.Body with
          | some err => httpError x err 400
          | none => next r x

/-! ## Render data (internal/render/data.go) -/

/-- Assignment `m[k] = v` on a Go map. -/
def mapSet (m : StrMap) (k v : String) : StrMap :=
  (k, v) :: m.filter (fun e => e.1 != k)

/-- The loop of `BuildData` over the URL parameters; `none` when
`rc.URLParams.Values[i]` is out of range. -/
def pathLoop : List String → List String → StrMap → Option StrMap
  | [], _, acc => some acc
  | _ :: _, [], _ => none
  | key :: ks, val :: vs, acc => pathLoop ks vs (if key != "" then mapSet acc key val else acc)

/-- The loop of `BuildData` over the query parameters. -/
def queryData : MultiMap → StrMap → StrMap
  | [], acc => acc
  | (k, vals) :: rest, acc =>
    queryData rest (match vals with
      | v :: _ => mapSet acc k v
      | [] => acc)

/-- The loop of `BuildData` over the request headers. -/
def headerData : MultiMap → StrMap → StrMap
  | [], acc => acc
  | (k, vals) :: rest, acc =>
    headerData rest (match vals with
      | v :: _ => mapSet acc (CanonicalMIMEHeaderKey k) v
      | [] => acc)

/-- The function `BuildData`; `none` when it fails on an index out of range. -/
def BuildData (r : Request) (now : String) : Option Data :=
  let path := match r.ctx.routeParams with
    | some (keys, values) => pathLoop keys values []
    | none => some []
  path.map (fun p =>
    { Path := p, Query := queryData r.Query [], Header := headerData r.Header [],
      Body := none, NowRFC3339 := now })

/-! ## Endpoint handler (internal/httpx/handler.go) -/

/-- The loop over the default headers: a header is set where the response
has no non-empty value for it yet. -/
def applyDefaults : StrMap → Exchange → Exchange
  | [], x => x
  | (k, val) :: rest, x =>
    applyDefaults rest (if Header.Get x.w.header k == "" then setHeader x k val else x)

/-- The loop over the variant's headers: each one is set. -/
def applyHeaders : StrMap → Exchange → Exchange
  | [], x => x
  | (k, val) :: rest, x => applyHeaders rest (setHeader x k val)

/-- The tail of `endpointHandler`: default status, status line, body. -/
def writeResponse (v : ResponseVariant) (body : Bytes) (x : Exchange) : Outcome :=
  let status := if v.Status == 0 then 200 else v.Status
  (WriteHeader x status).andThen (fun x1 =>
    if body.length > 0 then Write x1 body else Outcome.ok x1)

/-- The function `endpointHandler`. -/
def endpointHandler (s : Server) (env : Env) (ep : Endpoint) : Handler := fun r x =>
  match pickVariant ep r with
  | none => Outcome.panic x "index out of range"
  | some v =>
    let x := applyDefaults s.cfg.Server.DefaultHeaders x
    let x := applyHeaders v.Headers x
    if v.DelayMs > 0 && r.ctx.doneFirst then Outcome.ok x
    else
      match BuildData r env.nowRFC3339 with
      | none => Outcome.panic x "index out of range"
      | some data =>
        if v.Body != "" then
          match s.renderer with
          | some rd =>
            match rd.RenderString v.Body data with
            | Except.error err =>
              httpError (logTo x "ERROR" "template render (inline) failed" [("err", err)])
                "template error" 500
            | Except.ok body => writeResponse v body x
          | none => writeResponse v (bytesOf v.Body) x
        else if v.BodyFile != "" then
          match s.renderer with
          | some rd =>
            match rd.RenderFile v.BodyFile data with
            | Except.error err =>
              httpError (logTo x "ERROR" "template render (file) failed"
                  [("file", v.BodyFile), ("err", err)])
                "template error" 500
            | Except.ok body => writeResponse v body x
          | none =>
            match env.readFile v.BodyFile with
            | Except.error _ =>
              httpError (logTo x "ERROR" "body file not found" []) "internal error" 500
            | Except.ok body => writeResponse v body x
        else writeResponse v [] x

/-! ## Router (internal/httpx/router.go) -/

/-- The handler `buildRouter` registers for one endpoint: the endpoint
handler, behind `validateBody` when the endpoint declares a content type or
a schema file. -/
def routeHandler (s : Server) (env : Env) (ep : Endpoint) : Handler :=
  let h := endpointHandler s env ep
  match ep.Validate with
  | some vs =>
    if vs.ContentType != "" || vs.SchemaFile != "" then
      let sch := if vs.SchemaFile != "" then s.validators.lookup (env.abs vs.SchemaFile) else none
      validateBody env vs.ContentType sch h
    else h
  | none => h

/-- The replies of the router itself: `http.NotFound` when no route
matches, status 405 with the allowed methods when only the method differs. -/
def routerMiss (allowed : Option (List String)) : Handler := fun _ x =>
  match allowed with
  | none => httpError x "404 page not found" 404
  | some ms =>
    let x1 := ms.foldl
      (fun acc m => { acc with w := { acc.w with header := Header.Add acc.w.header "Allow" m } }) x
    (WriteHeader x1 405).andThen (fun x2 => Write x2 [])

/-- The route table: the matching endpoint's handler is run on the request
with the route context the router attached. -/
def routes (s : Server) (env : Env) : Handler := fun r x =>
  match env.route r with
  | RouteMatch.found i keys values =>
    match s.cfg.Endpoints[i]? with
    | some ep =>
      routeHandler s env ep { r with ctx := { r.ctx with routeParams := some (keys, values) } } x
    | none => routerMiss none r x
  | RouteMatch.notFound => routerMiss none r x
  | RouteMatch.methodNotAllowed allowed => routerMiss (some allowed) r x

/-- The function `buildRouter`: recovery, request id and logging around the
auth gate (when authentication is configured) and the route table. -/
def buildRouter (s : Server) (env : Env) : Handler :=
  let inner : Handler :=
    if s.authMode != "" && s.authMode != "none" && s.authProv.isSome then
      if s.cfg.Server.CORS.isSome then
        skipAuthForOPTIONS (requireAuth s.authProv s.authMode) (routes s env)
      else requireAuth s.authProv s.authMode (routes s env)
    else routes s env
  recoverMW (requestIDMW env.nowUnixNano (loggingMW inner))

/-! ## Template renderer (internal/render/render.go) -/

/-- A compiled template of package html/template (outside this repository),
identified by the name and the source text it was parsed from. -/
structure Template where
  name : String
  src : Bytes
  deriving DecidableEq, Repr

/-- The record `cachedTpl`; the modification time is an instant, counted in
nanoseconds. -/
structure cachedTpl where
  tpl : Template
  mtime : Int
  deriving DecidableEq, Repr

/-- The field `tpls` of `render.Renderer`: the cache, keyed by absolute
path. -/
abbrev Tpls := List (String × cachedTpl)

/-- What the renderer takes from outside: `filepath.Abs`, `filepath.Base`,
`os.Stat` (the modification time, or an error), `os.ReadFile`, and the
template library: the error of parsing a source under a name, if any, and
the result of executing a compiled template on the data. -/
structure RenderEnv where
  abs : String → String
  base : String → String
  stat : String → Except String Int
  readFile : String → Except String Bytes
  parseErr : String → Bytes → Option String
  exec : Template → Data → Except String Bytes

/-- The method `Renderer.RenderString`. -/
def RenderString (e : RenderEnv) (tplSrc : String) (data : Data) : Except String Bytes :=
  match e.parseErr "inline" (bytesOf tplSrc) with
  | some err => Except.error err
  | none => e.exec { name := "inline", src := bytesOf tplSrc } data

/-- The body of the `if` in `RenderFile`: the file is read and parsed, the
cache entry of the path is set, and the new template is executed. -/
def reloadTpl (e : RenderEnv) (tpls : Tpls) (abs : String) (modTime : Int) (data : Data) :
    Except String Bytes × Tpls :=
  match e.readFile abs with
  | Except.error err => (Except.error err, tpls)
  | Except.ok src =>
    match e.parseErr (e.base abs) src with
    | some err => (Except.error err, tpls)
    | none =>
      let ct : cachedTpl := { tpl := { name := e.base abs, src := src }, mtime := modTime }
      (e.exec ct.tpl data, (abs, ct) :: tpls.filter (fun c => c.1 != abs))

/-- The method `Renderer.RenderFile`: the result and the cache after the
call. -/
def RenderFile (e : RenderEnv) (tpls : Tpls) (path : String) (data : Data) :
    Except String Bytes × Tpls :=
  match e.stat (e.abs path) with
  | Except.error err => (Except.error err, tpls)
  | Except.ok modTime =>
    match tpls.lookup (e.abs path) with
    | none => reloadTpl e tpls (e.abs path) modTime data
    | some ct =>
      if ct.mtime < modTime then reloadTpl e tpls (e.abs path) modTime data
      else (e.exec ct.tpl data, tpls)

/-! ## Authentication providers (internal/auth) -/

/-- Go's `strings.HasPrefix`. -/
def hasPrefix (s p : String) : Bool := p.toList.isPrefixOf s.toList

/-- Go's `strings.TrimPrefix`. -/
def trimPrefix (s p : String) : String :=
  if hasPrefix s p then String.mk (s.toList.drop p.toList.length) else s

/-- Go's `subtle.ConstantTimeCompare` on the bytes of two strings: 1 when
they are equal, 0 otherwise. -/
def ConstantTimeCompare (x y : String) : Int := if x == y then 1 else 0

/-- The record `auth.TokenAuth`; `allowed` is the set of accepted tokens. -/
structure TokenAuth where
  Header : String
  Prefix : String
  allowed : List String
  deriving DecidableEq, Repr

/-- The function `NewTokenAuth`: the empty token is left out of the set. -/
def NewTokenAuth (header pfx : String) (tokens : List String) : TokenAuth :=
  { Header := header, Prefix := pfx,
    allowed := tokens.foldl
      (fun m t => if t == "" then m else if m.contains t then m else t :: m) [] }

/-- The method `TokenAuth.Authenticate`: principal, matched, error. -/
def TokenAuth.Authenticate (a : TokenAuth) : Provider := fun r =>
  let hv := Header.Get r.Header a.Header
  if hv == "" then ({ Name := "" }, false, none)
  else if a.Prefix != "" && !hasPrefix hv a.Prefix then ({ Name := "" }, false, none)
  else
    let token := if a.Prefix != "" then trimSpace (trimPrefix hv a.Prefix) else hv
    if a.allowed.any (fun t => ConstantTimeCompare t token == 1) then
      ({ Name := "token" }, true, none)
    else ({ Name := "" }, false, none)

/-- The record `auth.BasicAuth`. -/
structure BasicAuth where
  users : StrMap
  Realm : String
  deriving DecidableEq, Repr

/-- The function `NewBasicAuth`: the user map is copied entry by entry. -/
def NewBasicAuth (users : StrMap) (realm : String) : BasicAuth :=
  { users := users.foldl (fun cp e => mapSet cp e.1 e.2) [],
    Realm := realm }

/-- Go's `strings.SplitN(s, ":", 2)`: the text before the first colon and
the text after it, or the text alone when it has no colon. -/
def SplitN (s : String) : List String :=
  match s.toList.span (fun c => c != ':') with
  | (a, _ :: b) => [String.mk a, String.mk b]
  | (a, []) => [String.mk a]

/-- The method `BasicAuth.Authenticate`: principal, matched, error. The
argument `decode` is `base64.StdEncoding.DecodeString` followed by the
conversion of the bytes to a string. -/
def BasicAuth.Authenticate (decode : String → Except String String) (a : BasicAuth) :
    Provider := fun r =>
  let h := Header.Get r.Header "Authorization"
  if h == "" then ({ Name := "" }, false, none)
  else if !hasPrefix h "Basic " then ({ Name := "" }, false, none)
  else
    match decode (trimPrefix h "Basic ") with
    | Except.error err => ({ Name := "" }, false, some err)
    | Except.ok dec =>
      match SplitN dec with
      | [user, pass] =>
        match a.users.lookup user with
        | none => ({ Name := "" }, false, none)
        | some want =>
          if ConstantTimeCompare want pass == 1 then ({ Name := user }, true, none)
          else ({ Name := "" }, false, none)
      | _ => ({ Name := "" }, false, some "invalid basic token")

/-! ## Error collector (internal/errx/errx.go) -/

/-- The sentinel errors of package config (internal/config/errors.go). -/
inductive Sentinel where
  | ErrUnsupportedExt
  | ErrDecode
  | ErrServerConfig
  | ErrAuthConfig
  | ErrEndpointConfig
  | ErrSchemaRef
  deriving DecidableEq, Repr

/-- The text of a sentinel error. -/
def Sentinel.Error : Sentinel → String
  | Sentinel.ErrUnsupportedExt => "unsupported extension"
  | Sentinel.ErrDecode => "decode error"
  | Sentinel.ErrServerConfig => "invalid server config"
  | Sentinel.ErrAuthConfig => "invalid auth config"
  | Sentinel.ErrEndpointConfig => "invalid endpoint config"
  | Sentinel.ErrSchemaRef => "invalid schema reference"

/-- The messages of `Config.Validate`: one case for each format string, with
the arguments it is given; `i` is the index of the endpoint and `j` the index
of the response variant that the scope text names. -/
inductive Message where
  | tokenMissing
  | tokenHeader
  | tokenTokens
  | basicMissing
  | basicUsers
  | basicUser (i : Nat)
  | authType (t : String)
  | basePath
  | noEndpoints
  | method (i : Nat) (m : String)
  | path (i : Nat)
  | noResponses (i : Nat)
  | duplicate (i : Nat) (key : String)
  | contentType (i : Nat) (ct : String)
  | schemaFile (i : Nat) (f : String)
  | status (i j : Nat) (status : Int)
  | bodyChoice (i j : Nat)
  | bodyFile (i j : Nat) (f : String)
  deriving DecidableEq, Repr

/-- The scope text of endpoint `i`. -/
def scopeOf (i : Nat) : String := "endpoints[" ++ toString i ++ "]"

/-- The scope text of variant `j` of endpoint `i`. -/
def rscopeOf (i j : Nat) : String := scopeOf i ++ ".responses[" ++ toString j ++ "]"

/-- The formatted text of a message; `quote` is the verb `%q` of package fmt. -/
def Message.text (quote : String → String) : Message → String
  | Message.tokenMissing => "auth.type=token but token config missing"
  | Message.tokenHeader => "auth.token.header must not be empty"
  | Message.tokenTokens => "auth.token.tokens must not be empty"
  | Message.basicMissing => "auth.type=basic but basic config missing"
  | Message.basicUsers => "auth.basic.users must not be empty"
  | Message.basicUser i => "auth.basic.users[" ++ toString i ++ "] requires username and password"
  | Message.authType t => "auth.type " ++ quote t ++ " invalid (use none|token|basic)"
  | Message.basePath => "server.basePath must start with \x27/\x27"
  | Message.noEndpoints => "at least one endpoint required"
  | Message.method i m => scopeOf i ++ ".method " ++ quote m ++ " invalid"
  | Message.path i => scopeOf i ++ ".path must start with \x27/\x27"
  | Message.noResponses i => scopeOf i ++ " must have at least one response variant"
  | Message.duplicate i key => scopeOf i ++ " duplicate endpoint without \x27when\x27: " ++ key
  | Message.contentType i ct => scopeOf i ++ ".validate.contentType " ++ quote ct ++ " invalid"
  | Message.schemaFile i f => scopeOf i ++ ".validate.schemaFile " ++ quote f ++ " not found"
  | Message.status i j st => rscopeOf i j ++ ".status " ++ toString st ++ " out of range"
  | Message.bodyChoice i j => rscopeOf i j ++ ": set exactly one of body or bodyFile"
  | Message.bodyFile i j f => rscopeOf i j ++ ".bodyFile " ++ quote f ++ " not found"

/-- An error made by `fmt.Errorf` around a sentinel: the sentinel it wraps,
the text between the sentinel and the message, and the message. -/
structure WrappedError where
  sentinel : Sentinel
  sep : String
  msg : Message
  deriving DecidableEq, Repr

/-- The text of a wrapped error. -/
def WrappedError.Error (quote : String → String) (e : WrappedError) : String :=
  e.sentinel.Error ++ e.sep ++ e.msg.text quote

/-- The record `errx.Collector`. -/
structure Collector where
  errs : List WrappedError
  deriving DecidableEq, Repr

/-- The function `errx.New`. -/
def Collector.New : Collector := { errs := [] }

/-- The method `Collector.Wrap`, format "%w, %s". -/
def Collector.Wrap (c : Collector) (s : Sentinel) (m : Message) : Collector :=
  { errs := c.errs ++ [{ sentinel := s, sep := ", ", msg := m }] }

/-- The method `Collector.Wrapf`, format "%w: " followed by the message. -/
def Collector.Wrapf (c : Collector) (s : Sentinel) (m : Message) : Collector :=
  { errs := c.errs ++ [{ sentinel := s, sep := ": ", msg := m }] }

/-- The method `Collector.If`. -/
def Collector.If (c : Collector) (cond : Bool) (s : Sentinel) (m : Message) : Collector :=
  if cond then c.Wrapf s m else c

/-- The method `Collector.Err`: nil, or the errors joined by `errors.Join`. -/
def Collector.Err (c : Collector) : Option (List WrappedError) :=
  if c.errs.length == 0 then none else some c.errs

/-! ## Configuration check (internal/config/load.go) -/

/-- What `Config.Validate` takes from outside: `strings.ToUpper`, the verb
`%q`, whether `mime.ParseMediaType` accepts a text, and whether `os.Stat`
succeeds on a path. -/
structure ConfigEnv where
  toUpper : String → String
  quote : String → String
  mediaTypeOK : String → Bool
  statOK : String → Bool

/-- The function `isHTTPMethod`. -/
def isHTTPMethod (env : ConfigEnv) (s : String) : Bool :=
  ["GET", "POST", "PUT", "PATCH", "DELETE", "OPTIONS"].contains (env.toUpper s)

/-- The function `validContentType`. -/
def validContentType (env : ConfigEnv) (ct : String) : Bool := env.mediaTypeOK ct

/-- The function `fileExists`. -/
def fileExists (env : ConfigEnv) (p : String) : Bool :=
  if p == "" then false else env.statOK p

/-- The function `epHasNoWhen`. -/
def epHasNoWhen (ep : Endpoint) : Bool :=
  ep.Responses.all (fun r =>
    match r.When with
    | some w => !(w.Query.length > 0 || w.Header.length > 0)
    | none => true)

/-- The loop of `Validate` over the users of basic authentication. -/
def basicUsersLoop : Nat → List BasicUser → Collector → Collector
  | _, [], e => e
  | i, u :: us, e =>
    basicUsersLoop (i + 1) us
      (e.If (u.Username == "" || u.Password == "") Sentinel.ErrAuthConfig (Message.basicUser i))

/-- The switch of `Validate` on the authentication type. -/
def authChecks (a : AuthConfig) (e : Collector) : Collector :=
  if a.Type_ == "none" then e
  else if a.Type_ == "token" then
    match a.Token with
    | none => e.Wrap Sentinel.ErrAuthConfig Message.tokenMissing
    | some t =>
      let e := e.If (trimSpace t.Header == "") Sentinel.ErrAuthConfig Message.tokenHeader
      e.If (t.Tokens.length == 0) Sentinel.ErrAuthConfig Message.tokenTokens
  else if a.Type_ == "basic" then
    match a.Basic with
    | none => e.Wrap Sentinel.ErrAuthConfig Message.basicMissing
    | some b =>
      let e := e.If (b.Users.length == 0) Sentinel.ErrAuthConfig Message.basicUsers
      basicUsersLoop 0 b.Users e
  else e.Wrapf Sentinel.ErrAuthConfig (Message.authType a.Type_)

/-- The loop of `Validate` over the response variants of endpoint `i`,
from variant `j` on. -/
def responsesLoop (env : ConfigEnv) (i : Nat) : Nat → List ResponseVariant → Collector → Collector
  | _, [], e => e
  | j, rv :: rest, e =>
    let e := e.If (decide (rv.Status < 100) || decide (rv.Status > 599))
      Sentinel.ErrEndpointConfig (Message.status i j rv.Status)
    let both := (rv.Body != "" && rv.BodyFile != "") || (rv.Body == "" && rv.BodyFile == "")
    let e := e.If both Sentinel.ErrEndpointConfig (Message.bodyChoice i j)
    let e := if rv.BodyFile != "" && !fileExists env rv.BodyFile then
        e.Wrapf Sentinel.ErrEndpointConfig (Message.bodyFile i j rv.BodyFile)
      else e
    responsesLoop env i (j + 1) rest e

/-- The checks of `Validate` on the validation spec of endpoint `i`. -/
def validateChecks (env : ConfigEnv) (i : Nat) (v : Option ValidateSpec) (e : Collector) :
    Collector :=
  match v with
  | none => e
  | some vs =>
    let e := if vs.ContentType != "" && !validContentType env vs.ContentType then
        e.Wrapf Sentinel.ErrEndpointConfig (Message.contentType i vs.ContentType)
      else e
    if vs.SchemaFile != "" && !fileExists env vs.SchemaFile then
      e.Wrapf Sentinel.ErrSchemaRef (Message.schemaFile i vs.SchemaFile)
    else e

/-- The loop of `Validate` over the endpoints, from endpoint `i` on; `seen`
is the set of keys met so far. -/
def endpointsLoop (env : ConfigEnv) :
    Nat → List Endpoint → List String → Collector → Collector
  | _, [], _, e => e
  | i, ep :: rest, seen, e =>
    let e := e.If (!isHTTPMethod env ep.Method) Sentinel.ErrEndpointConfig
      (Message.method i ep.Method)
    let e := e.If (!hasPrefix ep.Path "/") Sentinel.ErrEndpointConfig (Message.path i)
    let e := e.If (ep.Responses.length == 0) Sentinel.ErrEndpointConfig (Message.noResponses i)
    let key := env.toUpper ep.Method ++ " " ++ ep.Path
    let e := if epHasNoWhen ep && seen.contains key then
        e.Wrapf Sentinel.ErrEndpointConfig (Message.duplicate i key)
      else e
    let seen := if epHasNoWhen ep then key :: seen else seen
    let e := validateChecks env i ep.Validate e
    let e := responsesLoop env i 0 ep.Responses e
    endpointsLoop env (i + 1) rest seen e

/-- The errors that `Validate` collects, in the order it adds them. -/
def Config.collect (env : ConfigEnv) (c : Config) : Collector :=
  let e := Collector.New
  let e := authChecks c.Auth e
  let e := e.If (!hasPrefix c.Server.BasePath "/") Sentinel.ErrServerConfig Message.basePath
  let e := e.If (c.Endpoints.length == 0) Sentinel.ErrEndpointConfig Message.noEndpoints
  endpointsLoop env 0 c.Endpoints [] e

/-- The method `Config.Validate`. -/
def Config.Validate (env : ConfigEnv) (c : Config) : Option (List WrappedError) :=
  (c.collect env).Err

/-! ## Schema compilation (internal/validate/validator.go) -/

/-- What the schema compiler takes from outside: `filepath.Abs`,
`filepath.ToSlash`, and the compilation of a file URL by package jsonschema
with the options that `New` sets (format assertions, draft 2020-12). -/
structure SchemaEnv where
  abs : String → Except String String
  toSlash : String → String
  compile : String → Except String JSONSchemaValidator

/-- The function `CompileSchema`. -/
def CompileSchema (se : SchemaEnv) (schemaPath : String) : Except String JSONSchemaValidator :=
  if schemaPath == "" then Except.error "empty schema path"
  else
    match se.abs schemaPath with
    | Except.error err => Except.error ("absolute path: " ++ err)
    | Except.ok abs =>
      let fileURL := "file://" ++ se.toSlash abs
      match se.compile fileURL with
      | Except.error err => Except.error ("schema compile: " ++ fileURL ++ ": " ++ err)
      | Except.ok sch => Except.ok sch

/-! ## Server construction (internal/httpx/server.go) -/

/-- The type `httpx.Option`. -/
abbrev ServerOption := Server → Server

/-- The option `WithAuth`. -/
def WithAuth (p : Option Provider) (mode : String) : ServerOption :=
  fun s => { s with authProv := p, authMode := mode }

/-- The option `WithRenderer`. -/
def WithRenderer (r : Option Renderer) : ServerOption :=
  fun s => { s with renderer := r }

/-- The loop of `New` over the endpoints: the validators built so far and,
beside them, the paths that were given to `CompileSchema`, in order. -/
def compileLoop (env : Env) (se : SchemaEnv) :
    List Endpoint → List (String × JSONSchemaValidator) → List String →
      Except String (List (String × JSONSchemaValidator)) × List String
  | [], vs, tr => (Except.ok vs, tr)
  | ep :: rest, vs, tr =>
    match ep.Validate with
    | none => compileLoop env se rest vs tr
    | some spec =>
      if spec.SchemaFile == "" then compileLoop env se rest vs tr
      else
        let abs := env.abs spec.SchemaFile
        if (vs.lookup abs).isSome then compileLoop env se rest vs tr
        else
          match CompileSchema se abs with
          | Except.error err => (Except.error err, tr ++ [abs])
          | Except.ok v =>
            compileLoop env se rest ((abs, v) :: vs.filter (fun c => c.1 != abs)) (tr ++ [abs])

/-- The function `New`: the server or the error, and beside it the paths
that were given to `CompileSchema`, in order. -/
def New (env : Env) (se : SchemaEnv) (cfg : Config) (opts : List ServerOption) :
    Except String Server × List String :=
  let s : Server := opts.foldl (fun s o => o s)
    { cfg := cfg, authMode := "", authProv := none, validators := [], renderer := none }
  match compileLoop env se cfg.Endpoints [] [] with
  | (Except.error err, tr) => (Except.error err, tr)
  | (Except.ok vs, tr) => (Except.ok { s with validators := vs }, tr)

/-! ## Command line (internal/cli/cli.go) -/

/-- The constant `usageHeader`. -/
def usageHeader : String :=
  "mocker - local mock API server\n\nUsage:\n\tmocker <command> [flags]\n\nCommands:\n" ++
  "\tserver Start the mock server\n" ++
  "\tvalidate Validate a config file and exit\n\tversion Print version info\n\t\n" ++
  "Run \x27mocker <command> --help\x27 for command-specific flags.\n"

/-- What a run of `Execute` leaves behind: the exit code and what it wrote
itself to the standard output and to the standard error. -/
structure Run where
  code : Int
  stdout : String
  stderr : String
  deriving DecidableEq, Repr

/-- The function `Execute`; `args` is `os.Args`, `runServer` and
`runValidate` are the package variables of these names (the routines
`cmdServer` and `cmdValidate` unless replaced), `quote` is the verb `%q`. -/
def Execute (runServer : String → String → String → List String → Int)
    (runValidate : List String → Int) (quote : String → String)
    (version commit date : String) (args : List String) : Run :=
  if args.length < 2 then { code := 2, stdout := "", stderr := usageHeader }
  else
    let cmd := args.getD 1 ""
    if cmd == "-h" || cmd == "-help" || cmd == "--help" || cmd == "help" then
      { code := 0, stdout := usageHeader, stderr := "" }
    else if cmd == "serve" then
      { code := runServer version commit date (args.drop 2), stdout := "", stderr := "" }
    else if cmd == "validate" then
      { code := runValidate (args.drop 2), stdout := "", stderr := "" }
    else if cmd == "version" || cmd == "-v" || cmd == "--version" then
      { code := 0,
        stdout := "mocker " ++ version ++ " (commit " ++ commit ++ ", built " ++ date ++ ")\n",
        stderr := "" }
    else
      { code := 2, stdout := "",
        stderr := "unknown command " ++ quote cmd ++ "\n\n" ++ usageHeader }

/-! ## Notions used to state the properties -/

/-- The first value a multimap stores under a key, if the key is present
with at least one value. -/
def firstValue (m : MultiMap) (k : String) : Option String :=
  match m.lookup k with
  | some (v :: _) => some v
  | _ => none

/-- A header name with its ASCII capital letters lower-cased. -/
def foldCase (s : String) : List Char := s.toList.map Char.toLower

/-- Two header names differ at most in the case of their ASCII letters. -/
def sameUpToCase (a b : String) : Bool := foldCase a == foldCase b

/-- A header name as HTTP parsing stores it: made of token characters only
and equal to its canonical form. -/
def canonicalName (k : String) : Bool :=
  k.toList.all validHeaderFieldByte && CanonicalMIMEHeaderKey k == k

/-- The header map holds a non-empty request id. -/
def ridOK (h : MultiMap) : Prop := Header.Get h "X-Request-ID" ≠ ""

/-- The live header map holds a non-empty request id, and so does the copy
that went out with the status line, if it went out. -/
def Good (x : Exchange) : Prop :=
  ridOK x.w.header ∧ (x.w.wroteHeader = true → ridOK x.w.sent)

/-- The handler keeps the request id on the response. -/
def Preserves (h : Handler) : Prop := ∀ r x, Good x → Good (h r x).exchange

/-- No entry of the header map puts an empty value under the name of the
request id header. -/
def headersKeepID (hs : StrMap) : Prop :=
  ∀ e ∈ hs, CanonicalMIMEHeaderKey e.1 = "X-Request-Id" → e.2 ≠ ""

/-- The header map declares the header name, names taken in canonical form. -/
def declares (hs : StrMap) (k : String) : Prop :=
  ∃ e ∈ hs, CanonicalMIMEHeaderKey e.1 = CanonicalMIMEHeaderKey k

/-- The test of `validateBody` on the content type: a type is required and
the request's Content-Type does not parse or its media type is another one. -/
def ctMismatch (env : Env) (wantCT : String) (r : Request) : Bool :=
  if trimSpace wantCT != "" then
    match env.parseMediaType (Header.Get r.Header "Content-Type") with
    | Except.error _ => true
    | Except.ok got => !env.equalFold got (trimSpace wantCT)
  else false

/-- The exchange after `endpointHandler` has merged the headers: defaults
first, then the headers of the variant. -/
def mergedHeaders (s : Server) (v : ResponseVariant) (x : Exchange) : Exchange :=
  applyHeaders v.Headers (applyDefaults s.cfg.Server.DefaultHeaders x)

/-- The body the `switch` of `endpointHandler` produces for the variant, or
the error that stops it. -/
def bodyResult (s : Server) (env : Env) (v : ResponseVariant) (data : Data) :
    Except String Bytes :=
  if v.Body != "" then
    match s.renderer with
    | some rd => rd.RenderString v.Body data
    | none => Except.ok (bytesOf v.Body)
  else if v.BodyFile != "" then
    match s.renderer with
    | some rd => rd.RenderFile v.BodyFile data
    | none => env.readFile v.BodyFile
  else Except.ok []

/-- The status `endpointHandler` hands to `WriteHeader`. -/
def statusOf (v : ResponseVariant) : Int := if v.Status == 0 then 200 else v.Status

/-- A panic of the handler, started on a response whose status line has not
gone out, leaves the status line unwritten. -/
def PanicsUnwritten (h : Handler) : Prop :=
  ∀ r x x1 val, x.w.wroteHeader = false → h r x = Outcome.panic x1 val →
    x1.w.wroteHeader = false

/-- The messages of the authentication switch of `Validate`. -/
def Message.isAuth : Message → Bool
  | Message.tokenMissing => true
  | Message.tokenHeader => true
  | Message.tokenTokens => true
  | Message.basicMissing => true
  | Message.basicUsers => true
  | Message.basicUser _ => true
  | Message.authType _ => true
  | _ => false

/-- No response variant of the endpoint has a when clause with an entry. -/
def noWhenClause (ep : Endpoint) : Prop :=
  ∀ v ∈ ep.Responses, ∀ w, v.When = some w → w.Query = [] ∧ w.Header = []

/-- The status error of variant `j` of endpoint `i`. -/
def statusError (i j : Nat) (st : Int) : WrappedError :=
  { sentinel := Sentinel.ErrEndpointConfig, sep := ": ", msg := Message.status i j st }

/-- The duplicate error of endpoint `i`. -/
def duplicateError (i : Nat) (key : String) : WrappedError :=
  { sentinel := Sentinel.ErrEndpointConfig, sep := ": ", msg := Message.duplicate i key }

/-- A request with the given method and nothing else. -/
def reqBare (method : String) : Request :=
  { Method := method, Path := "/", Query := [], Header := [], Body := [],
    ctx := { reqID := none, principal := none, routeParams := none, doneFirst := false } }

/-- A request with the given query parameters and headers. -/
def mkReq (q h : MultiMap) : Request := { reqBare "GET" with Query := q, Header := h }

/-- A variant without predicate. -/
def vDefault : ResponseVariant :=
  { When := none, Status := 200, Headers := [], Body := "default", BodyFile := "", DelayMs := 0 }

/-- A variant that asks for the query parameter foo=bar. -/
def vBar : ResponseVariant :=
  { When := some { Query := [("foo", "bar")], Header := [] }, Status := 201, Headers := [],
    Body := "query", BodyFile := "", DelayMs := 0 }

/-- A variant that asks for the query parameter foo=baz. -/
def vBaz : ResponseVariant :=
  { When := some { Query := [("foo", "baz")], Header := [] }, Status := 202, Headers := [],
    Body := "other", BodyFile := "", DelayMs := 0 }

/-- An endpoint with the given responses. -/
def epOf (vs : List ResponseVariant) : Endpoint :=
  { Method := "GET", Path := "/test", Validate := none, Responses := vs }

/-- An exchange on which nothing has happened yet. -/
def x0 : Exchange := { w := ResponseWriter.fresh, log := [] }

/-- A provider that accepts every request. -/
def accepting : Provider := fun _ => ({ Name := "ok" }, true, none)

/-- A provider that rejects every request. -/
def rejecting : Provider := fun _ => ({ Name := "" }, false, none)

/-- A provider that fails on every request, as `BasicAuth` does on
credentials that are not valid base64. -/
def failing : Provider := fun _ => ({ Name := "" }, false, some "illegal base64 data at input byte 0")

/-- A handler that answers 204. -/
def accepted204 : Handler := fun _ x => WriteHeader x 204

/-- An environment in which the router resolves every request to the first
endpoint. -/
def envT : Env :=
  { nowUnixNano := 1700000000000000000, nowRFC3339 := "2023-11-14T22:13:20Z",
    parseMediaType := fun s => Except.ok s, equalFold := fun a b => a == b,
    abs := fun p => p, readFile := fun _ => Except.error "no such file",
    route := fun _ => RouteMatch.found 0 [] [] }

/-- A variant whose headers declare an empty X-Request-ID. -/
def variantOverride : ResponseVariant :=
  { When := none, Status := 200, Headers := [("X-Request-ID", "")], Body := "ok",
    BodyFile := "", DelayMs := 0 }

/-- A variant with a content type header. -/
def variantPlain : ResponseVariant :=
  { When := none, Status := 200, Headers := [("Content-Type", "text/plain")], Body := "ok",
    BodyFile := "", DelayMs := 0 }

/-- A server without authentication that serves one endpoint with one
variant. -/
def serverOf (v : ResponseVariant) : Server :=
  { cfg :=
      { Server := { Addr := ":8080", BasePath := "/", DefaultHeaders := [("X-App", "mocker")],
                    CORS := none },
        Auth := { Type_ := "none", Token := none, Basic := none },
        Endpoints := [{ Method := "GET", Path := "/healthz", Validate := none, Responses := [v] }] },
    authMode := "", authProv := none, validators := [], renderer := none }

/-- A handler that writes status 200 and then panics. -/
def writesThenPanics : Handler := fun _ x =>
  (WriteHeader x 200).andThen (fun x1 => Outcome.panic x1 "boom")

/-- A handler that panics at once. -/
def panicsAtOnce : Handler := fun _ x => Outcome.panic x "boom"

/-- A validator that accepts every body. -/
def acceptAll : JSONSchemaValidator :=
  { unmarshalErr := fun _ => none, schemaErr := fun _ => none }

/-- A validator that rejects every body for a missing property. -/
def rejectAll : JSONSchemaValidator :=
  { unmarshalErr := fun _ => none, schemaErr := fun _ => some "missing property name" }

/-- A POST request with the given content type and body. -/
def postReq (ct : String) (body : String) : Request :=
  { reqBare "POST" with Header := [("Content-Type", [ct])], Body := bytesOf body }

/-- A variant with status 201 whose body is a file. -/
def variantFile : ResponseVariant :=
  { When := none, Status := 201, Headers := [], Body := "", BodyFile := "missing.json",
    DelayMs := 0 }

/-- A variant that waits 50 ms. -/
def variantDelay : ResponseVariant :=
  { When := none, Status := 0, Headers := [], Body := "late", BodyFile := "", DelayMs := 50 }

/-- The bare request with a context that is done before any timer fires. -/
def reqCancelled : Request :=
  { reqBare "GET" with
    ctx := { reqID := none, principal := none, routeParams := none, doneFirst := true } }

/-- An exchange whose response already holds an empty X-App header. -/
def xEmptyApp : Exchange :=
  { w := { ResponseWriter.fresh with header := [("X-App", [""])] }, log := [] }

/-- An outside world for the renderer: one file, with the given
modification time and content; a source parses unless it is an opening
action that is never closed; executing a template gives back its source. -/
def renderEnvOf (mtime : Int) (content : String) : RenderEnv :=
  { abs := fun p => p, base := fun p => p,
    stat := fun p => if p == "test.tmpl" then Except.ok mtime else Except.error "no such file",
    readFile := fun p =>
      if p == "test.tmpl" then Except.ok (bytesOf content) else Except.error "no such file",
    parseErr := fun _ src => if src == bytesOf "\x7b\x7b" then some "unclosed action" else none,
    exec := fun t _ => Except.ok t.src }

/-- Render data without entries. -/
def dataEmpty : Data := { Path := [], Query := [], Header := [], Body := none, NowRFC3339 := "" }

/-- The render data of the bare request at the clock reading of `envT`. -/
def dataT : Data := { dataEmpty with NowRFC3339 := envT.nowRFC3339 }

/-- A request with two header names that differ in letter case only. -/
def reqTwoCases : Request := mkReq [] [("x-a", ["1"]), ("X-A", ["2"])]

/-- The request `reqTwoCases` with its header map listed the other way round. -/
def reqTwoCasesRev : Request := mkReq [] [("X-A", ["2"]), ("x-a", ["1"])]

/-- A request with a repeated query parameter, one without a value, and two
headers. -/
def reqData : Request :=
  mkReq [("tag", ["a", "b"]), ("empty", [])] [("Accept", ["text/plain"]), ("X-Trace", ["7", "8"])]

/-- A request with one header. -/
def reqWith (name value : String) : Request := mkReq [] [(name, [value])]

/-- A stand-in for the base64 decoder on three inputs: the encodings of
"alice:pa:ss" and of "nocolon", and a text that is not base64. -/
def decodeT (raw : String) : Except String String :=
  if raw == "YWxpY2U6cGE6c3M=" then Except.ok "alice:pa:ss"
  else if raw == "bm9jb2xvbg==" then Except.ok "nocolon"
  else Except.error "illegal base64 data at input byte 0"

/-- A JSON request whose body has the given number of zero bytes. -/
def reqOfSize (n : Nat) : Request :=
  { postReq "application/json" "" with Body := List.replicate n 0 }

/-- A file system in which the stat of every path fails. -/
def renderEnvNoFile : RenderEnv :=
  { renderEnvOf 0 "" with stat := fun _ => Except.error "no such file" }

/-- A stand-in for the library calls of the configuration check: letters of
the ASCII range are upper-cased, `%q` puts the text in double quotes, every
media type parses and every file exists. -/
def envC : ConfigEnv :=
  { toUpper := fun s => String.mk (s.toList.map Char.toUpper),
    quote := fun s => "\"" ++ s ++ "\"",
    mediaTypeOK := fun _ => true,
    statOK := fun _ => true }

/-- An endpoint with one variant that has no when clause, an inline body and
the given status. -/
def epPlain (method path : String) (status : Int) : Endpoint :=
  { Method := method, Path := path, Validate := none,
    Responses := [{ When := none, Status := status, Headers := [], Body := "ok",
                    BodyFile := "", DelayMs := 0 }] }

/-- An endpoint with one variant that is selected by a query parameter. -/
def epWhen (method path : String) : Endpoint :=
  { Method := method, Path := path, Validate := none,
    Responses := [{ When := some { Query := [("v", "1")], Header := [] }, Status := 200,
                    Headers := [], Body := "ok", BodyFile := "", DelayMs := 0 }] }

/-- A configuration without authentication with the given endpoints. -/
def cfgOf (eps : List Endpoint) : Config :=
  { Server := { Addr := ":8080", BasePath := "/", DefaultHeaders := [], CORS := none },
    Auth := { Type_ := "none", Token := none, Basic := none },
    Endpoints := eps }

/-- The loop of `pickVariant` in closed form: the first full match if there
is one, else the fallback already held or the first variant without
predicate. -/
theorem pickLoop_eq (r : Request) : ∀ (vs : List ResponseVariant) (i : Nat) (fb : Option Nat),
    pickLoop r vs i fb =
      if vs.any (fullMatch r) then Sum.inl (i + vs.findIdx (fullMatch r))
      else Sum.inr (if fb.isNone then
          (if vs.any noPredicate then some (i + vs.findIdx noPredicate) else none)
        else fb) := by
  intro vs
  induction vs with
  | nil => intro i fb; cases fb <;> simp [pickLoop]
  | cons v vs ih =>
    intro i fb
    have e : ∀ n, i + 1 + n = i + (n + 1) := by intro n; omega
    rw [pickLoop.eq_def]
    simp only
    cases hw : v.When with
    | none =>
      have h1 : fullMatch r v = false := by simp [fullMatch, hw]
      have h2 : noPredicate v = true := by simp [noPredicate, hw]
      cases fb <;> simp [ih, h1, h2, List.findIdx_cons, e]
    | some w =>
      simp only
      by_cases he : (w.Query.length == 0 && w.Header.length == 0) = true
      · have h1 : fullMatch r v = false := by simp [fullMatch, hw, he]
        have h2 : noPredicate v = true := by simp [noPredicate, hw, he]
        simp only [he, if_true]
        cases fb <;> simp [ih, h1, h2, List.findIdx_cons, e]
      · have h2 : noPredicate v = false := by simp [noPredicate, hw, he]
        simp only [he, if_false]
        by_cases hm : whenMatches r w = true
        · have h1 : fullMatch r v = true := by simp [fullMatch, hw, he, hm]
          simp [hm, h1, List.findIdx_cons]
        · have h1 : fullMatch r v = false := by simp [fullMatch, hw, he, hm]
          simp only [hm, if_false]
          cases fb <;> simp [ih, h1, h2, List.findIdx_cons, e]

/-- The index `pickVariant` reads, in closed form. -/
theorem pickIndex_eq (ep : Endpoint) (r : Request) :
    pickIndex ep r =
      if ep.Responses.any (fullMatch r) then ep.Responses.findIdx (fullMatch r)
      else if ep.Responses.any noPredicate then ep.Responses.findIdx noPredicate
      else 0 := by
  unfold pickIndex
  rw [pickLoop_eq]
  by_cases h1 : ep.Responses.any (fullMatch r) = true
  · simp [h1]
  · by_cases h2 : ep.Responses.any noPredicate = true
    · simp only [h1, h2]; simp
    · simp only [h1, h2]; simp

/-- The scan of a list for the first element that passes a test lands on an
element that passes, and every earlier element fails. -/
theorem findIdx_first {α : Type} (p : α → Bool) (xs : List α) (h : ∃ x ∈ xs, p x = true) :
    ∃ v, xs[xs.findIdx p]? = some v ∧ p v = true ∧
      ∀ (j : Nat) (u : α), j < xs.findIdx p → xs[j]? = some u → p u = false := by
  have hlt : xs.findIdx p < xs.length := List.findIdx_lt_length_of_exists h
  refine ⟨xs[xs.findIdx p], List.getElem?_eq_getElem hlt, List.findIdx_getElem, ?_⟩
  intro j u hj hu
  have hjl : j < xs.length := Nat.lt_trans hj hlt
  have := List.not_of_lt_findIdx hj
  rw [List.getElem?_eq_getElem hjl] at hu
  cases hu
  simpa using this

/-- A variant that `pickVariant` returns is one of the endpoint's responses. -/
theorem pickVariant_mem (ep : Endpoint) (r : Request) (v : ResponseVariant)
    (h : pickVariant ep r = some v) : v ∈ ep.Responses := by
  unfold pickVariant at h
  exact List.getElem?_mem h

/-- Claim C1: when some variant carries a non-empty when clause that the
request satisfies, `pickVariant` returns the variant of lowest index among
those, whatever variants without predicate are declared before it. -/
theorem pickVariant_returns_first_full_match (ep : Endpoint) (r : Request)
    (h : ∃ v ∈ ep.Responses, fullMatch r v = true) :
    ∃ i v, ep.Responses[i]? = some v ∧ pickVariant ep r = some v ∧ fullMatch r v = true ∧
      ∀ (j : Nat) (u : ResponseVariant), j < i → ep.Responses[j]? = some u →
        fullMatch r u = false := by
  have hany : ep.Responses.any (fullMatch r) = true := by simpa using h
  have hidx : pickIndex ep r = ep.Responses.findIdx (fullMatch r) := by
    rw [pickIndex_eq]; simp [hany]
  obtain ⟨v, hv, hp, hmin⟩ := findIdx_first (fullMatch r) ep.Responses h
  exact ⟨_, v, hv, by rw [pickVariant, hidx]; exact hv, hp, hmin⟩

/-- Witness of C1: the endpoint [default, foo=bar, foo=baz] and a request
with foo=bar. -/
theorem pickVariant_returns_first_full_match_witness :
    (∃ v ∈ (epOf [vDefault, vBar, vBaz]).Responses,
      fullMatch (mkReq [("foo", ["bar"])] []) v = true) ∧
    ∃ i v, (epOf [vDefault, vBar, vBaz]).Responses[i]? = some v ∧
      pickVariant (epOf [vDefault, vBar, vBaz]) (mkReq [("foo", ["bar"])] []) = some v ∧
      fullMatch (mkReq [("foo", ["bar"])] []) v = true ∧
      ∀ (j : Nat) (u : ResponseVariant), j < i →
        (epOf [vDefault, vBar, vBaz]).Responses[j]? = some u →
        fullMatch (mkReq [("foo", ["bar"])] []) u = false :=
  ⟨by decide,
   pickVariant_returns_first_full_match (epOf [vDefault, vBar, vBaz])
     (mkReq [("foo", ["bar"])] []) (by decide)⟩

/-- Claim C2: when the request satisfies no non-empty when clause and some
variant has an absent or empty when clause, `pickVariant` returns the first
declared variant whose when clause is absent or empty. -/
theorem pickVariant_falls_back_to_first_unpredicated (ep : Endpoint) (r : Request)
    (hno : ∀ v ∈ ep.Responses, fullMatch r v = false)
    (hfb : ∃ v ∈ ep.Responses, noPredicate v = true) :
    ∃ i v, ep.Responses[i]? = some v ∧ pickVariant ep r = some v ∧ noPredicate v = true ∧
      ∀ (j : Nat) (u : ResponseVariant), j < i → ep.Responses[j]? = some u →
        noPredicate u = false := by
  have hany : ep.Responses.any (fullMatch r) = false := by simpa using hno
  have hany2 : ep.Responses.any noPredicate = true := by simpa using hfb
  have hidx : pickIndex ep r = ep.Responses.findIdx noPredicate := by
    rw [pickIndex_eq]; simp [hany, hany2]
  obtain ⟨v, hv, hp, hmin⟩ := findIdx_first noPredicate ep.Responses hfb
  exact ⟨_, v, hv, by rw [pickVariant, hidx]; exact hv, hp, hmin⟩

/-- Witness of C2: the endpoint [foo=bar, default, foo=baz] and a request
with foo=qux. -/
theorem pickVariant_falls_back_to_first_unpredicated_witness :
    (∀ v ∈ (epOf [vBar, vDefault, vBaz]).Responses,
      fullMatch (mkReq [("foo", ["qux"])] []) v = false) ∧
    (∃ v ∈ (epOf [vBar, vDefault, vBaz]).Responses, noPredicate v = true) ∧
    ∃ i v, (epOf [vBar, vDefault, vBaz]).Responses[i]? = some v ∧
      pickVariant (epOf [vBar, vDefault, vBaz]) (mkReq [("foo", ["qux"])] []) = some v ∧
      noPredicate v = true ∧
      ∀ (j : Nat) (u : ResponseVariant), j < i →
        (epOf [vBar, vDefault, vBaz]).Responses[j]? = some u → noPredicate u = false :=
  ⟨by decide, by decide,
   pickVariant_falls_back_to_first_unpredicated (epOf [vBar, vDefault, vBaz])
     (mkReq [("foo", ["qux"])] []) (by decide) (by decide)⟩

/-- Claim C3: when the response list is not empty, every variant carries a
non-empty when clause and the request satisfies none of them, `pickVariant`
returns the variant at index 0 and does not fail. -/
theorem pickVariant_no_fallback_returns_first (ep : Endpoint) (r : Request)
    (hne : ep.Responses ≠ [])
    (hall : ∀ v ∈ ep.Responses, noPredicate v = false)
    (hno : ∀ v ∈ ep.Responses, ∀ w, v.When = some w → whenMatches r w = false) :
    ∃ v, ep.Responses[0]? = some v ∧ pickVariant ep r = some v := by
  have hany : ep.Responses.any (fullMatch r) = false := by
    simp only [List.any_eq_false]
    intro v hv
    cases hw : v.When with
    | none => simp [fullMatch, hw]
    | some w => simp [fullMatch, hw, hno v hv w hw]
  have hany2 : ep.Responses.any noPredicate = false := by simpa using hall
  have hidx : pickIndex ep r = 0 := by
    rw [pickIndex_eq]; simp [hany, hany2]
  have hpos : 0 < ep.Responses.length := List.length_pos.mpr hne
  exact ⟨ep.Responses[0], List.getElem?_eq_getElem hpos, by
    rw [pickVariant, hidx]; exact List.getElem?_eq_getElem hpos⟩

/-- Witness of C3: the endpoint [foo=bar, foo=baz] and a request with
foo=qux. -/
theorem pickVariant_no_fallback_returns_first_witness :
    (epOf [vBar, vBaz]).Responses ≠ [] ∧
    (∀ v ∈ (epOf [vBar, vBaz]).Responses, noPredicate v = false) ∧
    (∀ v ∈ (epOf [vBar, vBaz]).Responses, ∀ w, v.When = some w →
      whenMatches (mkReq [("foo", ["qux"])] []) w = false) ∧
    ∃ v, (epOf [vBar, vBaz]).Responses[0]? = some v ∧
      pickVariant (epOf [vBar, vBaz]) (mkReq [("foo", ["qux"])] []) = some v :=
  have hno : ∀ v ∈ (epOf [vBar, vBaz]).Responses, ∀ w, v.When = some w →
      whenMatches (mkReq [("foo", ["qux"])] []) w = false := by
    intro v hv w hw
    have hv2 : v = vBar ∨ v = vBaz := by simpa [epOf] using hv
    rcases hv2 with rfl | rfl
    · have : w = { Query := [("foo", "bar")], Header := [] } := by
        simpa [vBar] using hw.symm
      subst this
      decide
    · have : w = { Query := [("foo", "baz")], Header := [] } := by
        simpa [vBaz] using hw.symm
      subst this
      decide
  ⟨by decide, by decide, hno,
   pickVariant_no_fallback_returns_first (epOf [vBar, vBaz]) (mkReq [("foo", ["qux"])] [])
     (by decide) (by decide) hno⟩

/-- Claim C4: on a non-empty response list `pickVariant` returns (its index
is in range) and what it returns is an element of the list. -/
theorem pickVariant_total_and_member (ep : Endpoint) (r : Request) (hne : ep.Responses ≠ []) :
    ∃ v, pickVariant ep r = some v ∧ v ∈ ep.Responses := by
  have hpos : 0 < ep.Responses.length := List.length_pos.mpr hne
  have hlt : pickIndex ep r < ep.Responses.length := by
    rw [pickIndex_eq]
    split
    · rename_i h
      exact List.findIdx_lt_length_of_exists (by simpa using h)
    · split
      · rename_i h
        exact List.findIdx_lt_length_of_exists (by simpa using h)
      · exact hpos
  exact ⟨ep.Responses[pickIndex ep r], List.getElem?_eq_getElem hlt, List.getElem_mem hlt⟩

/-- Witness of C4: the endpoint [foo=bar, foo=baz] and a request without
parameters. -/
theorem pickVariant_total_and_member_witness :
    (epOf [vBar, vBaz]).Responses ≠ [] ∧
    ∃ v, pickVariant (epOf [vBar, vBaz]) (reqBare "GET") = some v ∧
      v ∈ (epOf [vBar, vBaz]).Responses :=
  ⟨by decide, pickVariant_total_and_member (epOf [vBar, vBaz]) (reqBare "GET") (by decide)⟩

/-! ## Matching of a when clause: properties -/

/-- The value `url.Values.Get` returns is the first value, or the empty
string when there is none. -/
theorem Values_Get_eq (q : MultiMap) (k : String) :
    Values.Get q k = (firstValue q k).getD "" := by
  unfold Values.Get firstValue
  split <;> simp_all

/-- The value `http.Header.Get` returns is the first value under the
canonical name, or the empty string when there is none. -/
theorem Header_Get_eq (h : MultiMap) (k : String) :
    Header.Get h k = (firstValue h (CanonicalMIMEHeaderKey k)).getD "" := by
  unfold Header.Get firstValue
  split <;> simp_all

/-- The query loop succeeds exactly when every entry agrees with the request. -/
theorem queryLoop_iff (q : MultiMap) (m : StrMap) :
    queryLoop q m = true ↔ ∀ e ∈ m, Values.Get q e.1 = e.2 := by
  induction m with
  | nil => simp [queryLoop]
  | cons e rest ih =>
    obtain ⟨k, want⟩ := e
    by_cases h : Values.Get q k = want
    · simp [queryLoop, h, ih]
    · simp [queryLoop, h]

/-- The header loop succeeds exactly when every entry agrees with the
request. -/
theorem headerLoop_iff (h : MultiMap) (m : StrMap) :
    headerLoop h m = true ↔ ∀ e ∈ m, Header.Get h e.1 = e.2 := by
  induction m with
  | nil => simp [headerLoop]
  | cons e rest ih =>
    obtain ⟨k, want⟩ := e
    by_cases hk : Header.Get h k = want
    · simp [headerLoop, hk, ih]
    · simp [headerLoop, hk]

/-- The result of `whenMatches` in terms of the two `Get` calls. -/
theorem whenMatches_iff (r : Request) (w : WhenClause) :
    whenMatches r w = true ↔
      (∀ e ∈ w.Query, Values.Get r.Query e.1 = e.2) ∧
      (∀ e ∈ w.Header, Header.Get r.Header e.1 = e.2) := by
  rw [← queryLoop_iff, ← headerLoop_iff]
  unfold whenMatches
  cases hq : w.Query <;> cases hh : w.Header <;> simp [queryLoop, headerLoop]

/-- A value with default the empty string equals v when it is v, or when it
is absent and v is empty. -/
theorem getD_empty_iff (o : Option String) (v : String) :
    o.getD "" = v ↔ o = some v ∨ (o = none ∧ v = "") := by
  cases o with
  | none => simp [eq_comm]
  | some a => simp

/-- Counterexample to C5 as stated: the clause with the query entry a="" is
matched by a request without parameters, although the request does not hold
parameter a. -/
theorem whenMatches_missing_key_empty_value_counterexample :
    ¬ (whenMatches (reqBare "GET") { Query := [("a", "")], Header := [] } = true ↔
        (∀ e ∈ [("a", "")], firstValue (reqBare "GET").Query e.1 = some e.2) ∧
        (∀ e ∈ ([] : StrMap),
          firstValue (reqBare "GET").Header (CanonicalMIMEHeaderKey e.1) = some e.2)) := by
  decide

/-- Claim C5, amended: `whenMatches` returns true exactly when every query
entry (k, v) either finds parameter k with first value v or has v empty
while the request has no value for k, and likewise every header entry under
the canonical form of its name. -/
theorem whenMatches_iff_first_values (r : Request) (w : WhenClause) :
    whenMatches r w = true ↔
      (∀ e ∈ w.Query, firstValue r.Query e.1 = some e.2 ∨
        (firstValue r.Query e.1 = none ∧ e.2 = "")) ∧
      (∀ e ∈ w.Header, firstValue r.Header (CanonicalMIMEHeaderKey e.1) = some e.2 ∨
        (firstValue r.Header (CanonicalMIMEHeaderKey e.1) = none ∧ e.2 = "")) := by
  rw [whenMatches_iff]
  simp only [Values_Get_eq, Header_Get_eq, getD_empty_iff]

/-! ## Header names: properties -/

/-- A character is an ASCII capital letter exactly when its code lies in
65..90. -/
theorem isUpper_iff (c : Char) : c.isUpper = true ↔ 65 ≤ c.toNat ∧ c.toNat ≤ 90 := by
  simp [Char.isUpper, Char.toNat, UInt32.le_def]
  rfl

/-- Lower-casing leaves a character that is no capital letter unchanged. -/
theorem toLower_of_not_upper (c : Char) (h : c.isUpper = false) : c.toLower = c := by
  have h2 : ¬ (65 ≤ c.toNat ∧ c.toNat ≤ 90) := by
    rw [← isUpper_iff]; simp [h]
  simp only [Char.toLower]
  rw [if_neg]
  simpa using h2

/-- A relation between a character and its lower-case form holds for every
character once it holds on the diagonal and at the 26 capital letters. -/
theorem forall_toLower (P : Char → Char → Prop) (hid : ∀ c, P c c)
    (hup : ∀ n, 65 ≤ n → n ≤ 90 → P (Char.ofNat n).toLower (Char.ofNat n)) (c : Char) :
    P c.toLower c := by
  cases h : c.isUpper with
  | false => rw [toLower_of_not_upper c h]; exact hid c
  | true =>
    have h2 := (isUpper_iff c).mp h
    have := hup c.toNat h2.1 h2.2
    rwa [Char.ofNat_toNat] at this

/-- Lower-casing does not change whether a character is a token character. -/
theorem valid_toLower (c : Char) : validHeaderFieldByte c.toLower = validHeaderFieldByte c := by
  refine forall_toLower (fun a b => validHeaderFieldByte a = validHeaderFieldByte b)
    (fun _ => rfl) ?_ c
  intro n h1 h2
  interval_cases n <;> decide

/-- One step of the casing loop gives the same character for a character
and for its lower-case form. -/
theorem step_toLower (u : Bool) (c : Char) :
    (if u && c.toLower.isLower then c.toLower.toUpper
      else if !u && c.toLower.isUpper then c.toLower.toLower else c.toLower) =
    (if u && c.isLower then c.toUpper else if !u && c.isUpper then c.toLower else c) := by
  refine forall_toLower (fun a b =>
    (if u && a.isLower then a.toUpper else if !u && a.isUpper then a.toLower else a) =
    (if u && b.isLower then b.toUpper else if !u && b.isUpper then b.toLower else b))
    (fun _ => rfl) ?_ c
  intro n h1 h2
  cases u <;> interval_cases n <;> decide

/-- The casing loop does not see the case of its input. -/
theorem canonLoop_fold (cs : List Char) :
    ∀ u, canonLoop u (cs.map Char.toLower) = canonLoop u cs := by
  induction cs with
  | nil => intro u; rfl
  | cons c cs ih =>
    intro u
    simp only [List.map_cons, canonLoop, step_toLower, ih]

/-- Whether a name is made of token characters does not depend on case. -/
theorem all_valid_fold (cs : List Char) :
    (cs.map Char.toLower).all validHeaderFieldByte = cs.all validHeaderFieldByte := by
  induction cs with
  | nil => rfl
  | cons c cs ih => simp only [List.map_cons, List.all_cons, valid_toLower, ih]

/-- A key that no entry carries is not found. -/
theorem lookup_none_of_not_key (h : MultiMap) (k : String) (hk : ∀ e ∈ h, e.1 ≠ k) :
    h.lookup k = none := by
  induction h with
  | nil => rfl
  | cons e rest ih =>
    obtain ⟨a, b⟩ := e
    have h1 : a ≠ k := hk (a, b) (List.mem_cons_self _ _)
    have h2 : (k == a) = false := by simpa using fun h => h1 h.symm
    simp only [List.lookup, h2]
    exact ih (fun e he => hk e (List.mem_cons_of_mem _ he))

/-- On a header map with canonical names, `Get` answers the same for two
spellings of a name that differ only in case. -/
theorem Header_Get_case (h : MultiMap) (k k2 : String)
    (hcanon : ∀ e ∈ h, canonicalName e.1 = true) (hk : sameUpToCase k k2 = true) :
    Header.Get h k = Header.Get h k2 := by
  have hfold : k.toList.map Char.toLower = k2.toList.map Char.toLower := by
    simpa [sameUpToCase, foldCase] using hk
  have hvalid : k.toList.all validHeaderFieldByte = k2.toList.all validHeaderFieldByte := by
    rw [← all_valid_fold k.toList, ← all_valid_fold k2.toList, hfold]
  cases hv : k.toList.all validHeaderFieldByte with
  | true =>
    have hv2 := hvalid ▸ hv
    have : CanonicalMIMEHeaderKey k = CanonicalMIMEHeaderKey k2 := by
      simp only [CanonicalMIMEHeaderKey, hv, hv2, if_true]
      rw [← canonLoop_fold k.toList, ← canonLoop_fold k2.toList, hfold]
    simp only [Header.Get, this]
  | false =>
    have hv2 := hvalid ▸ hv
    have e1 : CanonicalMIMEHeaderKey k = k := by
      simp only [CanonicalMIMEHeaderKey, hv]; rfl
    have e2 : CanonicalMIMEHeaderKey k2 = k2 := by
      simp only [CanonicalMIMEHeaderKey, hv2]; rfl
    have n1 : h.lookup k = none := lookup_none_of_not_key h k (by
      intro e he heq
      have := hcanon e he
      simp only [canonicalName, Bool.and_eq_true] at this
      rw [heq, hv] at this
      exact absurd this.1 (by simp))
    have n2 : h.lookup k2 = none := lookup_none_of_not_key h k2 (by
      intro e he heq
      have := hcanon e he
      simp only [canonicalName, Bool.and_eq_true] at this
      rw [heq, hv2] at this
      exact absurd this.1 (by simp))
    simp only [Header.Get, e1, e2, n1, n2]

/-- Claim C6: for a request whose headers are stored under canonical names,
`whenMatches` gives the same result when a header name listed in the clause
is replaced by a spelling that differs only in letter case. -/
theorem whenMatches_header_name_case_insensitive (r : Request) (q pre post : StrMap)
    (k k2 v : String)
    (hcanon : ∀ e ∈ r.Header, canonicalName e.1 = true)
    (hk : sameUpToCase k k2 = true) :
    whenMatches r { Query := q, Header := pre ++ (k, v) :: post } =
      whenMatches r { Query := q, Header := pre ++ (k2, v) :: post } := by
  rw [Bool.eq_iff_iff, whenMatches_iff, whenMatches_iff]
  simp only [List.mem_append, List.mem_cons]
  have hg := Header_Get_case r.Header k k2 hcanon hk
  constructor
  · rintro ⟨h1, h2⟩
    refine ⟨h1, ?_⟩
    rintro e (he | rfl | he)
    · exact h2 e (Or.inl he)
    · rw [← hg]; exact h2 (k, v) (Or.inr (Or.inl rfl))
    · exact h2 e (Or.inr (Or.inr he))
  · rintro ⟨h1, h2⟩
    refine ⟨h1, ?_⟩
    rintro e (he | rfl | he)
    · exact h2 e (Or.inl he)
    · rw [hg]; exact h2 (k2, v) (Or.inr (Or.inl rfl))
    · exact h2 e (Or.inr (Or.inr he))

/-- Witness of C6: a request with header X-Test: yes and the clause names
X-Test and x-tEST. -/
theorem whenMatches_header_name_case_insensitive_witness :
    (∀ e ∈ (mkReq [] [("X-Test", ["yes"])]).Header, canonicalName e.1 = true) ∧
    sameUpToCase "X-Test" "x-tEST" = true ∧
    whenMatches (mkReq [] [("X-Test", ["yes"])])
        { Query := [], Header := [] ++ ("X-Test", "yes") :: [] } =
      whenMatches (mkReq [] [("X-Test", ["yes"])])
        { Query := [], Header := [] ++ ("x-tEST", "yes") :: [] } :=
  ⟨by decide, by decide,
   whenMatches_header_name_case_insensitive (mkReq [] [("X-Test", ["yes"])]) [] [] []
     "X-Test" "x-tEST" "yes" (by decide) (by decide)⟩

/-! ## Auth gate: properties -/

/-- On a response not yet started, `http.Error` with a final status code
returns, and the response has that status. -/
theorem httpError_status (x : Exchange) (msg : String) (code : Int)
    (hw : x.w.wroteHeader = false) (hc : 200 ≤ code ∧ code ≤ 999) :
    ∃ x1, httpError x msg code = Outcome.ok x1 ∧ x1.w.wroteHeader = true ∧ x1.w.status = code ∧
      x1.w.sent = Header.Set (Header.Set (Header.Del x.w.header "Content-Length")
        "Content-Type" "text/plain; charset=utf-8") "X-Content-Type-Options" "nosniff" ∧
      x1.log = x.log := by
  have h1 : ¬ (code < 100) := by omega
  have h2 : ¬ (code > 999) := by omega
  have h3 : ¬ (code ≤ 199) := by omega
  simp [httpError, WriteHeader, Write, Outcome.andThen, hw, h1, h2, h3]

/-- Claim C7: for a provider that is not nil and a mode other than "none",
the gate hands the request to the next handler exactly when the provider
accepts it without error, and then the context passed on carries the
principal; in every other case the outcome does not depend on the next
handler (it is not invoked) and the response status is 401. The response is
taken as not yet started, as it is when the gate runs. -/
theorem requireAuth_invokes_next_iff_accepted (prov : Provider) (mode : String)
    (next : Handler) (r : Request) (x : Exchange)
    (hmode : mode ≠ "none") (hw : x.w.wroteHeader = false) :
    (∀ pr, prov r = (pr, true, none) →
        requireAuth (some prov) mode next r x =
          next { r with ctx := { r.ctx with principal := some pr } } x ∧
        principalFrom ({ r.ctx with principal := some pr } : Context) = (pr, true)) ∧
    (¬ (∃ pr, prov r = (pr, true, none)) →
        (∀ other : Handler, requireAuth (some prov) mode other r x =
          requireAuth (some prov) mode next r x) ∧
        (requireAuth (some prov) mode next r x).panicked = false ∧
        (requireAuth (some prov) mode next r x).exchange.w.finalStatus = 401) := by
  have hm : (mode == "none") = false := by simpa using hmode
  constructor
  · intro pr hp
    simp [requireAuth, hm, hp, principalFrom]
  · intro hrej
    have key : ∀ h : Handler, ∃ x1, requireAuth (some prov) mode h r x = Outcome.ok x1 ∧
        x1.w.wroteHeader = true ∧ x1.w.status = 401 ∧
        requireAuth (some prov) mode h r x = requireAuth (some prov) mode next r x := by
      intro h
      rcases hp : prov r with ⟨pr, ok, err⟩
      cases err with
      | some e =>
        obtain ⟨x1, e1, e2, e3, _⟩ := httpError_status x "unauthorized" 401 hw (by omega)
        exact ⟨x1, by simp [requireAuth, hm, hp, e1], e2, e3, by simp [requireAuth, hm, hp]⟩
      | none =>
        cases ok with
        | true => exact absurd ⟨pr, hp⟩ hrej
        | false =>
          obtain ⟨x1, e1, e2, e3, _⟩ := httpError_status
            (if mode == "basic" then setHeader x "WWW-Authenticate" "Basic realm=\"mocker\""
              else x)
            "unauthorized" 401 (by split <;> simp [setHeader, hw]) (by omega)
          exact ⟨x1, by simpa [requireAuth, hm, hp] using e1, e2, e3,
            by simp [requireAuth, hm, hp]⟩
    refine ⟨fun other => (key other).choose_spec.2.2.2, ?_, ?_⟩
    · obtain ⟨x1, e1, _⟩ := key next
      simp [e1, Outcome.panicked]
    · obtain ⟨x1, e1, e2, e3, _⟩ := key next
      simp [e1, Outcome.exchange, ResponseWriter.finalStatus, e2, e3]

/-- Witness of C7: mode "token" with a provider that accepts and with one
that rejects. -/
theorem requireAuth_invokes_next_iff_accepted_witness :
    "token" ≠ "none" ∧ x0.w.wroteHeader = false ∧
    requireAuth (some accepting) "token" accepted204 (reqBare "GET") x0 =
      accepted204
        { reqBare "GET" with ctx := { (reqBare "GET").ctx with principal := some ⟨"ok"⟩ } } x0 ∧
    (requireAuth (some rejecting) "token" accepted204 (reqBare "GET") x0).exchange.w.finalStatus
      = 401 :=
  ⟨by decide, rfl,
   ((requireAuth_invokes_next_iff_accepted accepting "token" accepted204 (reqBare "GET") x0
      (by decide) rfl).1 ⟨"ok"⟩ rfl).1,
   ((requireAuth_invokes_next_iff_accepted rejecting "token" accepted204 (reqBare "GET") x0
      (by decide) rfl).2 (by rintro ⟨pr, h⟩; simp [rejecting] at h)).2.2⟩

/-- Claim C8, the code at the failing input: in mode "basic", when the
provider returns an error, the gate answers 401 and the response carries no
WWW-Authenticate header. -/
theorem requireAuth_basic_error_without_challenge :
    (requireAuth (some failing) "basic" accepted204 (reqBare "GET") x0).exchange.w.finalStatus
      = 401 ∧
    (requireAuth (some failing) "basic" accepted204 (reqBare "GET")
      x0).exchange.w.finalHeader.lookup "Www-Authenticate" = none ∧
    Header.Get (requireAuth (some failing) "basic" accepted204 (reqBare "GET")
      x0).exchange.w.finalHeader "WWW-Authenticate" = "" := by
  decide

/-- The decorator `skipAuthForOPTIONS` is the middleware it is given: both
branches of its inner handler call the next handler, behind the middleware. -/
theorem skip_eq (mw : Handler → Handler) (next : Handler) :
    skipAuthForOPTIONS mw next = mw next := by
  have inner : (fun (r : Request) (x : Exchange) =>
      if r.Method == "OPTIONS" then next r x else next r x) = next := by
    funext r x
    split <;> rfl
  unfold skipAuthForOPTIONS
  rw [inner]

/-- Claim C9, the code at the failing input: an OPTIONS request without
credentials, sent through `skipAuthForOPTIONS` around an auth gate whose
provider rejects it, is answered 401 by the gate, while the handler alone
answers 204. -/
theorem skipAuthForOPTIONS_runs_auth_on_options :
    (skipAuthForOPTIONS (requireAuth (some rejecting) "token") accepted204
      (reqBare "OPTIONS") x0).exchange.w.finalStatus = 401 ∧
    (accepted204 (reqBare "OPTIONS") x0).exchange.w.finalStatus = 204 := by
  decide

/-! ## Request id on every response: properties -/


/-- Dropping the entries of one key does not change what is stored under another key. -/
theorem lookup_filter_ne (h : MultiMap) (a b : String) (hab : a ≠ b) :
    (h.filter (fun e => e.1 != b)).lookup a = h.lookup a := by
  induction h with
  | nil => rfl
  | cons e rest ih =>
    obtain ⟨k, v⟩ := e
    by_cases hk : k = b
    · subst hk
      have h1 : (a == k) = false := by simpa using hab
      simp [List.filter_cons, List.lookup_cons, h1, ih]
    · simp [List.filter_cons, List.lookup_cons, hk, ih]

/-- What `Get` reads after `Set`: the new value under the same canonical name, the old one elsewhere. -/
theorem Header_Get_Set (h : MultiMap) (k v k2 : String) :
    Header.Get (Header.Set h k v) k2 =
      if CanonicalMIMEHeaderKey k2 = CanonicalMIMEHeaderKey k then v else Header.Get h k2 := by
  unfold Header.Get Header.Set
  by_cases hk : CanonicalMIMEHeaderKey k2 = CanonicalMIMEHeaderKey k
  · simp [hk, List.lookup]
  · have : (CanonicalMIMEHeaderKey k2 == CanonicalMIMEHeaderKey k) = false := by simpa using hk
    simp only [List.lookup, this, hk, if_false, lookup_filter_ne _ _ _ hk]

/-- A `Del` of another name does not change what `Get` reads. -/
theorem Header_Get_Del (h : MultiMap) (k k2 : String)
    (hk : CanonicalMIMEHeaderKey k2 ≠ CanonicalMIMEHeaderKey k) :
    Header.Get (Header.Del h k) k2 = Header.Get h k2 := by
  unfold Header.Get Header.Del
  rw [lookup_filter_ne _ _ _ hk]

/-- An `Add` under another name does not change what `Get` reads. -/
theorem Header_Get_Add (h : MultiMap) (k v k2 : String)
    (hk : CanonicalMIMEHeaderKey k2 ≠ CanonicalMIMEHeaderKey k) :
    Header.Get (Header.Add h k v) k2 = Header.Get h k2 := by
  unfold Header.Get Header.Add
  have : (CanonicalMIMEHeaderKey k2 == CanonicalMIMEHeaderKey k) = false := by simpa using hk
  simp only [List.lookup, this, lookup_filter_ne _ _ _ hk]

/-- Setting a header keeps the request id, unless it puts an empty value under its name. -/
theorem good_setHeader (x : Exchange) (k v : String) (hx : Good x)
    (hv : CanonicalMIMEHeaderKey k = "X-Request-Id" → v ≠ "") : Good (setHeader x k v) := by
  refine ⟨?_, hx.2⟩
  show Header.Get (Header.Set x.w.header k v) "X-Request-ID" ≠ ""
  rw [Header_Get_Set]
  split
  · rename_i h
    exact hv (by rw [← h]; decide)
  · exact hx.1

/-- The method `WriteHeader` keeps the request id. -/
theorem good_WriteHeader (x : Exchange) (code : Int) (hx : Good x) :
    Good (WriteHeader x code).exchange := by
  unfold WriteHeader
  simp only
  split
  · exact hx
  · split
    · exact hx
    · split
      · exact hx
      · exact ⟨hx.1, fun _ => hx.1⟩

/-- The method `Write` keeps the request id. -/
theorem good_Write (x : Exchange) (b : Bytes) (hx : Good x) : Good (Write x b).exchange := by
  unfold Write
  simp only [Outcome.exchange]
  split
  · rename_i h
    exact ⟨hx.1, fun _ => hx.2 h⟩
  · exact ⟨hx.1, fun _ => hx.1⟩

/-- Sequencing keeps the request id when both steps do. -/
theorem good_andThen (o : Outcome) (f : Exchange → Outcome) (ho : Good o.exchange)
    (hf : ∀ x, Good x → Good (f x).exchange) : Good (o.andThen f).exchange := by
  cases o with
  | ok x => exact hf x ho
  | panic x v => exact ho

/-- Logging does not touch the response. -/
theorem good_logTo (x : Exchange) (l m : String) (a : List (String × String)) (hx : Good x) :
    Good (logTo x l m a) := hx

/-- The function `http.Error` keeps the request id. -/
theorem good_httpError (x : Exchange) (msg : String) (code : Int) (hx : Good x) :
    Good (httpError x msg code).exchange := by
  unfold httpError
  refine good_andThen _ _ (good_WriteHeader _ _ ⟨?_, hx.2⟩) (fun x1 h1 => good_Write _ _ h1)
  show Header.Get _ "X-Request-ID" ≠ ""
  rw [Header_Get_Set, if_neg (by decide), Header_Get_Set, if_neg (by decide),
    Header_Get_Del _ _ _ (by decide)]
  exact hx.1


/-- The default headers never replace a request id that is there. -/
theorem good_applyDefaults (hs : StrMap) : ∀ x, Good x → Good (applyDefaults hs x) := by
  induction hs with
  | nil => intro x hx; exact hx
  | cons e rest ih =>
    obtain ⟨k, val⟩ := e
    intro x hx
    simp only [applyDefaults]
    apply ih
    split
    · rename_i hget
      refine good_setHeader x k val hx ?_
      intro hk
      exfalso
      apply hx.1
      have hget2 : Header.Get x.w.header k = "" := by simpa using hget
      simpa [Header.Get, hk, show CanonicalMIMEHeaderKey "X-Request-ID" = "X-Request-Id" by decide]
        using hget2
    · exact hx

/-- The variant headers keep the request id when none of them empties it. -/
theorem good_applyHeaders (hs : StrMap) (hh : headersKeepID hs) :
    ∀ x, Good x → Good (applyHeaders hs x) := by
  induction hs with
  | nil => intro x hx; exact hx
  | cons e rest ih =>
    obtain ⟨k, val⟩ := e
    intro x hx
    simp only [applyHeaders]
    apply ih (fun e he => hh e (List.mem_cons_of_mem _ he))
    exact good_setHeader x k val hx (hh (k, val) (List.mem_cons_self _ _))

/-- The tail of the endpoint handler keeps the request id. -/
theorem good_writeResponse (v : ResponseVariant) (body : Bytes) (x : Exchange) (hx : Good x) :
    Good (writeResponse v body x).exchange := by
  unfold writeResponse
  refine good_andThen _ _ (good_WriteHeader _ _ hx) (fun x1 h1 => ?_)
  split
  · exact good_Write _ _ h1
  · exact h1

/-- The endpoint handler keeps the request id when no variant empties it. -/
theorem good_endpointHandler (s : Server) (env : Env) (ep : Endpoint)
    (hep : ∀ v ∈ ep.Responses, headersKeepID v.Headers) : Preserves (endpointHandler s env ep) := by
  intro r x hx
  unfold endpointHandler
  cases hv : pickVariant ep r with
  | none => exact hx
  | some v =>
    have hx2 : Good (applyHeaders v.Headers (applyDefaults s.cfg.Server.DefaultHeaders x)) :=
      good_applyHeaders _ (hep v (pickVariant_mem ep r v hv)) _ (good_applyDefaults _ _ hx)
    simp only
    split
    · exact hx2
    · split
      · exact hx2
      · split
        · split
          · split
            · exact good_httpError _ _ _ (good_logTo _ _ _ _ hx2)
            · exact good_writeResponse _ _ _ hx2
          · exact good_writeResponse _ _ _ hx2
        · split
          · split
            · split
              · exact good_httpError _ _ _ (good_logTo _ _ _ _ hx2)
              · exact good_writeResponse _ _ _ hx2
            · split
              · exact good_httpError _ _ _ (good_logTo _ _ _ _ hx2)
              · exact good_writeResponse _ _ _ hx2
          · exact good_writeResponse _ _ _ hx2

/-- The validation gate keeps the request id when the handler behind it does. -/
theorem good_validateBody (env : Env) (ct : String) (v : Option JSONSchemaValidator)
    (next : Handler) (hn : Preserves next) : Preserves (validateBody env ct v next) := by
  unfold validateBody
  split
  · exact hn
  · intro r x hx
    simp only
    by_cases hm : (if trimSpace ct != "" then
        match env.parseMediaType (Header.Get r.Header "Content-Type") with
        | Except.error _ => true
        | Except.ok got => !env.equalFold got (trimSpace ct)
      else false) = true
    · rw [if_pos hm]
      exact good_httpError _ _ _ hx
    · rw [if_neg hm]
      cases v with
      | none => exact hn r x hx
      | some val =>
        simp only
        by_cases hl : r.Body.length > maxBody
        · rw [if_pos hl]
          exact good_httpError _ _ _ hx
        · rw [if_neg hl]
          cases val.Validate r.Body with
          | none => exact hn r x hx
          | some err => exact good_httpError _ _ _ hx

/-- The handler registered for an endpoint keeps the request id. -/
theorem good_routeHandler (s : Server) (env : Env) (ep : Endpoint)
    (hep : ∀ v ∈ ep.Responses, headersKeepID v.Headers) : Preserves (routeHandler s env ep) := by
  unfold routeHandler
  simp only
  split
  · split
    · exact good_validateBody _ _ _ _ (good_endpointHandler s env ep hep)
    · exact good_endpointHandler s env ep hep
  · exact good_endpointHandler s env ep hep

/-- The replies of the router itself keep the request id. -/
theorem good_routerMiss (allowed : Option (List String)) : Preserves (routerMiss allowed) := by
  intro r x hx
  unfold routerMiss
  cases allowed with
  | none => exact good_httpError _ _ _ hx
  | some ms =>
    simp only
    have hfold : ∀ (l : List String) (y : Exchange), Good y → Good (l.foldl
        (fun acc m => { acc with w := { acc.w with header := Header.Add acc.w.header "Allow" m } }) y) := by
      intro l
      induction l with
      | nil => intro y hy; exact hy
      | cons m rest ih =>
        intro y hy
        apply ih
        refine ⟨?_, hy.2⟩
        show Header.Get (Header.Add y.w.header "Allow" m) "X-Request-ID" ≠ ""
        rw [Header_Get_Add _ _ _ _ (by decide)]
        exact hy.1
    exact good_andThen _ _ (good_WriteHeader _ _ (hfold ms x hx)) (fun x2 h2 => good_Write _ _ h2)

/-- The route table keeps the request id. -/
theorem good_routes (s : Server) (env : Env)
    (hcfg : ∀ ep ∈ s.cfg.Endpoints, ∀ v ∈ ep.Responses, headersKeepID v.Headers) :
    Preserves (routes s env) := by
  intro r x hx
  unfold routes
  split
  · rename_i i keys values _
    cases hep : s.cfg.Endpoints[i]? with
    | none => exact good_routerMiss none r x hx
    | some ep => exact good_routeHandler s env ep (hcfg ep (List.getElem?_mem hep)) _ x hx
  · exact good_routerMiss none r x hx
  · exact good_routerMiss _ r x hx

/-- The auth gate keeps the request id when the handler behind it does. -/
theorem good_requireAuth (p : Option Provider) (mode : String) (next : Handler)
    (hn : Preserves next) : Preserves (requireAuth p mode next) := by
  unfold requireAuth
  cases p with
  | none => exact hn
  | some prov =>
    simp only
    split
    · exact hn
    · intro r x hx
      simp only
      split
      · exact good_httpError _ _ _ hx
      · split
        · refine good_httpError _ _ _ ?_
          split
          · exact good_setHeader _ _ _ hx (fun h => absurd h (by decide))
          · exact hx
        · exact hn _ x hx

/-- The logging middleware keeps the request id when the handler behind it does. -/
theorem good_loggingMW (next : Handler) (hn : Preserves next) : Preserves (loggingMW next) := by
  intro r x hx
  have := hn r x hx
  unfold loggingMW
  cases h : next r x with
  | ok x1 => rw [h] at this; exact this
  | panic x1 v => rw [h] at this; exact this


/-- The base 36 text of an integer is never empty. -/
theorem formatInt36_ne_empty (i : Int) : formatInt36 i ≠ "" := by
  unfold formatInt36
  simp only
  split
  · intro h
    have := congrArg String.length h
    simp [String.length] at this
  · intro h
    have h2 := congrArg String.data h
    simp only at h2
    split at h2
    · simp at h2
    · rename_i hn
      have : Nat.digits 36 i.natAbs ≠ [] := Nat.digits_ne_nil_iff_ne_zero.mpr hn
      simp at h2
      exact this h2

/-- On a response not yet started, the request id middleware yields a response with a request id. -/
theorem good_requestIDMW (now : Int) (next : Handler) (hn : Preserves next) (r : Request)
    (x : Exchange) (hw : x.w.wroteHeader = false) :
    Good (requestIDMW now next r x).exchange := by
  unfold requestIDMW
  apply hn
  refine ⟨?_, ?_⟩
  · show Header.Get (Header.Set x.w.header "X-Request-ID" (formatInt36 now)) "X-Request-ID" ≠ ""
    rw [Header_Get_Set, if_pos rfl]
    exact formatInt36_ne_empty now
  · intro h
    simp [setHeader, hw] at h

/-- The function `http.Error` with a valid status code returns. -/
theorem httpError_ok (x : Exchange) (msg : String) (code : Int) (hc : 100 ≤ code ∧ code ≤ 999) :
    (httpError x msg code).panicked = false := by
  have h1 : ¬ (code < 100) := by omega
  have h2 : ¬ (code > 999) := by omega
  unfold httpError WriteHeader
  simp only [h1, h2, decide_False, Bool.or_self, Bool.false_eq_true, if_false]
  split
  · rfl
  · split <;> rfl

/-- The recovery middleware always returns. -/
theorem recoverMW_ok (next : Handler) (r : Request) (x : Exchange) :
    (recoverMW next r x).panicked = false := by
  unfold recoverMW
  cases h : next r x with
  | ok x1 => rfl
  | panic x1 v =>
    simp only
    have := httpError_ok (logTo x1 "ERROR" "panic" [("err", v)]) "internal error" 500 (by omega)
    cases h2 : httpError (logTo x1 "ERROR" "panic" [("err", v)]) "internal error" 500 with
    | ok x2 => rfl
    | panic x2 v2 => rw [h2] at this; exact absurd this (by simp [Outcome.panicked])

/-- The recovery middleware keeps the request id. -/
theorem good_recoverMW (next : Handler) (r : Request) (x : Exchange)
    (hn : Good (next r x).exchange) : Good (recoverMW next r x).exchange := by
  unfold recoverMW
  cases h : next r x with
  | ok x1 => rw [h] at hn; exact hn
  | panic x1 v =>
    rw [h] at hn
    simp only
    have := good_httpError (logTo x1 "ERROR" "panic" [("err", v)]) "internal error" 500 hn
    cases h2 : httpError (logTo x1 "ERROR" "panic" [("err", v)]) "internal error" 500 with
    | ok x2 => rw [h2] at this; exact this
    | panic x2 v2 => rw [h2] at this; exact this

/-- The auth part of the chain keeps the request id. -/
theorem good_inner (s : Server) (env : Env)
    (hcfg : ∀ ep ∈ s.cfg.Endpoints, ∀ v ∈ ep.Responses, headersKeepID v.Headers) :
    Preserves (if s.authMode != "" && s.authMode != "none" && s.authProv.isSome then
      if s.cfg.Server.CORS.isSome then
        skipAuthForOPTIONS (requireAuth s.authProv s.authMode) (routes s env)
      else requireAuth s.authProv s.authMode (routes s env)
    else routes s env) := by
  split
  · split
    · rw [skip_eq]
      exact good_requireAuth _ _ _ (good_routes s env hcfg)
    · exact good_requireAuth _ _ _ (good_routes s env hcfg)
  · exact good_routes s env hcfg

/-- Claim C10, amended: for every configuration in which no response variant
declares a header named X-Request-ID (in any letter case) with an empty
value, every environment and every request served through the handler of
`buildRouter` on a response not yet started, the handler returns without
panic and the final response carries an X-Request-ID header whose value is
not empty: on the replies of the auth gate, of the validation gate and of the
router, after a recovered panic, and on endpoint responses with default and
variant headers applied. -/
theorem buildRouter_response_has_request_id (s : Server) (env : Env) (r : Request)
    (x : Exchange) (hw : x.w.wroteHeader = false)
    (hcfg : ∀ ep ∈ s.cfg.Endpoints, ∀ v ∈ ep.Responses, ∀ e ∈ v.Headers,
      CanonicalMIMEHeaderKey e.1 = "X-Request-Id" → e.2 ≠ "") :
    (buildRouter s env r x).panicked = false ∧
    Header.Get (buildRouter s env r x).exchange.w.finalHeader "X-Request-ID" ≠ "" := by
  refine ⟨recoverMW_ok _ r x, ?_⟩
  have hgood : Good (buildRouter s env r x).exchange := by
    unfold buildRouter
    exact good_recoverMW _ r x
      (good_requestIDMW _ _ (good_loggingMW _ (good_inner s env hcfg)) r x hw)
  unfold ResponseWriter.finalHeader
  split
  · rename_i h
    exact hgood.2 h
  · exact hgood.1

/-- Witness of C10: the server with one endpoint whose variant sets a content
type, and a GET request. -/
theorem buildRouter_response_has_request_id_witness :
    x0.w.wroteHeader = false ∧
    (∀ ep ∈ (serverOf variantPlain).cfg.Endpoints, ∀ v ∈ ep.Responses, ∀ e ∈ v.Headers,
      CanonicalMIMEHeaderKey e.1 = "X-Request-Id" → e.2 ≠ "") ∧
    (buildRouter (serverOf variantPlain) envT (reqBare "GET") x0).panicked = false ∧
    Header.Get (buildRouter (serverOf variantPlain) envT (reqBare "GET")
      x0).exchange.w.finalHeader "X-Request-ID" ≠ "" :=
  ⟨rfl, by decide,
   buildRouter_response_has_request_id (serverOf variantPlain) envT (reqBare "GET") x0 rfl
     (by decide)⟩

/-- Counterexample to C10 as stated: the server with one endpoint whose
variant declares the header X-Request-ID with an empty value answers a GET
request with status 200 and an X-Request-ID header whose value is empty. -/
theorem buildRouter_request_id_emptied_by_variant_counterexample :
    (buildRouter (serverOf variantOverride) envT (reqBare "GET") x0).panicked = false ∧
    (buildRouter (serverOf variantOverride) envT (reqBare "GET") x0).exchange.w.finalStatus
      = 200 ∧
    (buildRouter (serverOf variantOverride) envT (reqBare "GET")
      x0).exchange.w.finalHeader.lookup "X-Request-Id" = some [""] ∧
    ¬ (Header.Get (buildRouter (serverOf variantOverride) envT (reqBare "GET")
      x0).exchange.w.finalHeader "X-Request-ID" ≠ "") := by
  decide

/-! ## Recovery: properties -/


/-- On a response not yet started, `http.Error` with a final status code
returns; the response has that status and its body gains the message and a
newline. -/
theorem httpError_fresh (x : Exchange) (msg : String) (code : Int)
    (hw : x.w.wroteHeader = false) (hc : 200 ≤ code ∧ code ≤ 999) :
    ∃ x1, httpError x msg code = Outcome.ok x1 ∧ x1.w.wroteHeader = true ∧ x1.w.status = code ∧
      x1.w.body = x.w.body ++ bytesOf (msg ++ "\n") ∧ x1.w.codes = x.w.codes ++ [code] ∧
      x1.log = x.log := by
  have h1 : ¬ (code < 100) := by omega
  have h2 : ¬ (code > 999) := by omega
  have h3 : ¬ (code ≤ 199) := by omega
  simp [httpError, WriteHeader, Write, Outcome.andThen, hw, h1, h2, h3]

/-- On a response whose status line went out, `http.Error` returns, keeps
the status and appends the message and a newline to the body. -/
theorem httpError_started (x : Exchange) (msg : String) (code : Int)
    (hw : x.w.wroteHeader = true) :
    ∃ x1, httpError x msg code = Outcome.ok x1 ∧ x1.w.wroteHeader = true ∧
      x1.w.status = x.w.status ∧ x1.w.sent = x.w.sent ∧
      x1.w.body = x.w.body ++ bytesOf (msg ++ "\n") := by
  simp [httpError, WriteHeader, Write, Outcome.andThen, hw]

/-- Counterexample to C11 as stated: a handler that writes status 200 and then
panics; `recoverMW` returns, but the response status is 200, not 500. -/
theorem recoverMW_panic_after_write_counterexample :
    (writesThenPanics (reqBare "GET") x0).panicked = true ∧
    (recoverMW writesThenPanics (reqBare "GET") x0).panicked = false ∧
    (recoverMW writesThenPanics (reqBare "GET") x0).exchange.w.finalStatus = 200 ∧
    ¬ ((recoverMW writesThenPanics (reqBare "GET") x0).exchange.w.finalStatus = 500) := by
  decide

/-- When the wrapped handler panics before the status line is written, the
response of `recoverMW` has status 500. -/
theorem recoverMW_status_unwritten (next : Handler) (r : Request) (x x1 : Exchange)
    (val : String) (hp : next r x = Outcome.panic x1 val) (hw : x1.w.wroteHeader = false) :
    (recoverMW next r x).exchange.w.finalStatus = 500 := by
  obtain ⟨x2, e, e1, e2, _⟩ := httpError_fresh (logTo x1 "ERROR" "panic" [("err", val)])
    "internal error" 500 (by simpa [logTo] using hw) (by omega)
  simp only [recoverMW, hp, e, Outcome.exchange, ResponseWriter.finalStatus, e1, e2]
  simp

/-- Claim C11, amended: when the wrapped handler panics, `recoverMW` returns
normally; the response status is 500 if the handler had not written the
status line before it panicked, and is the status already written otherwise. -/
theorem recoverMW_panic_status (next : Handler) (r : Request) (x x1 : Exchange) (val : String)
    (hp : next r x = Outcome.panic x1 val) :
    (recoverMW next r x).panicked = false ∧
    (x1.w.wroteHeader = false → (recoverMW next r x).exchange.w.finalStatus = 500) ∧
    (x1.w.wroteHeader = true →
      (recoverMW next r x).exchange.w.finalStatus = x1.w.status) := by
  refine ⟨recoverMW_ok next r x, recoverMW_status_unwritten next r x x1 val hp, ?_⟩
  intro hw
  obtain ⟨x2, e, e1, e2, _⟩ := httpError_started (logTo x1 "ERROR" "panic" [("err", val)])
    "internal error" 500 (by simpa [logTo] using hw)
  simp only [recoverMW, hp, e, Outcome.exchange, ResponseWriter.finalStatus, e1, e2]
  simp [logTo]

/-- Witness of C11: a handler that panics at once. -/
theorem recoverMW_panic_status_witness :
    panicsAtOnce (reqBare "GET") x0 = Outcome.panic x0 "boom" ∧
    (recoverMW panicsAtOnce (reqBare "GET") x0).panicked = false ∧
    (recoverMW panicsAtOnce (reqBare "GET") x0).exchange.w.finalStatus = 500 :=
  ⟨rfl, (recoverMW_panic_status panicsAtOnce (reqBare "GET") x0 x0 "boom" rfl).1,
   (recoverMW_panic_status panicsAtOnce (reqBare "GET") x0 x0 "boom" rfl).2.1 rfl⟩

/-! ## Validation gate: properties -/


/-- The gate in closed form when a validator is given. -/
theorem validateBody_some (env : Env) (wantCT : String) (val : JSONSchemaValidator)
    (next : Handler) (r : Request) (x : Exchange) :
    validateBody env wantCT (some val) next r x =
      if ctMismatch env wantCT r then httpError x "invalid content-type" 415
      else if r.Body.length > maxBody then httpError x "failed to read body" 400
      else
        match val.Validate r.Body with
        | some err => httpError x err 400
        | none => next r x := by
  unfold validateBody
  simp only [Option.isNone_some, Bool.and_false, Bool.false_eq_true, if_false]
  rfl

/-- The gate answers 415 when a type is required and the content type of
the request does not match it, whatever validator is given. -/
theorem validateBody_mismatch (env : Env) (wantCT : String) (v : Option JSONSchemaValidator)
    (next : Handler) (r : Request) (x : Exchange)
    (hct : trimSpace wantCT ≠ "") (hm : ctMismatch env wantCT r = true) :
    validateBody env wantCT v next r x = httpError x "invalid content-type" 415 := by
  have h1 : (trimSpace wantCT == "" && v.isNone) = false := by simp [hct]
  unfold validateBody
  rw [h1]
  simp only [Bool.false_eq_true, if_false]
  have key : ∀ (b : Bool) (A B : Outcome), b = true → (if b = true then A else B) = A := by
    intro b A B h
    rw [if_pos h]
  exact key (ctMismatch env wantCT r) _ _ hm

/-- Claim C12: for a required content type that is not blank (white space
around it trimmed) and a request whose Content-Type does not parse or whose
media type differs from the required one up to letter case, the gate is
`http.Error` with status 415, whatever the body, the validator and the next
handler are: none of them is used. The response is taken as not yet
started for the status. -/
theorem validateBody_rejects_content_type (env : Env) (wantCT : String)
    (v : Option JSONSchemaValidator) (next : Handler)
    (r : Request) (x : Exchange)
    (hct : trimSpace wantCT ≠ "")
    (hbad : (∃ e, env.parseMediaType (Header.Get r.Header "Content-Type") = Except.error e) ∨
      (∃ got, env.parseMediaType (Header.Get r.Header "Content-Type") = Except.ok got ∧
        env.equalFold got (trimSpace wantCT) = false))
    (hw : x.w.wroteHeader = false) :
    validateBody env wantCT v next r x = httpError x "invalid content-type" 415 ∧
    (validateBody env wantCT v next r x).panicked = false ∧
    (validateBody env wantCT v next r x).exchange.w.finalStatus = 415 := by
  have h2 : ctMismatch env wantCT r = true := by
    unfold ctMismatch
    have : (trimSpace wantCT != "") = true := by simpa using hct
    rw [this]
    simp only [if_true]
    rcases hbad with ⟨e, he⟩ | ⟨got, hg, hf⟩
    · rw [he]
    · rw [hg]; simp [hf]
  have e := validateBody_mismatch env wantCT v next r x hct h2
  obtain ⟨x1, e1, e2, e3, _⟩ := httpError_fresh x "invalid content-type" 415 hw (by omega)
  refine ⟨e, ?_, ?_⟩
  · rw [e, e1]; rfl
  · rw [e, e1]; simp [Outcome.exchange, ResponseWriter.finalStatus, e2, e3]

/-- Witness of C12: application/json required, text/plain sent. -/
theorem validateBody_rejects_content_type_witness :
    trimSpace "application/json" ≠ "" ∧
    ((∃ e, envT.parseMediaType (Header.Get (postReq "text/plain" "null").Header "Content-Type")
        = Except.error e) ∨
      (∃ got, envT.parseMediaType (Header.Get (postReq "text/plain" "null").Header "Content-Type")
        = Except.ok got ∧ envT.equalFold got (trimSpace "application/json") = false)) ∧
    x0.w.wroteHeader = false ∧
    (validateBody envT "application/json" (some acceptAll) accepted204 (postReq "text/plain" "null")
      x0).exchange.w.finalStatus = 415 :=
  ⟨by decide, Or.inr ⟨"text/plain", rfl, by decide⟩, rfl,
   (validateBody_rejects_content_type envT "application/json" (some acceptAll) accepted204
       (postReq "text/plain" "null") x0
     (by decide) (Or.inr ⟨"text/plain", rfl, by decide⟩) rfl).2.2⟩

/-- Counterexample to C13 as stated: the validator rejects the body with a
text; the response has status 400 but its body is the text followed by a
newline, not the text. -/
theorem validateBody_error_body_has_newline_counterexample :
    ctMismatch envT "application/json" (postReq "application/json" "null") = false ∧
    rejectAll.Validate (postReq "application/json" "null").Body =
      some "schema validation: missing property name" ∧
    (validateBody envT "application/json" (some rejectAll) accepted204
      (postReq "application/json" "null") x0).exchange.w.finalStatus = 400 ∧
    (validateBody envT "application/json" (some rejectAll) accepted204
      (postReq "application/json" "null") x0).exchange.w.body =
        bytesOf "schema validation: missing property name\n" ∧
    ¬ ((validateBody envT "application/json" (some rejectAll) accepted204
      (postReq "application/json" "null") x0).exchange.w.body =
        bytesOf "schema validation: missing property name") := by
  decide

/-- Claim C13, amended: when a validator is attached, the content-type check
passes and the validator rejects the buffered body, the gate is `http.Error`
with the error text and status 400, whatever the next handler is: the status
is 400 and the body written is the error text followed by a newline. -/
theorem validateBody_rejected_body_gets_400 (env : Env) (wantCT : String)
    (val : JSONSchemaValidator) (next : Handler)
    (r : Request) (x : Exchange) (err : String)
    (hct : ctMismatch env wantCT r = false)
    (hlen : r.Body.length ≤ maxBody)
    (hrej : val.Validate r.Body = some err)
    (hw : x.w.wroteHeader = false) :
    validateBody env wantCT (some val) next r x = httpError x err 400 ∧
    (validateBody env wantCT (some val) next r x).panicked = false ∧
    (validateBody env wantCT (some val) next r x).exchange.w.finalStatus = 400 ∧
    (validateBody env wantCT (some val) next r x).exchange.w.body =
      x.w.body ++ bytesOf (err ++ "\n") := by
  have e : validateBody env wantCT (some val) next r x = httpError x err 400 := by
    rw [validateBody_some, hct, if_neg (by simp), if_neg (by omega), hrej]
  obtain ⟨x1, e1, e2, e3, e4, _⟩ := httpError_fresh x err 400 hw (by omega)
  refine ⟨e, ?_, ?_, ?_⟩
  · rw [e, e1]; rfl
  · rw [e, e1]; simp [Outcome.exchange, ResponseWriter.finalStatus, e2, e3]
  · rw [e, e1]; exact e4

/-- Witness of C13: a matching content type and a validator that rejects. -/
theorem validateBody_rejected_body_gets_400_witness :
    ctMismatch envT "application/json" (postReq "application/json" "null") = false ∧
    (postReq "application/json" "null").Body.length ≤ maxBody ∧
    rejectAll.Validate (postReq "application/json" "null").Body =
      some "schema validation: missing property name" ∧
    x0.w.wroteHeader = false ∧
    (validateBody envT "application/json" (some rejectAll) accepted204
      (postReq "application/json" "null") x0).exchange.w.finalStatus = 400 :=
  ⟨by decide, by decide, by decide, rfl,
   (validateBody_rejected_body_gets_400 envT "application/json" rejectAll accepted204
       (postReq "application/json" "null") x0
     "schema validation: missing property name" (by decide) (by decide) (by decide) rfl).2.2.1⟩

/-- A text made of white space only trims to the empty text. -/
theorem trimSpace_blank (ct : String) (h : ct.toList.all isSpace = true) : trimSpace ct = "" := by
  have h1 : ct.toList.dropWhile isSpace = [] := by
    rw [List.dropWhile_eq_nil_iff]
    simpa using h
  unfold trimSpace
  rw [h1]
  rfl

/-- Claim C15: when the required content type is empty or white space only and
no validator is given, the gate is the identity on handlers, and so is the
gate applied any number of times. -/
theorem validateBody_blank_is_identity (env : Env) (ct : String) (h : ct.toList.all isSpace = true)
    :
    (∀ next : Handler, validateBody env ct none next = next) ∧
    (∀ (n : Nat) (next : Handler), (validateBody env ct none)^[n] next = next) := by
  have h1 : ∀ next : Handler, validateBody env ct none next = next := by
    intro next
    simp [validateBody, trimSpace_blank ct h]
  refine ⟨h1, ?_⟩
  intro n
  induction n with
  | zero => intro next; rfl
  | succ n ih => intro next; rw [Function.iterate_succ_apply, h1, ih]

/-- Witness of C15: the required type made of a blank and a tab. -/
theorem validateBody_blank_is_identity_witness :
    " \t".toList.all isSpace = true ∧
    (∀ next : Handler, validateBody envT " \t" none next = next) ∧
    (∀ (n : Nat) (next : Handler), (validateBody envT " \t" none)^[n] next = next) :=
  ⟨by decide, validateBody_blank_is_identity envT " \t" (by decide)⟩

/-! ## Header merge: properties -/


/-- Setting a header touches the header map only. -/
theorem setHeader_frame (x : Exchange) (k v : String) :
    (setHeader x k v).w.wroteHeader = x.w.wroteHeader ∧ (setHeader x k v).w.status = x.w.status ∧
    (setHeader x k v).w.sent = x.w.sent ∧ (setHeader x k v).w.early = x.w.early ∧
    (setHeader x k v).w.body = x.w.body ∧ (setHeader x k v).w.codes = x.w.codes ∧
    (setHeader x k v).log = x.log :=
  ⟨rfl, rfl, rfl, rfl, rfl, rfl, rfl⟩

/-- What is stored under a canonical name after `Set`. -/
theorem lookup_Set (h : MultiMap) (k v K : String) :
    (Header.Set h k v).lookup K =
      if K = CanonicalMIMEHeaderKey k then some [v] else h.lookup K := by
  unfold Header.Set
  by_cases hk : K = CanonicalMIMEHeaderKey k
  · simp [hk, List.lookup]
  · have : (K == CanonicalMIMEHeaderKey k) = false := by simpa using hk
    simp only [List.lookup, this, hk, if_false, lookup_filter_ne _ _ _ hk]

/-- The variant headers leave alone a name none of them declares. -/
theorem applyHeaders_lookup_other (hs : StrMap) (K : String)
    (hno : ∀ e ∈ hs, CanonicalMIMEHeaderKey e.1 ≠ K) :
    ∀ x, (applyHeaders hs x).w.header.lookup K = x.w.header.lookup K := by
  induction hs with
  | nil => intro x; rfl
  | cons e rest ih =>
    obtain ⟨k1, v1⟩ := e
    intro x
    simp only [applyHeaders]
    rw [ih (fun e he => hno e (List.mem_cons_of_mem _ he))]
    show (Header.Set x.w.header k1 v1).lookup K = _
    rw [lookup_Set, if_neg (fun h => hno (k1, v1) (List.mem_cons_self _ _) h.symm)]

/-- Under a name the variant headers declare, the response holds the value
of one of the entries that declare it. -/
theorem applyHeaders_lookup_declared (hs : StrMap) (K : String) :
    ∀ x, (∃ e ∈ hs, CanonicalMIMEHeaderKey e.1 = K) →
      ∃ e ∈ hs, CanonicalMIMEHeaderKey e.1 = K ∧
        (applyHeaders hs x).w.header.lookup K = some [e.2] := by
  induction hs with
  | nil => intro x h; obtain ⟨e, he, _⟩ := h; cases he
  | cons e rest ih =>
    obtain ⟨k1, v1⟩ := e
    intro x h
    simp only [applyHeaders]
    by_cases hrest : ∃ e ∈ rest, CanonicalMIMEHeaderKey e.1 = K
    · obtain ⟨e, he, hk, hl⟩ := ih (setHeader x k1 v1) hrest
      exact ⟨e, List.mem_cons_of_mem _ he, hk, hl⟩
    · have hno : ∀ e ∈ rest, CanonicalMIMEHeaderKey e.1 ≠ K := by
        intro e he hk
        exact hrest ⟨e, he, hk⟩
      obtain ⟨e, he, hk⟩ := h
      have hhead : CanonicalMIMEHeaderKey k1 = K := by
        rcases List.mem_cons.mp he with rfl | he2
        · exact hk
        · exact absurd hk (hno e he2)
      refine ⟨(k1, v1), List.mem_cons_self _ _, hhead, ?_⟩
      rw [applyHeaders_lookup_other rest K hno]
      show (Header.Set x.w.header k1 v1).lookup K = _
      rw [lookup_Set, if_pos hhead.symm]

/-- The loops over the headers touch the header map only. -/
theorem applyHeaders_frame (hs : StrMap) : ∀ x,
    (applyHeaders hs x).w.wroteHeader = x.w.wroteHeader ∧
    (applyHeaders hs x).w.status = x.w.status ∧ (applyHeaders hs x).w.sent = x.w.sent ∧
    (applyHeaders hs x).w.early = x.w.early ∧
    (applyHeaders hs x).w.body = x.w.body ∧ (applyHeaders hs x).w.codes = x.w.codes ∧
    (applyHeaders hs x).log = x.log := by
  induction hs with
  | nil => intro x; exact ⟨rfl, rfl, rfl, rfl, rfl, rfl, rfl⟩
  | cons e rest ih =>
    obtain ⟨k1, v1⟩ := e
    intro x
    simp only [applyHeaders]
    exact ih (setHeader x k1 v1)

/-- The loop over the defaults touches the header map only. -/
theorem applyDefaults_frame (hs : StrMap) : ∀ x,
    (applyDefaults hs x).w.wroteHeader = x.w.wroteHeader ∧
    (applyDefaults hs x).w.status = x.w.status ∧ (applyDefaults hs x).w.sent = x.w.sent ∧
    (applyDefaults hs x).w.early = x.w.early ∧
    (applyDefaults hs x).w.body = x.w.body ∧ (applyDefaults hs x).w.codes = x.w.codes ∧
    (applyDefaults hs x).log = x.log := by
  induction hs with
  | nil => intro x; exact ⟨rfl, rfl, rfl, rfl, rfl, rfl, rfl⟩
  | cons e rest ih =>
    obtain ⟨k1, v1⟩ := e
    intro x
    simp only [applyDefaults]
    split
    · exact ih (setHeader x k1 v1)
    · exact ih x

/-- The value `Get` reads is decided by what is stored under the canonical
name. -/
theorem Header_Get_of_lookup (h h2 : MultiMap) (k k2 : String)
    (e : h.lookup (CanonicalMIMEHeaderKey k) = h2.lookup (CanonicalMIMEHeaderKey k2)) :
    Header.Get h k = Header.Get h2 k2 := by
  unfold Header.Get
  rw [e]

/-- The defaults leave alone a name none of them declares. -/
theorem applyDefaults_lookup_other (hs : StrMap) (K : String)
    (hno : ∀ e ∈ hs, CanonicalMIMEHeaderKey e.1 ≠ K) :
    ∀ x, (applyDefaults hs x).w.header.lookup K = x.w.header.lookup K := by
  induction hs with
  | nil => intro x; rfl
  | cons e rest ih =>
    obtain ⟨k1, v1⟩ := e
    intro x
    simp only [applyDefaults]
    rw [ih (fun e he => hno e (List.mem_cons_of_mem _ he))]
    split
    · show (Header.Set x.w.header k1 v1).lookup K = _
      rw [lookup_Set, if_neg (fun h => hno (k1, v1) (List.mem_cons_self _ _) h.symm)]
    · rfl

/-- The defaults leave alone a header for which the response reads a
non-empty value. -/
theorem applyDefaults_lookup_kept (hs : StrMap) (k : String) :
    ∀ x, Header.Get x.w.header k ≠ "" →
      (applyDefaults hs x).w.header.lookup (CanonicalMIMEHeaderKey k) =
        x.w.header.lookup (CanonicalMIMEHeaderKey k) := by
  induction hs with
  | nil => intro x _; rfl
  | cons e rest ih =>
    obtain ⟨k1, v1⟩ := e
    intro x hx
    simp only [applyDefaults]
    by_cases hk : CanonicalMIMEHeaderKey k1 = CanonicalMIMEHeaderKey k
    · have hg : Header.Get x.w.header k1 = Header.Get x.w.header k :=
        Header_Get_of_lookup _ _ _ _ (by rw [hk])
      have : (Header.Get x.w.header k1 == "") = false := by
        rw [hg]; simpa using hx
      rw [this]
      exact ih x hx
    · have hl : (setHeader x k1 v1).w.header.lookup (CanonicalMIMEHeaderKey k) =
          x.w.header.lookup (CanonicalMIMEHeaderKey k) := by
        show (Header.Set x.w.header k1 v1).lookup _ = _
        rw [lookup_Set, if_neg (fun h => hk h.symm)]
      split
      · rw [ih (setHeader x k1 v1) (by
          rw [Header_Get_of_lookup _ x.w.header k k hl]; exact hx), hl]
      · exact ih x hx

/-- Under a name the defaults declare and for which the response reads no
non-empty value, the response ends with the value of one of the entries that
declare it. -/
theorem applyDefaults_lookup_declared (hs : StrMap) (k : String) :
    ∀ x, Header.Get x.w.header k = "" →
      (∃ e ∈ hs, CanonicalMIMEHeaderKey e.1 = CanonicalMIMEHeaderKey k) →
      ∃ e ∈ hs, CanonicalMIMEHeaderKey e.1 = CanonicalMIMEHeaderKey k ∧
        (applyDefaults hs x).w.header.lookup (CanonicalMIMEHeaderKey k) = some [e.2] := by
  induction hs with
  | nil => intro x _ h; obtain ⟨e, he, _⟩ := h; cases he
  | cons e rest ih =>
    obtain ⟨k1, v1⟩ := e
    intro x hx h
    simp only [applyDefaults]
    by_cases hk : CanonicalMIMEHeaderKey k1 = CanonicalMIMEHeaderKey k
    · have hg : Header.Get x.w.header k1 = Header.Get x.w.header k :=
        Header_Get_of_lookup _ _ _ _ (by rw [hk])
      have : (Header.Get x.w.header k1 == "") = true := by
        rw [hg]; simpa using hx
      rw [this]
      simp only [if_true]
      have hset : (setHeader x k1 v1).w.header.lookup (CanonicalMIMEHeaderKey k) = some [v1] := by
        show (Header.Set x.w.header k1 v1).lookup _ = _
        rw [lookup_Set, if_pos hk.symm]
      have hget : Header.Get (setHeader x k1 v1).w.header k = v1 := by
        unfold Header.Get
        rw [hset]
      by_cases hv : v1 = ""
      · by_cases hrest : ∃ e ∈ rest, CanonicalMIMEHeaderKey e.1 = CanonicalMIMEHeaderKey k
        · obtain ⟨e, he, hek, hl⟩ := ih (setHeader x k1 v1) (by rw [hget, hv]) hrest
          exact ⟨e, List.mem_cons_of_mem _ he, hek, hl⟩
        · refine ⟨(k1, v1), List.mem_cons_self _ _, hk, ?_⟩
          rw [applyDefaults_lookup_other rest _ (fun e he hek => hrest ⟨e, he, hek⟩), hset]
      · refine ⟨(k1, v1), List.mem_cons_self _ _, hk, ?_⟩
        rw [applyDefaults_lookup_kept rest k (setHeader x k1 v1) (by rw [hget]; exact hv), hset]
    · have hrest : ∃ e ∈ rest, CanonicalMIMEHeaderKey e.1 = CanonicalMIMEHeaderKey k := by
        obtain ⟨e, he, hek⟩ := h
        rcases List.mem_cons.mp he with rfl | he2
        · exact absurd hek hk
        · exact ⟨e, he2, hek⟩
      have hl : (setHeader x k1 v1).w.header.lookup (CanonicalMIMEHeaderKey k) =
          x.w.header.lookup (CanonicalMIMEHeaderKey k) := by
        show (Header.Set x.w.header k1 v1).lookup _ = _
        rw [lookup_Set, if_neg (fun h => hk h.symm)]
      split
      · obtain ⟨e, he, hek, hl2⟩ := ih (setHeader x k1 v1) (by
          rw [Header_Get_of_lookup _ x.w.header k k hl]; exact hx) hrest
        exact ⟨e, List.mem_cons_of_mem _ he, hek, hl2⟩
      · obtain ⟨e, he, hek, hl2⟩ := ih x hx hrest
        exact ⟨e, List.mem_cons_of_mem _ he, hek, hl2⟩

/-- Counterexample to C16 as stated: the response holds the header X-App with
an empty value before the handler runs, the variant does not declare X-App
and the defaults do; after the merge the value is the default, not the one
the response had. -/
theorem mergedHeaders_empty_value_replaced_counterexample :
    xEmptyApp.w.header.lookup "X-App" = some [""] ∧
    variantPlain.Headers.all (fun e => CanonicalMIMEHeaderKey e.1 != "X-App") = true ∧
    ¬ ((mergedHeaders (serverOf variantPlain) variantPlain xEmptyApp).w.header.lookup "X-App" =
      xEmptyApp.w.header.lookup "X-App") ∧
    (mergedHeaders (serverOf variantPlain) variantPlain xEmptyApp).w.header.lookup "X-App" =
      some ["mocker"] := by
  decide

/-- Claim C16, amended: after the merge, for every header name k (names taken
in canonical form): if the variant declares k, the response value of k is
the value of a variant entry that declares it; otherwise, if the response had
a non-empty value for k, what it stored for k is kept; otherwise, if the
defaults declare k, the value is that of a default entry that declares it. -/
theorem mergedHeaders_precedence (s : Server) (v : ResponseVariant) (x : Exchange) (k : String) :
    (declares v.Headers k →
      ∃ e ∈ v.Headers, CanonicalMIMEHeaderKey e.1 = CanonicalMIMEHeaderKey k ∧
        (mergedHeaders s v x).w.header.lookup (CanonicalMIMEHeaderKey k) = some [e.2] ∧
        Header.Get (mergedHeaders s v x).w.header k = e.2) ∧
    (¬ declares v.Headers k → Header.Get x.w.header k ≠ "" →
      (mergedHeaders s v x).w.header.lookup (CanonicalMIMEHeaderKey k) =
        x.w.header.lookup (CanonicalMIMEHeaderKey k)) ∧
    (¬ declares v.Headers k → Header.Get x.w.header k = "" →
      declares s.cfg.Server.DefaultHeaders k →
      ∃ e ∈ s.cfg.Server.DefaultHeaders,
        CanonicalMIMEHeaderKey e.1 = CanonicalMIMEHeaderKey k ∧
        (mergedHeaders s v x).w.header.lookup (CanonicalMIMEHeaderKey k) = some [e.2] ∧
        Header.Get (mergedHeaders s v x).w.header k = e.2) := by
  refine ⟨?_, ?_, ?_⟩
  · intro hd
    obtain ⟨e, he, hk, hl⟩ := applyHeaders_lookup_declared v.Headers (CanonicalMIMEHeaderKey k)
      (applyDefaults s.cfg.Server.DefaultHeaders x) hd
    exact ⟨e, he, hk, hl, by unfold Header.Get mergedHeaders; rw [hl]⟩
  · intro hnd hx
    have hno : ∀ e ∈ v.Headers, CanonicalMIMEHeaderKey e.1 ≠ CanonicalMIMEHeaderKey k :=
      fun e he hk => hnd ⟨e, he, hk⟩
    unfold mergedHeaders
    rw [applyHeaders_lookup_other v.Headers _ hno, applyDefaults_lookup_kept _ k x hx]
  · intro hnd hx hdef
    have hno : ∀ e ∈ v.Headers, CanonicalMIMEHeaderKey e.1 ≠ CanonicalMIMEHeaderKey k :=
      fun e he hk => hnd ⟨e, he, hk⟩
    obtain ⟨e, he, hk, hl⟩ := applyDefaults_lookup_declared s.cfg.Server.DefaultHeaders k x hx hdef
    have hl2 : (mergedHeaders s v x).w.header.lookup (CanonicalMIMEHeaderKey k) = some [e.2] := by
      unfold mergedHeaders
      rw [applyHeaders_lookup_other v.Headers _ hno, hl]
    exact ⟨e, he, hk, hl2, by unfold Header.Get; rw [hl2]⟩

/-! ## Endpoint handler: properties -/


/-- The merge of the headers touches the header map only. -/
theorem mergedHeaders_frame (s : Server) (v : ResponseVariant) (x : Exchange) :
    (mergedHeaders s v x).w.wroteHeader = x.w.wroteHeader ∧
    (mergedHeaders s v x).w.status = x.w.status ∧ (mergedHeaders s v x).w.sent = x.w.sent ∧
    (mergedHeaders s v x).w.early = x.w.early ∧
    (mergedHeaders s v x).w.body = x.w.body ∧ (mergedHeaders s v x).w.codes = x.w.codes ∧
    (mergedHeaders s v x).log = x.log := by
  obtain ⟨a1, a2, a3, a4, a5, a6, a7⟩ := applyDefaults_frame s.cfg.Server.DefaultHeaders x
  obtain ⟨b1, b2, b3, b4, b5, b6, b7⟩ :=
    applyHeaders_frame v.Headers (applyDefaults s.cfg.Server.DefaultHeaders x)
  unfold mergedHeaders
  exact ⟨b1.trans a1, b2.trans a2, b3.trans a3, b4.trans a4, b5.trans a5, b6.trans a6,
    b7.trans a7⟩

/-- The handler when the wait is cut short by the context. -/
theorem endpointHandler_cancelled (s : Server) (env : Env) (ep : Endpoint) (r : Request)
    (x : Exchange) (v : ResponseVariant) (hv : pickVariant ep r = some v)
    (hc : (decide (v.DelayMs > 0) && r.ctx.doneFirst) = true) :
    endpointHandler s env ep r x = Outcome.ok (mergedHeaders s v x) := by
  unfold endpointHandler
  rw [hv]
  simp only [hc, if_true]
  rfl

/-- The handler when the body is produced: the tail runs on the merged
headers. -/
theorem endpointHandler_ok (s : Server) (env : Env) (ep : Endpoint) (r : Request)
    (x : Exchange) (v : ResponseVariant) (data : Data) (body : Bytes)
    (hv : pickVariant ep r = some v)
    (hc : (decide (v.DelayMs > 0) && r.ctx.doneFirst) = false)
    (hd : BuildData r env.nowRFC3339 = some data)
    (hb : bodyResult s env v data = Except.ok body) :
    endpointHandler s env ep r x = writeResponse v body (mergedHeaders s v x) := by
  unfold endpointHandler
  rw [hv]
  simp only [hc, hd, Bool.false_eq_true, if_false]
  unfold bodyResult at hb
  unfold mergedHeaders
  by_cases h1 : (v.Body != "") = true
  · rw [if_pos h1] at hb ⊢
    cases hr : s.renderer with
    | none => rw [hr] at hb; simp only at hb ⊢; cases hb; rfl
    | some rd => rw [hr] at hb; simp only at hb ⊢; rw [hb]
  · rw [if_neg h1] at hb ⊢
    by_cases h2 : (v.BodyFile != "") = true
    · rw [if_pos h2] at hb ⊢
      cases hr : s.renderer with
      | none => rw [hr] at hb; simp only at hb ⊢; rw [hb]
      | some rd => rw [hr] at hb; simp only at hb ⊢; rw [hb]
    · rw [if_neg h2] at hb ⊢
      cases hb
      rfl

/-- The handler when the body cannot be produced: the error is logged and
answered through `http.Error` with status 500, on the merged headers. -/
theorem endpointHandler_err (s : Server) (env : Env) (ep : Endpoint) (r : Request)
    (x : Exchange) (v : ResponseVariant) (data : Data) (err : String)
    (hv : pickVariant ep r = some v)
    (hc : (decide (v.DelayMs > 0) && r.ctx.doneFirst) = false)
    (hd : BuildData r env.nowRFC3339 = some data)
    (hb : bodyResult s env v data = Except.error err) :
    ∃ msg attrs text, (text = "template error" ∨ text = "internal error") ∧
      endpointHandler s env ep r x =
        httpError (logTo (mergedHeaders s v x) "ERROR" msg attrs) text 500 := by
  unfold endpointHandler
  rw [hv]
  simp only [hc, hd, Bool.false_eq_true, if_false]
  unfold bodyResult at hb
  unfold mergedHeaders
  by_cases h1 : (v.Body != "") = true
  · rw [if_pos h1] at hb ⊢
    cases hr : s.renderer with
    | none => rw [hr] at hb; simp only at hb; cases hb
    | some rd =>
      rw [hr] at hb; simp only at hb ⊢; rw [hb]
      exact ⟨_, _, _, Or.inl rfl, rfl⟩
  · rw [if_neg h1] at hb ⊢
    by_cases h2 : (v.BodyFile != "") = true
    · rw [if_pos h2] at hb ⊢
      cases hr : s.renderer with
      | none =>
        rw [hr] at hb; simp only at hb ⊢; rw [hb]
        exact ⟨_, _, _, Or.inr rfl, rfl⟩
      | some rd =>
        rw [hr] at hb; simp only at hb ⊢; rw [hb]
        exact ⟨_, _, _, Or.inl rfl, rfl⟩
    · rw [if_neg h2] at hb
      cases hb

/-- Every call of `WriteHeader` records its code. -/
theorem WriteHeader_codes (x : Exchange) (code : Int) :
    (WriteHeader x code).exchange.w.codes = x.w.codes ++ [code] := by
  unfold WriteHeader
  simp only
  split
  · rfl
  · split
    · rfl
    · split <;> rfl

/-- The method `Write` hands no code to `WriteHeader`. -/
theorem Write_codes (x : Exchange) (b : Bytes) : (Write x b).exchange.w.codes = x.w.codes := by
  unfold Write
  simp only [Outcome.exchange]
  split <;> rfl

/-- On a response not yet started, `WriteHeader` with a final status code
(101, or 200 to 999) fixes the status and the header copy. -/
theorem WriteHeader_final (x : Exchange) (code : Int) (hw : x.w.wroteHeader = false)
    (h1 : code = 101 ∨ 200 ≤ code) (h2 : code ≤ 999) :
    WriteHeader x code = Outcome.ok { x with w := { x.w with
      codes := x.w.codes ++ [code], wroteHeader := true, status := code, sent := x.w.header } } :=
          by
  have a1 : ¬ (code < 100) := by omega
  have a2 : ¬ (code > 999) := by omega
  have a3 : 100 ≤ code → code ≤ 199 → code = 101 := by omega
  simp [WriteHeader, hw, a1, a2]
  exact a3

/-- The tail of the handler is `WriteHeader` on the status of the variant,
200 for 0, followed by `Write` when there is a body. -/
theorem writeResponse_eq (v : ResponseVariant) (body : Bytes) (x : Exchange) :
    writeResponse v body x = (WriteHeader x (statusOf v)).andThen (fun x1 =>
      if body.length > 0 then Write x1 body else Outcome.ok x1) := rfl

/-- The tail of the handler hands the status of the variant, 200 for 0, to
`WriteHeader`, once. -/
theorem writeResponse_codes (v : ResponseVariant) (body : Bytes) (x : Exchange) :
    (writeResponse v body x).exchange.w.codes = x.w.codes ++ [statusOf v] := by
  rw [writeResponse_eq]
  have h := WriteHeader_codes x (statusOf v)
  cases hwh : WriteHeader x (statusOf v) with
  | ok x1 =>
    rw [hwh] at h
    simp only [Outcome.andThen]
    split
    · rw [Write_codes]; exact h
    · exact h
  | panic x1 val =>
    rw [hwh] at h
    exact h

/-- On a response not yet started and with a final status code, the tail of
the handler returns and the response has the status of the variant, 200 for
0, the merged headers and the body produced. -/
theorem writeResponse_final (v : ResponseVariant) (body : Bytes) (x : Exchange)
    (hw : x.w.wroteHeader = false) (h1 : statusOf v = 101 ∨ 200 ≤ statusOf v)
    (h2 : statusOf v ≤ 999) :
    (writeResponse v body x).panicked = false ∧
    (writeResponse v body x).exchange.w.finalStatus = statusOf v ∧
    (writeResponse v body x).exchange.w.body = x.w.body ++ body ∧
    (writeResponse v body x).exchange.w.sent = x.w.header := by
  rw [writeResponse_eq, WriteHeader_final x (statusOf v) hw h1 h2]
  simp only [Outcome.andThen]
  split
  · simp [Write, Outcome.panicked, Outcome.exchange, ResponseWriter.finalStatus]
  · rename_i hlen
    have : body = [] := by
      cases body with
      | nil => rfl
      | cons b bs => simp at hlen
    simp [this, Outcome.panicked, Outcome.exchange, ResponseWriter.finalStatus]

/-- Claim C17: when the handler is not cancelled and the body is produced, the
code it hands to `WriteHeader` is 200 for a variant status 0 and the variant
status otherwise; on a response not yet started and for a final status code
(101, or 200 to 999) the handler returns and that code is the response
status. -/
theorem endpointHandler_writes_variant_status (s : Server) (env : Env) (ep : Endpoint)
    (r : Request) (x : Exchange)
    (v : ResponseVariant) (data : Data) (body : Bytes)
    (hv : pickVariant ep r = some v)
    (hc : (decide (v.DelayMs > 0) && r.ctx.doneFirst) = false)
    (hd : BuildData r env.nowRFC3339 = some data)
    (hb : bodyResult s env v data = Except.ok body) :
    (endpointHandler s env ep r x).exchange.w.codes =
      x.w.codes ++ [if v.Status = 0 then 200 else v.Status] ∧
    (x.w.wroteHeader = false → (statusOf v = 101 ∨ 200 ≤ statusOf v) → statusOf v ≤ 999 →
      (endpointHandler s env ep r x).panicked = false ∧
      (endpointHandler s env ep r x).exchange.w.finalStatus =
        (if v.Status = 0 then 200 else v.Status)) := by
  have e : statusOf v = (if v.Status = 0 then 200 else v.Status) := by
    unfold statusOf
    by_cases h : v.Status = 0 <;> simp [h]
  rw [endpointHandler_ok s env ep r x v data body hv hc hd hb]
  refine ⟨?_, ?_⟩
  · rw [writeResponse_codes, (mergedHeaders_frame s v x).2.2.2.2.2.1, e]
  · intro hw h1 h2
    have hw2 : (mergedHeaders s v x).w.wroteHeader = false := by
      rw [(mergedHeaders_frame s v x).1]; exact hw
    obtain ⟨p1, p2, _⟩ := writeResponse_final v body (mergedHeaders s v x) hw2 h1 h2
    exact ⟨p1, by rw [p2, e]⟩

/-- Witness of C17: a variant with status 0 and an inline body. -/
theorem endpointHandler_writes_variant_status_witness :
    pickVariant (epOf [variantDelay]) (reqBare "GET") = some variantDelay ∧
    (decide (variantDelay.DelayMs > 0) && (reqBare "GET").ctx.doneFirst) = false ∧
    BuildData (reqBare "GET") envT.nowRFC3339 = some dataT ∧
    bodyResult (serverOf variantDelay) envT variantDelay
      dataT = Except.ok (bytesOf "late") ∧
    (endpointHandler (serverOf variantDelay) envT (epOf [variantDelay]) (reqBare "GET")
      x0).exchange.w.codes = x0.w.codes ++
          [if variantDelay.Status = 0 then 200 else variantDelay.Status] :=
  ⟨by decide, by decide, by decide, rfl,
   (endpointHandler_writes_variant_status (serverOf variantDelay) envT (epOf [variantDelay])
       (reqBare "GET") x0 variantDelay
     dataT (bytesOf "late")
     (by decide) (by decide) (by decide) rfl).1⟩

/-- Claim C18: when producing the body fails, the handler returns, the response
(not yet started before) has status 500 whatever the variant declares, and
the only bytes written are the line of the error message. -/
theorem endpointHandler_body_failure_gives_500 (s : Server) (env : Env) (ep : Endpoint)
    (r : Request) (x : Exchange)
    (v : ResponseVariant) (data : Data) (err : String)
    (hv : pickVariant ep r = some v)
    (hc : (decide (v.DelayMs > 0) && r.ctx.doneFirst) = false)
    (hd : BuildData r env.nowRFC3339 = some data)
    (hb : bodyResult s env v data = Except.error err)
    (hw : x.w.wroteHeader = false) :
    (endpointHandler s env ep r x).panicked = false ∧
    (endpointHandler s env ep r x).exchange.w.finalStatus = 500 ∧
    (endpointHandler s env ep r x).exchange.w.codes = x.w.codes ++ [500] ∧
    ((endpointHandler s env ep r x).exchange.w.body = x.w.body ++ bytesOf "template error\n" ∨
      (endpointHandler s env ep r x).exchange.w.body = x.w.body ++ bytesOf "internal error\n") := by
  obtain ⟨msg, attrs, text, ht, e⟩ := endpointHandler_err s env ep r x v data err hv hc hd hb
  obtain ⟨f1, _, _, _, f5, f6, _⟩ := mergedHeaders_frame s v x
  obtain ⟨x1, e1, e2, e3, e4, e5, _⟩ := httpError_fresh
    (logTo (mergedHeaders s v x) "ERROR" msg attrs) text 500
    (by simpa [logTo, f1] using hw) (by omega)
  rw [e, e1]
  refine ⟨rfl, ?_, ?_, ?_⟩
  · simp [Outcome.exchange, ResponseWriter.finalStatus, e2, e3]
  · simp only [Outcome.exchange, e5, logTo, f6]
  · simp only [Outcome.exchange, e4, logTo, f5]
    rcases ht with rfl | rfl
    · exact Or.inl rfl
    · exact Or.inr rfl

/-- Witness of C18: a variant with status 201 whose body file is missing. -/
theorem endpointHandler_body_failure_gives_500_witness :
    pickVariant (epOf [variantFile]) (reqBare "GET") = some variantFile ∧
    (decide (variantFile.DelayMs > 0) && (reqBare "GET").ctx.doneFirst) = false ∧
    BuildData (reqBare "GET") envT.nowRFC3339 = some dataT ∧
    bodyResult (serverOf variantFile) envT variantFile
      dataT = Except.error "no such file" ∧
    x0.w.wroteHeader = false ∧
    (endpointHandler (serverOf variantFile) envT (epOf [variantFile]) (reqBare "GET")
      x0).exchange.w.finalStatus = 500 :=
  ⟨by decide, by decide, by decide, rfl, rfl,
   (endpointHandler_body_failure_gives_500 (serverOf variantFile) envT (epOf [variantFile])
       (reqBare "GET") x0 variantFile
     dataT "no such file"
     (by decide) (by decide) (by decide) rfl rfl).2.1⟩

/-- Claim C19: for a variant with a positive delay and a context that is done
before the timer fires, the handler returns after the merge of the headers:
no code goes to `WriteHeader`, the status line is not written and no byte is
added to the body. -/
theorem endpointHandler_cancelled_writes_nothing (s : Server) (env : Env) (ep : Endpoint)
    (r : Request) (x : Exchange)
    (v : ResponseVariant)
    (hv : pickVariant ep r = some v) (hpos : v.DelayMs > 0) (hdone : r.ctx.doneFirst = true) :
    endpointHandler s env ep r x = Outcome.ok (mergedHeaders s v x) ∧
    (endpointHandler s env ep r x).exchange.w.codes = x.w.codes ∧
    (endpointHandler s env ep r x).exchange.w.early = x.w.early ∧
    (endpointHandler s env ep r x).exchange.w.wroteHeader = x.w.wroteHeader ∧
    (endpointHandler s env ep r x).exchange.w.body = x.w.body := by
  have e := endpointHandler_cancelled s env ep r x v hv (by simp [hpos, hdone])
  obtain ⟨f1, _, _, f4, f5, f6, _⟩ := mergedHeaders_frame s v x
  rw [e]
  exact ⟨rfl, f6, f4, f1, f5⟩

/-- Witness of C19: a variant with a delay of 50 ms and a cancelled request. -/
theorem endpointHandler_cancelled_writes_nothing_witness :
    pickVariant (epOf [variantDelay]) reqCancelled = some variantDelay ∧
    variantDelay.DelayMs > 0 ∧ reqCancelled.ctx.doneFirst = true ∧
    (endpointHandler (serverOf variantDelay) envT (epOf [variantDelay]) reqCancelled
      x0).exchange.w.codes = x0.w.codes ∧
    (endpointHandler (serverOf variantDelay) envT (epOf [variantDelay]) reqCancelled
      x0).exchange.w.body = x0.w.body :=
  ⟨by decide, by decide, rfl,
   (endpointHandler_cancelled_writes_nothing (serverOf variantDelay) envT (epOf [variantDelay])
       reqCancelled x0 variantDelay
     (by decide) (by decide) rfl).2.1,
   (endpointHandler_cancelled_writes_nothing (serverOf variantDelay) envT (epOf [variantDelay])
       reqCancelled x0 variantDelay
     (by decide) (by decide) rfl).2.2.2.2⟩

/-! ## Panics in the server chain: properties -/


/-- The function `http.Error` with a valid status code does not panic. -/
theorem httpError_ne_panic (x : Exchange) (msg : String) (code : Int)
    (hc : 100 ≤ code ∧ code ≤ 999) (x1 : Exchange) (val : String) :
    httpError x msg code ≠ Outcome.panic x1 val := by
  intro h
  have := httpError_ok x msg code hc
  rw [h] at this
  simp [Outcome.panicked] at this

/-- A panic of `WriteHeader` leaves the status line as it was. -/
theorem WriteHeader_panic (x x1 : Exchange) (code : Int) (val : String)
    (h : WriteHeader x code = Outcome.panic x1 val) :
    x1.w.wroteHeader = x.w.wroteHeader := by
  unfold WriteHeader at h
  simp only at h
  split at h
  · cases h
  · split at h
    · cases h; rfl
    · split at h <;> cases h

/-- A panic of the tail of the handler comes from `WriteHeader`. -/
theorem writeResponse_panic (v : ResponseVariant) (body : Bytes) (x x1 : Exchange)
    (val : String) (h : writeResponse v body x = Outcome.panic x1 val) :
    x1.w.wroteHeader = x.w.wroteHeader := by
  rw [writeResponse_eq] at h
  cases hwh : WriteHeader x (statusOf v) with
  | ok x2 =>
    rw [hwh] at h
    simp only [Outcome.andThen] at h
    split at h
    · simp [Write] at h
    · cases h
  | panic x2 v2 =>
    rw [hwh] at h
    simp only [Outcome.andThen] at h
    cases h
    exact WriteHeader_panic x x1 _ _ hwh

/-- The endpoint handler panics only before the status line is written. -/
theorem endpointHandler_panicsUnwritten (s : Server) (env : Env) (ep : Endpoint) :
    PanicsUnwritten (endpointHandler s env ep) := by
  intro r x x1 val hw h
  cases hv : pickVariant ep r with
  | none =>
    unfold endpointHandler at h
    rw [hv] at h
    cases h
    exact hw
  | some v =>
    have hm : (mergedHeaders s v x).w.wroteHeader = false := by
      rw [(mergedHeaders_frame s v x).1]; exact hw
    cases hc : (decide (v.DelayMs > 0) && r.ctx.doneFirst) with
    | true =>
      rw [endpointHandler_cancelled s env ep r x v hv hc] at h
      cases h
    | false =>
      cases hd : BuildData r env.nowRFC3339 with
      | none =>
        unfold endpointHandler at h
        rw [hv] at h
        simp only [hc, hd, Bool.false_eq_true, if_false] at h
        cases h
        exact hm
      | some data =>
        cases hb : bodyResult s env v data with
        | ok body =>
          rw [endpointHandler_ok s env ep r x v data body hv hc hd hb] at h
          rw [writeResponse_panic v body _ x1 val h]
          exact hm
        | error err =>
          obtain ⟨msg, attrs, text, _, e⟩ := endpointHandler_err s env ep r x v data err hv hc hd hb
          rw [e] at h
          exact absurd h (httpError_ne_panic _ _ _ (by omega) _ _)

/-- The gate in closed form when a type is required and no validator is
given. -/
theorem validateBody_none (env : Env) (wantCT : String) (next : Handler) (r : Request)
    (x : Exchange) (hct : (trimSpace wantCT == "") = false) :
    validateBody env wantCT none next r x =
      if ctMismatch env wantCT r then httpError x "invalid content-type" 415 else next r x := by
  unfold validateBody
  simp only [hct, Bool.false_and, Bool.false_eq_true, if_false]
  rfl

/-- The validation gate panics only where the handler behind it does. -/
theorem validateBody_panicsUnwritten (env : Env) (ct : String) (v : Option JSONSchemaValidator)
    (next : Handler) (hn : PanicsUnwritten next) : PanicsUnwritten (validateBody env ct v next) :=
        by
  intro r x x1 val hw h
  cases v with
  | none =>
    cases hct : (trimSpace ct == "") with
    | true =>
      have : validateBody env ct none next = next := by simp [validateBody, hct]
      rw [this] at h
      exact hn r x x1 val hw h
    | false =>
      rw [validateBody_none env ct next r x hct] at h
      split at h
      · exact absurd h (httpError_ne_panic _ _ _ (by omega) _ _)
      · exact hn r x x1 val hw h
  | some vl =>
    rw [validateBody_some] at h
    split at h
    · exact absurd h (httpError_ne_panic _ _ _ (by omega) _ _)
    · split at h
      · exact absurd h (httpError_ne_panic _ _ _ (by omega) _ _)
      · split at h
        · exact absurd h (httpError_ne_panic _ _ _ (by omega) _ _)
        · exact hn r x x1 val hw h

/-- The replies of the router itself do not panic. -/
theorem routerMiss_panicsUnwritten (allowed : Option (List String)) :
    PanicsUnwritten (routerMiss allowed) := by
  intro r x x1 val hw h
  unfold routerMiss at h
  cases allowed with
  | none => exact absurd h (httpError_ne_panic _ _ _ (by omega) _ _)
  | some ms =>
    simp only at h
    cases hwh : WriteHeader (ms.foldl (fun acc m =>
        { acc with w := { acc.w with header := Header.Add acc.w.header "Allow" m } }) x) 405 with
    | ok x2 =>
      rw [hwh] at h
      simp [Outcome.andThen, Write] at h
    | panic x2 v2 =>
      have : ∀ y : Exchange, (WriteHeader y 405).panicked = false := by
        intro y
        unfold WriteHeader
        simp only
        split
        · rfl
        · simp [Outcome.panicked]
      have h2 := this (ms.foldl (fun acc m =>
        { acc with w := { acc.w with header := Header.Add acc.w.header "Allow" m } }) x)
      rw [hwh] at h2
      simp [Outcome.panicked] at h2

/-- The route table panics only before the status line is written. -/
theorem routes_panicsUnwritten (s : Server) (env : Env) : PanicsUnwritten (routes s env) := by
  intro r x x1 val hw h
  unfold routes at h
  split at h
  · rename_i i keys values _
    cases hep : s.cfg.Endpoints[i]? with
    | none =>
      rw [hep] at h
      exact routerMiss_panicsUnwritten none r x x1 val hw h
    | some ep =>
      rw [hep] at h
      simp only at h
      have hrh : PanicsUnwritten (routeHandler s env ep) := by
        unfold routeHandler
        simp only
        split
        · split
          · exact validateBody_panicsUnwritten _ _ _ _ (endpointHandler_panicsUnwritten s env ep)
          · exact endpointHandler_panicsUnwritten s env ep
        · exact endpointHandler_panicsUnwritten s env ep
      exact hrh _ x x1 val hw h
  · exact routerMiss_panicsUnwritten none r x x1 val hw h
  · exact routerMiss_panicsUnwritten _ r x x1 val hw h

/-- The auth gate panics only where the handler behind it does. -/
theorem requireAuth_panicsUnwritten (p : Option Provider) (mode : String) (next : Handler)
    (hn : PanicsUnwritten next) : PanicsUnwritten (requireAuth p mode next) := by
  unfold requireAuth
  cases p with
  | none => exact hn
  | some prov =>
    simp only
    split
    · exact hn
    · intro r x x1 val hw h
      simp only at h
      split at h
      · exact absurd h (httpError_ne_panic _ _ _ (by omega) _ _)
      · split at h
        · exact absurd h (httpError_ne_panic _ _ _ (by omega) _ _)
        · exact hn _ x x1 val hw h

/-- In the chain of `buildRouter`, a panic below the recovery middleware
happens before the status line is written. -/
theorem chain_panicsUnwritten (s : Server) (env : Env) :
    PanicsUnwritten (requestIDMW env.nowUnixNano (loggingMW
      (if s.authMode != "" && s.authMode != "none" && s.authProv.isSome then
        if s.cfg.Server.CORS.isSome then
          skipAuthForOPTIONS (requireAuth s.authProv s.authMode) (routes s env)
        else requireAuth s.authProv s.authMode (routes s env)
      else routes s env))) := by
  have hinner : PanicsUnwritten
      (if s.authMode != "" && s.authMode != "none" && s.authProv.isSome then
        if s.cfg.Server.CORS.isSome then
          skipAuthForOPTIONS (requireAuth s.authProv s.authMode) (routes s env)
        else requireAuth s.authProv s.authMode (routes s env)
      else routes s env) := by
    split
    · split
      · rw [skip_eq]
        exact requireAuth_panicsUnwritten _ _ _ (routes_panicsUnwritten s env)
      · exact requireAuth_panicsUnwritten _ _ _ (routes_panicsUnwritten s env)
    · exact routes_panicsUnwritten s env
  intro r x x1 val hw h
  unfold requestIDMW loggingMW at h
  simp only at h
  split at h
  · cases h
  · rename_i x2 v2 heq
    cases h
    exact hinner _ _ _ _ (by simpa [setHeader] using hw) heq

/-- In the server's own chain every panic is answered with status 500: on a
response not yet started, when the handlers below the recovery middleware
panic, the response of `buildRouter` has status 500. -/
theorem buildRouter_panic_gives_500 (s : Server) (env : Env) (r : Request) (x x1 : Exchange)
    (val : String) (hw : x.w.wroteHeader = false)
    (hp : requestIDMW env.nowUnixNano (loggingMW
      (if s.authMode != "" && s.authMode != "none" && s.authProv.isSome then
        if s.cfg.Server.CORS.isSome then
          skipAuthForOPTIONS (requireAuth s.authProv s.authMode) (routes s env)
        else requireAuth s.authProv s.authMode (routes s env)
      else routes s env)) r x = Outcome.panic x1 val) :
    (buildRouter s env r x).panicked = false ∧
    (buildRouter s env r x).exchange.w.finalStatus = 500 := by
  have hx1 := chain_panicsUnwritten s env r x x1 val hw hp
  exact ⟨recoverMW_ok _ r x, recoverMW_status_unwritten _ r x x1 val hp hx1⟩

/-! ## Template cache: properties -/


/-- The reload when the file can be read and parsed: the new template is
executed and put in the cache under the path. -/
theorem reloadTpl_ok (e : RenderEnv) (tpls : Tpls) (abs : String) (mt : Int) (data : Data)
    (src : Bytes) (hr : e.readFile abs = Except.ok src) (hp : e.parseErr (e.base abs) src = none) :
    reloadTpl e tpls abs mt data =
      (e.exec { name := e.base abs, src := src } data,
       (abs, { tpl := { name := e.base abs, src := src }, mtime := mt }) ::
         tpls.filter (fun c => c.1 != abs)) := by
  unfold reloadTpl
  rw [hr]
  simp only
  rw [hp]

/-- Counterexample to C20 as stated: the cache is empty and the file exists
but does not parse; `RenderFile` returns the error and the cache still has
no entry for the path. -/
theorem RenderFile_parse_failure_keeps_cache_counterexample :
    ([] : Tpls).lookup ((renderEnvOf 5 "\x7b\x7b").abs "test.tmpl") = none ∧
    (renderEnvOf 5 "\x7b\x7b").stat ((renderEnvOf 5 "\x7b\x7b").abs "test.tmpl") = Except.ok 5 ∧
    (RenderFile (renderEnvOf 5 "\x7b\x7b") [] "test.tmpl" dataEmpty).1 =
      Except.error "unclosed action" ∧
    (RenderFile (renderEnvOf 5 "\x7b\x7b") [] "test.tmpl" dataEmpty).2.lookup
      ((renderEnvOf 5 "\x7b\x7b").abs "test.tmpl") = none :=
  ⟨rfl, rfl, rfl, by decide⟩

/-- Claim C20, amended: when the stat of the file succeeds, a reload is due
exactly when the cache has no entry for the absolute path or the cached
modification time is before the current one. When it is due and the file can
be read and parsed, the new template is executed and replaces the cache
entry of the path, with the current modification time; when it is not due,
the cached template is executed and the cache is unchanged. -/
theorem RenderFile_reloads_iff_due (e : RenderEnv) (tpls : Tpls) (path : String) (data : Data)
    (mt : Int)
    (hstat : e.stat (e.abs path) = Except.ok mt) :
    (∀ src, (tpls.lookup (e.abs path) = none ∨
          ∃ ct, tpls.lookup (e.abs path) = some ct ∧ ct.mtime < mt) →
        e.readFile (e.abs path) = Except.ok src →
        e.parseErr (e.base (e.abs path)) src = none →
        RenderFile e tpls path data =
          (e.exec { name := e.base (e.abs path), src := src } data,
           (e.abs path, { tpl := { name := e.base (e.abs path), src := src }, mtime := mt }) ::
             tpls.filter (fun c => c.1 != e.abs path)) ∧
        (RenderFile e tpls path data).2.lookup (e.abs path) =
          some { tpl := { name := e.base (e.abs path), src := src }, mtime := mt }) ∧
    (∀ ct, tpls.lookup (e.abs path) = some ct → ¬ ct.mtime < mt →
        RenderFile e tpls path data = (e.exec ct.tpl data, tpls)) := by
  constructor
  · intro src hdue hr hp
    have key : RenderFile e tpls path data = reloadTpl e tpls (e.abs path) mt data := by
      unfold RenderFile
      rw [hstat]
      simp only
      rcases hdue with hnone | ⟨ct, hsome, hlt⟩
      · rw [hnone]
      · rw [hsome]
        simp only
        rw [if_pos hlt]
    rw [key, reloadTpl_ok e tpls (e.abs path) mt data src hr hp]
    exact ⟨rfl, by simp [List.lookup]⟩
  · intro ct hsome hnot
    unfold RenderFile
    rw [hstat]
    simp only
    rw [hsome]
    simp only
    rw [if_neg hnot]

/-- Witness of C20: a first render, a render after the file was overwritten
with a later modification time, and a render with the time unchanged. -/
theorem RenderFile_reloads_iff_due_witness :
    (renderEnvOf 5 "hello").stat ((renderEnvOf 5 "hello").abs "test.tmpl") = Except.ok 5 ∧
    (RenderFile (renderEnvOf 5 "hello") [] "test.tmpl" dataEmpty =
      (Except.ok (bytesOf "hello"),
       [("test.tmpl", { tpl := { name := "test.tmpl", src := bytesOf "hello" }, mtime := 5 })])) ∧
    (RenderFile (renderEnvOf 9 "hi")
        [("test.tmpl", { tpl := { name := "test.tmpl", src := bytesOf "hello" }, mtime := 5 })]
        "test.tmpl" dataEmpty).1 = Except.ok (bytesOf "hi") ∧
    (RenderFile (renderEnvOf 5 "hi")
        [("test.tmpl", { tpl := { name := "test.tmpl", src := bytesOf "hello" }, mtime := 5 })]
        "test.tmpl" dataEmpty) =
      (Except.ok (bytesOf "hello"),
       [("test.tmpl", { tpl := { name := "test.tmpl", src := bytesOf "hello" }, mtime := 5 })]) :=
  ⟨rfl,
   ((RenderFile_reloads_iff_due (renderEnvOf 5 "hello") [] "test.tmpl" dataEmpty 5 rfl).1
       (bytesOf "hello")
      (Or.inl rfl) rfl (by decide)).1,
   congrArg Prod.fst (((RenderFile_reloads_iff_due (renderEnvOf 9 "hi")
      [("test.tmpl", { tpl := { name := "test.tmpl", src := bytesOf "hello" }, mtime := 5 })]
      "test.tmpl" dataEmpty 9 rfl).1 (bytesOf "hi")
      (Or.inr ⟨_, rfl, by decide⟩) rfl (by decide)).1),
   (RenderFile_reloads_iff_due (renderEnvOf 5 "hi")
      [("test.tmpl", { tpl := { name := "test.tmpl", src := bytesOf "hello" }, mtime := 5 })]
      "test.tmpl" dataEmpty 5 rfl).2 _ rfl (by decide)⟩

/-! ## Server construction: properties -/

/-- Lookup after an assignment on a map. -/
theorem lookup_mapSet (m : StrMap) (k v K : String) :
    (mapSet m k v).lookup K = if K = k then some v else m.lookup K := by
  unfold mapSet
  by_cases h : K = k
  · subst h
    simp [List.lookup]
  · rw [if_neg h]
    have h1 : (K == k) = false := by simpa using h
    simp only [List.lookup, h1]
    induction m with
    | nil => rfl
    | cons e m ih =>
      obtain ⟨a, b⟩ := e
      by_cases hak : a = k
      · subst hak
        simp [List.filter_cons, List.lookup_cons, h1, ih]
      · have h2 : (a != k) = true := by simpa using hak
        simp only [List.filter_cons, h2, if_true, List.lookup_cons]
        rw [ih]

/-- A name that is no key of the map has no first value. -/
theorem firstValue_not_key (q : MultiMap) (k : String) (h : k ∉ q.map Prod.fst) :
    firstValue q k = none := by
  unfold firstValue
  have : q.lookup k = none := by
    induction q with
    | nil => rfl
    | cons e q ih =>
      obtain ⟨a, b⟩ := e
      simp only [List.map_cons, List.mem_cons, not_or] at h
      have h1 : (k == a) = false := by simpa using h.1
      simp only [List.lookup_cons, h1]
      exact ih h.2
  rw [this]

/-- The first value in a map with one more entry in front. -/
theorem firstValue_cons (q : MultiMap) (a : String) (vals : List String) (k : String) :
    firstValue ((a, vals) :: q) k = if k = a then vals.head? else firstValue q k := by
  unfold firstValue
  by_cases h : k = a
  · subst h
    simp only [List.lookup_cons, beq_self_eq_true, if_true]
    cases vals <;> rfl
  · have h1 : (k == a) = false := by simpa using h
    simp only [List.lookup_cons, h1, if_neg h]

/-- One round of the query loop. -/
theorem queryData_cons (a : String) (vals : List String) (q : MultiMap) (acc : StrMap) :
    queryData ((a, vals) :: q) acc =
      queryData q (if vals.head?.isSome then mapSet acc a (vals.head?.getD "") else acc) := by
  cases vals <;> rfl

/-- One round of the header loop. -/
theorem headerData_cons (a : String) (vals : List String) (h : MultiMap) (acc : StrMap) :
    headerData ((a, vals) :: h) acc =
      headerData h (if vals.head?.isSome
        then mapSet acc (CanonicalMIMEHeaderKey a) (vals.head?.getD "") else acc) := by
  cases vals <;> rfl

/-- The query loop: a name with a first value is mapped to it, every other
name keeps what it had. -/
theorem queryData_lookup : ∀ (q : MultiMap) (acc : StrMap) (k : String),
    (q.map Prod.fst).Nodup →
    (queryData q acc).lookup k = (firstValue q k).orElse (fun _ => acc.lookup k)
  | [], acc, k, _ => rfl
  | (a, vals) :: q, acc, k, hn => by
    simp only [List.map_cons, List.nodup_cons] at hn
    rw [queryData_cons, queryData_lookup q _ k hn.2, firstValue_cons]
    by_cases h : k = a
    · subst h
      rw [firstValue_not_key q k hn.1, if_pos rfl]
      cases vals with
      | nil => rfl
      | cons v vs => simp [lookup_mapSet]
    · rw [if_neg h]
      cases hf : firstValue q k with
      | some v => rfl
      | none =>
        cases vals with
        | nil => rfl
        | cons v vs => simp [lookup_mapSet, h]

/-- The header loop is the query loop on the map with canonical names. -/
theorem headerData_eq : ∀ (h : MultiMap) (acc : StrMap),
    headerData h acc = queryData (h.map (fun e => (CanonicalMIMEHeaderKey e.1, e.2))) acc
  | [], _ => rfl
  | (a, vals) :: h, acc => by
    rw [headerData_cons, List.map_cons, queryData_cons, headerData_eq h]

/-- With canonical names that are pairwise distinct, the first value under a
canonical name is the first value of the header it comes from. -/
theorem firstValue_canon : ∀ (h : MultiMap) (k : String),
    (h.map (fun e => CanonicalMIMEHeaderKey e.1)).Nodup → k ∈ h.map Prod.fst →
    firstValue (h.map (fun e => (CanonicalMIMEHeaderKey e.1, e.2))) (CanonicalMIMEHeaderKey k) =
      firstValue h k
  | [], _, _, hk => by simp at hk
  | (a, vals) :: h, k, hn, hk => by
    simp only [List.map_cons, List.nodup_cons] at hn
    rw [List.map_cons, firstValue_cons, firstValue_cons]
    by_cases hka : k = a
    · subst hka
      rw [if_pos rfl, if_pos rfl]
    · rw [if_neg hka]
      have hk2 : k ∈ h.map Prod.fst := by
        simp only [List.map_cons, List.mem_cons] at hk
        rcases hk with hk | hk
        · exact absurd hk hka
        · exact hk
      have hne : CanonicalMIMEHeaderKey k ≠ CanonicalMIMEHeaderKey a := by
        intro e
        apply hn.1
        rw [← e]
        obtain ⟨e2, he2, he3⟩ := List.mem_map.mp hk2
        exact List.mem_map.mpr ⟨e2, he2, by rw [he3]⟩
      rw [if_neg hne]
      exact firstValue_canon h k hn.2 hk2

/-- A first value under a canonical name comes from a header with that
canonical name. -/
theorem firstValue_canon_source : ∀ (h : MultiMap) (K v : String),
    firstValue (h.map (fun e => (CanonicalMIMEHeaderKey e.1, e.2))) K = some v →
    ∃ k vs, (k, v :: vs) ∈ h ∧ CanonicalMIMEHeaderKey k = K
  | [], _, _, hf => by simp [firstValue] at hf
  | (a, vals) :: h, K, v, hf => by
    rw [List.map_cons, firstValue_cons] at hf
    by_cases hK : K = CanonicalMIMEHeaderKey a
    · rw [if_pos hK] at hf
      cases vals with
      | nil => simp at hf
      | cons w ws =>
        simp only [List.head?_cons, Option.some.injEq] at hf
        exact ⟨a, ws, by simp [hf], hK.symm⟩
    · rw [if_neg hK] at hf
      obtain ⟨k, vs, hm, hc⟩ := firstValue_canon_source h K v hf
      exact ⟨k, vs, List.mem_cons_of_mem _ hm, hc⟩

/-- The path loop returns when every key has a value. -/
theorem pathLoop_total : ∀ (keys values : List String) (acc : StrMap),
    keys.length ≤ values.length → ∃ p, pathLoop keys values acc = some p
  | [], _, acc, _ => ⟨acc, rfl⟩
  | _ :: _, [], _, h => by simp at h
  | key :: ks, val :: vs, acc, h => by
    rw [pathLoop]
    exact pathLoop_total ks vs _ (by simpa using h)

/-- Counterexample to C22 as stated: a request with the headers x-a: 1 and
X-A: 2. Whichever way the header map is walked, the data has one value under
X-A, so for one of the two names the canonical form is not mapped to the
first value of that header. -/
theorem BuildData_header_names_collide_counterexample :
    (reqTwoCases.Header.map Prod.fst).Nodup ∧
    CanonicalMIMEHeaderKey "x-a" = "X-A" ∧ CanonicalMIMEHeaderKey "X-A" = "X-A" ∧
    firstValue reqTwoCases.Header "x-a" = some "1" ∧
    (BuildData reqTwoCases "now").map (fun d => d.Header.lookup "X-A") = some (some "2") ∧
    firstValue reqTwoCasesRev.Header "X-A" = some "2" ∧
    (BuildData reqTwoCasesRev "now").map (fun d => d.Header.lookup "X-A") = some (some "1") := by
  decide

/-- Claim C22, amended: for a request whose route parameters have a value for
every key, whose query map has distinct names and in whose header map no two
names share a canonical form, `BuildData` returns data in which Query has
under each name the first value of that query parameter and nothing under a
name without a value, Header has under the canonical form of each header
name the first value of that header, nothing when it has no value, and every
entry of Header comes from a header in this way, NowRFC3339 is the given
text and Body is unset. -/
theorem BuildData_maps_first_values (r : Request) (now : String)
    (hp : ∀ keys values, r.ctx.routeParams = some (keys, values) → keys.length ≤ values.length)
    (hq : (r.Query.map Prod.fst).Nodup)
    (hh : (r.Header.map (fun e => CanonicalMIMEHeaderKey e.1)).Nodup) :
    ∃ d, BuildData r now = some d ∧
      (∀ k, d.Query.lookup k = firstValue r.Query k) ∧
      (∀ k, k ∈ r.Header.map Prod.fst →
        d.Header.lookup (CanonicalMIMEHeaderKey k) = firstValue r.Header k) ∧
      (∀ K v, d.Header.lookup K = some v →
        ∃ k vs, (k, v :: vs) ∈ r.Header ∧ CanonicalMIMEHeaderKey k = K) ∧
      d.NowRFC3339 = now ∧ d.Body = none := by
  have hb : ∃ p, BuildData r now = some
      { Path := p, Query := queryData r.Query [], Header := headerData r.Header [],
        Body := none, NowRFC3339 := now } := by
    unfold BuildData
    cases hr : r.ctx.routeParams with
    | none => exact ⟨[], rfl⟩
    | some kv =>
      obtain ⟨keys, values⟩ := kv
      obtain ⟨p, hpe⟩ := pathLoop_total keys values [] (hp keys values hr)
      exact ⟨p, by simp only [hpe]; rfl⟩
  obtain ⟨p, hpe⟩ := hb
  have hh2 : ((r.Header.map (fun e => (CanonicalMIMEHeaderKey e.1, e.2))).map Prod.fst).Nodup := by
    rw [List.map_map]
    exact hh
  have hl : ∀ K, (headerData r.Header []).lookup K =
      firstValue (r.Header.map (fun e => (CanonicalMIMEHeaderKey e.1, e.2))) K := by
    intro K
    rw [headerData_eq, queryData_lookup _ _ _ hh2]
    cases firstValue (r.Header.map (fun e => (CanonicalMIMEHeaderKey e.1, e.2))) K <;> rfl
  refine ⟨{ Path := p, Query := queryData r.Query [], Header := headerData r.Header [],
            Body := none, NowRFC3339 := now }, ?_, ?_, ?_, ?_, rfl, rfl⟩
  · exact hpe
  · intro k
    show (queryData r.Query []).lookup k = _
    rw [queryData_lookup _ _ _ hq]
    cases firstValue r.Query k <;> rfl
  · intro k hk
    show (headerData r.Header []).lookup _ = _
    rw [hl, firstValue_canon r.Header k hh hk]
  · intro K v hv
    have hv2 : (headerData r.Header []).lookup K = some v := hv
    rw [hl] at hv2
    exact firstValue_canon_source r.Header K v hv2

/-- Witness of C22: a repeated query parameter, a query parameter without a
value and two headers. -/
theorem BuildData_maps_first_values_witness :
    (∀ keys values, reqData.ctx.routeParams = some (keys, values) →
      keys.length ≤ values.length) ∧
    (reqData.Query.map Prod.fst).Nodup ∧
    (reqData.Header.map (fun e => CanonicalMIMEHeaderKey e.1)).Nodup ∧
    ∃ d, BuildData reqData "2025-01-01T00:00:00Z" = some d ∧
      d.Query.lookup "tag" = some "a" ∧ d.Query.lookup "empty" = none ∧
      d.Header.lookup "X-Trace" = some "7" ∧ d.NowRFC3339 = "2025-01-01T00:00:00Z" :=
  ⟨fun _ _ h => by simp [reqData, mkReq, reqBare] at h, by decide, by decide,
   match BuildData_maps_first_values reqData "2025-01-01T00:00:00Z"
      (fun _ _ h => by simp [reqData, mkReq, reqBare] at h) (by decide) (by decide) with
   | ⟨d, h1, h2, h3, _, h4, _⟩ =>
     ⟨d, h1, (h2 "tag").trans rfl, (h2 "empty").trans rfl,
      (h3 "X-Trace" (by decide)).trans rfl, h4⟩⟩

/-! ## Token authentication: properties -/

/-- The set built by `NewTokenAuth` holds the configured tokens that are not
empty. -/
theorem allowed_mem (header pfx : String) (tokens : List String) (t : String) :
    t ∈ (NewTokenAuth header pfx tokens).allowed ↔ t ∈ tokens ∧ t ≠ "" := by
  have key : ∀ (ts acc : List String),
      t ∈ ts.foldl (fun m t => if t == "" then m else if m.contains t then m else t :: m) acc ↔
        t ∈ acc ∨ (t ∈ ts ∧ t ≠ "") := by
    intro ts
    induction ts with
    | nil => intro acc; simp
    | cons a ts ih =>
      intro acc
      rw [List.foldl_cons, ih]
      by_cases ha : a = ""
      · subst ha
        simp only [beq_self_eq_true, if_true, List.mem_cons]
        constructor
        · rintro (h | ⟨h1, h2⟩)
          · exact Or.inl h
          · exact Or.inr ⟨Or.inr h1, h2⟩
        · rintro (h | ⟨h1 | h1, h2⟩)
          · exact Or.inl h
          · exact absurd h1 h2
          · exact Or.inr ⟨h1, h2⟩
      · have h0 : (a == "") = false := by simpa using ha
        simp only [h0, Bool.false_eq_true, if_false, List.mem_cons]
        by_cases hc : acc.contains a = true
        · rw [if_pos hc]
          have hm : a ∈ acc := by simpa using hc
          constructor
          · rintro (h | ⟨h1, h2⟩)
            · exact Or.inl h
            · exact Or.inr ⟨Or.inr h1, h2⟩
          · rintro (h | ⟨h1 | h1, h2⟩)
            · exact Or.inl h
            · exact Or.inl (h1 ▸ hm)
            · exact Or.inr ⟨h1, h2⟩
        · rw [if_neg hc]
          simp only [List.mem_cons]
          constructor
          · rintro ((h | h) | ⟨h1, h2⟩)
            · exact Or.inr ⟨Or.inl h, h ▸ ha⟩
            · exact Or.inl h
            · exact Or.inr ⟨Or.inr h1, h2⟩
          · rintro (h | ⟨h1 | h1, h2⟩)
            · exact Or.inl (Or.inr h)
            · exact Or.inl (Or.inl h1)
            · exact Or.inr ⟨h1, h2⟩
  have := key tokens []
  simpa [NewTokenAuth] using this

/-- The comparison loop finds a token exactly when the presented text is in
the set. -/
theorem any_compare (allowed : List String) (token : String) :
    allowed.any (fun t => ConstantTimeCompare t token == 1) = true ↔ token ∈ allowed := by
  simp only [List.any_eq_true, ConstantTimeCompare]
  constructor
  · rintro ⟨t, ht, h⟩
    by_cases e : t = token
    · exact e ▸ ht
    · have : (t == token) = false := by simpa using e
      simp [this] at h
  · intro h
    exact ⟨token, h, by simp⟩

/-- Claim C23: for a provider built by `NewTokenAuth`, `Authenticate` returns
no error; it reports a match exactly when the first value of the configured
header is not empty, starts with the prefix if a prefix is configured, and
the presented token - the rest after the prefix with white space trimmed at
both ends, or the whole value when no prefix is configured - is one of the
configured tokens and not empty; on a match the principal is named "token". -/
theorem TokenAuth_Authenticate_matches_iff (header pfx : String) (tokens : List String)
    (r : Request) :
    ((NewTokenAuth header pfx tokens).Authenticate r).2.2 = none ∧
    (((NewTokenAuth header pfx tokens).Authenticate r).2.1 = true ↔
      Header.Get r.Header header ≠ "" ∧
      (pfx ≠ "" → hasPrefix (Header.Get r.Header header) pfx = true) ∧
      (if pfx ≠ "" then trimSpace (trimPrefix (Header.Get r.Header header) pfx)
        else Header.Get r.Header header) ∈ tokens ∧
      (if pfx ≠ "" then trimSpace (trimPrefix (Header.Get r.Header header) pfx)
        else Header.Get r.Header header) ≠ "") ∧
    (((NewTokenAuth header pfx tokens).Authenticate r).2.1 = true →
      ((NewTokenAuth header pfx tokens).Authenticate r).1 = { Name := "token" }) := by
  have hH : (NewTokenAuth header pfx tokens).Header = header := rfl
  have hP : (NewTokenAuth header pfx tokens).Prefix = pfx := rfl
  unfold TokenAuth.Authenticate
  rw [hH, hP]
  simp only
  by_cases h1 : Header.Get r.Header header = ""
  · have : (Header.Get r.Header header == "") = true := by simpa using h1
    rw [if_pos this]
    simp [h1]
  · have h1b : (Header.Get r.Header header == "") = false := by simpa using h1
    rw [h1b]
    simp only [Bool.false_eq_true, if_false]
    by_cases h2 : (pfx != "" && !hasPrefix (Header.Get r.Header header) pfx) = true
    · rw [if_pos h2]
      simp only [Bool.and_eq_true, bne_iff_ne, ne_eq, Bool.not_eq_true'] at h2
      refine ⟨rfl, ?_, by simp⟩
      constructor
      · intro h; simp at h
      · rintro ⟨_, hp, _⟩
        have := hp h2.1
        rw [h2.2] at this
        simp at this
    · rw [if_neg h2]
      have hp : pfx ≠ "" → hasPrefix (Header.Get r.Header header) pfx = true := by
        intro hne
        by_contra hc
        apply h2
        simp [hne, hc]
      have hb : (pfx != "") = true ↔ pfx ≠ "" := by simp
      have htok : (if (pfx != "") = true
            then trimSpace (trimPrefix (Header.Get r.Header header) pfx)
            else Header.Get r.Header header) =
          (if pfx ≠ "" then trimSpace (trimPrefix (Header.Get r.Header header) pfx)
            else Header.Get r.Header header) := by
        by_cases e : pfx = "" <;> simp [e]
      rw [htok]
      by_cases h3 : (NewTokenAuth header pfx tokens).allowed.any (fun t => ConstantTimeCompare t
          (if pfx ≠ "" then trimSpace (trimPrefix (Header.Get r.Header header) pfx)
            else Header.Get r.Header header) == 1) = true
      · rw [if_pos h3]
        have hm := (allowed_mem header pfx tokens _).mp ((any_compare _ _).mp h3)
        exact ⟨rfl, ⟨fun _ => ⟨h1, hp, hm.1, hm.2⟩, fun _ => rfl⟩, fun _ => rfl⟩
      · rw [if_neg h3]
        refine ⟨rfl, ⟨fun h => by simp at h, ?_⟩, fun h => by simp at h⟩
        rintro ⟨_, _, hm1, hm2⟩
        exact absurd ((any_compare _ _).mpr ((allowed_mem header pfx tokens _).mpr ⟨hm1, hm2⟩)) h3

/-- Witness of C23: a bearer token with blanks around it is accepted, the
empty configured token is not. -/
theorem TokenAuth_Authenticate_matches_iff_witness :
    ((NewTokenAuth "Authorization" "Bearer " ["", "devtoken123"]).Authenticate
      (reqWith "Authorization" "Bearer   devtoken123  ")).2.1 = true ∧
    ((NewTokenAuth "Authorization" "Bearer " ["", "devtoken123"]).Authenticate
      (reqWith "Authorization" "Bearer ")).2.1 = false :=
  ⟨(TokenAuth_Authenticate_matches_iff "Authorization" "Bearer " ["", "devtoken123"]
      (reqWith "Authorization" "Bearer   devtoken123  ")).2.1.mpr
      ⟨by decide, fun _ => by decide, by decide, by decide⟩,
   by decide⟩

/-! ## Basic authentication: properties -/

/-- A text is determined by the part before the first separator and the part
after it. -/
theorem append_sep_inj {α : Type} (c : α) : ∀ (a a2 b b2 : List α),
    c ∉ a → c ∉ a2 → a ++ c :: b = a2 ++ c :: b2 → a = a2 ∧ b = b2
  | [], [], _, _, _, _, h => by simpa using h
  | [], x :: a2, _, _, _, h2, h => by
    simp only [List.nil_append, List.cons_append, List.cons.injEq] at h
    exact absurd (by simp [h.1]) h2
  | x :: a, [], _, _, h1, _, h => by
    simp only [List.nil_append, List.cons_append, List.cons.injEq] at h
    exact absurd (by simp [h.1]) h1
  | x :: a, y :: a2, b, b2, h1, h2, h => by
    simp only [List.cons_append, List.cons.injEq] at h
    have := append_sep_inj c a a2 b b2 (fun m => h1 (List.mem_cons_of_mem _ m))
      (fun m => h2 (List.mem_cons_of_mem _ m)) h.2
    exact ⟨by rw [h.1, this.1], this.2⟩

/-- The split of a text at its first colon. -/
theorem span_colon : ∀ (l : List Char),
    (':' ∉ l ∧ l.span (fun c => c != ':') = (l, [])) ∨
    ∃ a b, l = a ++ ':' :: b ∧ ':' ∉ a ∧ l.span (fun c => c != ':') = (a, ':' :: b)
  | [] => Or.inl ⟨by simp, rfl⟩
  | x :: l => by
    by_cases hx : x = ':'
    · subst hx
      exact Or.inr ⟨[], l, rfl, by simp, by simp [List.span_eq_take_drop]⟩
    · have hb : (x != ':') = true := by simpa using hx
      rcases span_colon l with ⟨h1, h2⟩ | ⟨a, b, h1, h2, h3⟩
      · left
        refine ⟨by simp [h1, Ne.symm hx], ?_⟩
        rw [List.span_eq_take_drop] at h2 ⊢
        simp only [Prod.mk.injEq] at h2
        simp only [List.takeWhile_cons, List.dropWhile_cons, hb, if_true, h2.1, h2.2]
      · right
        refine ⟨x :: a, b, by rw [h1]; rfl, by simp [h2, Ne.symm hx], ?_⟩
        rw [List.span_eq_take_drop] at h3 ⊢
        simp only [Prod.mk.injEq] at h3
        simp only [List.takeWhile_cons, List.dropWhile_cons, hb, if_true, h3.1, h3.2]

/-- A text with a colon splits in two at the first one. -/
theorem SplitN_colon (u p : String) (hu : ':' ∉ u.toList) :
    SplitN (u ++ ":" ++ p) = [u, p] := by
  have e : (u ++ ":" ++ p).toList = u.toList ++ ':' :: p.toList := by
    simp [String.toList, String.data_append]
  unfold SplitN
  rcases span_colon (u ++ ":" ++ p).toList with ⟨h1, _⟩ | ⟨a, b, h1, h2, h3⟩
  · rw [e] at h1
    simp at h1
  · rw [h3]
    rw [e] at h1
    have := append_sep_inj ':' _ _ _ _ hu h2 h1
    simp only [← this.1, ← this.2]
    rfl

/-- A text without a colon is not split. -/
theorem SplitN_none (t : String) (ht : ':' ∉ t.toList) : SplitN t = [t] := by
  unfold SplitN
  rcases span_colon t.toList with ⟨_, h2⟩ | ⟨a, b, h1, _, _⟩
  · rw [h2]
    rfl
  · rw [h1] at ht
    simp at ht

/-- Every text either has no colon or is a part without colon, a colon and a
rest. -/
theorem colon_cases (t : String) :
    ':' ∉ t.toList ∨ ∃ u p : String, t = u ++ ":" ++ p ∧ ':' ∉ u.toList := by
  rcases span_colon t.toList with ⟨h1, _⟩ | ⟨a, b, h1, h2, _⟩
  · exact Or.inl h1
  · right
    refine ⟨String.mk a, String.mk b, ?_, h2⟩
    apply String.ext
    simp only [String.data_append]
    show t.toList = a ++ [':'] ++ b
    rw [h1]
    simp

/-- A text that starts with a prefix is the prefix followed by the rest. -/
theorem hasPrefix_split (s p : String) (h : hasPrefix s p = true) :
    s = p ++ trimPrefix s p := by
  unfold trimPrefix
  rw [if_pos h]
  unfold hasPrefix at h
  obtain ⟨t, ht⟩ := List.isPrefixOf_iff_prefix.mp h
  apply String.ext
  simp only [String.data_append]
  show s.toList = p.toList ++ List.drop p.toList.length s.toList
  rw [← ht]
  simp

/-- The prefix and the rest of a concatenation. -/
theorem hasPrefix_append (p t : String) :
    hasPrefix (p ++ t) p = true ∧ trimPrefix (p ++ t) p = t := by
  have h1 : hasPrefix (p ++ t) p = true := by
    unfold hasPrefix
    apply List.isPrefixOf_iff_prefix.mpr
    exact ⟨t.toList, by simp [String.toList, String.data_append]⟩
  refine ⟨h1, ?_⟩
  unfold trimPrefix
  rw [if_pos h1]
  apply String.ext
  show List.drop p.toList.length (p ++ t).toList = t.toList
  simp [String.toList, String.data_append]

/-- Lookup in the copy of a user map whose names are distinct. -/
theorem NewBasicAuth_lookup (users : StrMap) (realm : String)
    (hu : (users.map Prod.fst).Nodup) (u : String) :
    (NewBasicAuth users realm).users.lookup u = users.lookup u := by
  have key : ∀ (us acc : StrMap), (us.map Prod.fst).Nodup →
      (us.foldl (fun cp e => mapSet cp e.1 e.2) acc).lookup u =
        (us.lookup u).orElse (fun _ => acc.lookup u) := by
    intro us
    induction us with
    | nil => intro acc _; rfl
    | cons e us ih =>
      intro acc hn
      obtain ⟨a, b⟩ := e
      simp only [List.map_cons, List.nodup_cons] at hn
      rw [List.foldl_cons, ih _ hn.2]
      by_cases h : u = a
      · subst h
        have hnone : us.lookup u = none := by
          have := hn.1
          clear ih hn
          induction us with
          | nil => rfl
          | cons e2 us ih2 =>
            obtain ⟨a2, b2⟩ := e2
            simp only [List.map_cons, List.mem_cons, not_or] at this
            have h1 : (u == a2) = false := by simpa using this.1
            simp only [List.lookup_cons, h1]
            exact ih2 this.2
        rw [hnone]
        simp [lookup_mapSet, List.lookup_cons]
      · have h1 : (u == a) = false := by simpa using h
        simp only [List.lookup_cons, h1]
        cases us.lookup u with
        | some v => rfl
        | none => simp [lookup_mapSet, h]
  have := key users [] hu
  rw [show (NewBasicAuth users realm).users = users.foldl (fun cp e => mapSet cp e.1 e.2) [] from rfl,
    this]
  cases users.lookup u <;> rfl

/-- Lookup in a map with distinct names finds exactly the entries. -/
theorem lookup_iff_mem : ∀ (users : StrMap), (users.map Prod.fst).Nodup → ∀ (u p : String),
    (users.lookup u = some p ↔ (u, p) ∈ users)
  | [], _, u, p => by simp
  | (a, b) :: us, hn, u, p => by
    simp only [List.map_cons, List.nodup_cons] at hn
    by_cases h : u = a
    · subst h
      simp only [List.lookup_cons, beq_self_eq_true, Option.some.injEq, List.mem_cons,
        Prod.mk.injEq, true_and]
      constructor
      · intro e; exact Or.inl e.symm
      · rintro (e | e)
        · exact e.symm
        · exact absurd (List.mem_map.mpr ⟨(u, p), e, rfl⟩) hn.1
    · have h1 : (u == a) = false := by simpa using h
      simp only [List.lookup_cons, h1, List.mem_cons, Prod.mk.injEq, h, false_and, false_or]
      exact lookup_iff_mem us hn.2 u p

/-- Two texts split at their first colon are equal only part by part. -/
theorem colon_inj (u p u2 p2 : String) (hu : ':' ∉ u.toList) (hu2 : ':' ∉ u2.toList)
    (h : u ++ ":" ++ p = u2 ++ ":" ++ p2) : u = u2 ∧ p = p2 := by
  have e : ∀ a b : String, (a ++ ":" ++ b).toList = a.toList ++ ':' :: b.toList := by
    intro a b
    simp [String.toList, String.data_append]
  have h2 := congrArg String.toList h
  rw [e, e] at h2
  have := append_sep_inj ':' _ _ _ _ hu hu2 h2
  exact ⟨String.ext this.1, String.ext this.2⟩

/-- A text with a colon in it, split at the first one, has a colon. -/
theorem colon_mem (u p : String) : ':' ∈ (u ++ ":" ++ p).toList := by
  simp [String.toList, String.data_append]

/-- A text that starts with "Basic " is not empty. -/
theorem basic_ne_empty (raw : String) : "Basic " ++ raw ≠ "" := by
  intro h
  have := congrArg String.toList h
  simp [String.toList, String.data_append] at this

/-- The method `BasicAuth.Authenticate` in closed form, by the shape of the
Authorization header. -/
theorem BasicAuth_Authenticate_eq (decode : String → Except String String) (a : BasicAuth)
    (r : Request) :
    (Header.Get r.Header "Authorization" = "" →
      a.Authenticate decode r = ({ Name := "" }, false, none)) ∧
    (hasPrefix (Header.Get r.Header "Authorization") "Basic " = false →
      a.Authenticate decode r = ({ Name := "" }, false, none)) ∧
    (∀ raw, Header.Get r.Header "Authorization" = "Basic " ++ raw →
      (∀ e, decode raw = Except.error e →
        a.Authenticate decode r = ({ Name := "" }, false, some e)) ∧
      (∀ t, decode raw = Except.ok t → ':' ∉ t.toList →
        a.Authenticate decode r = ({ Name := "" }, false, some "invalid basic token")) ∧
      (∀ u p, decode raw = Except.ok (u ++ ":" ++ p) → ':' ∉ u.toList →
        (a.users.lookup u = none → a.Authenticate decode r = ({ Name := "" }, false, none)) ∧
        (∀ want, a.users.lookup u = some want →
          a.Authenticate decode r =
            if want = p then ({ Name := u }, true, none) else ({ Name := "" }, false, none)))) := by
  refine ⟨?_, ?_, ?_⟩
  · intro h
    unfold BasicAuth.Authenticate
    simp [h]
  · intro h
    unfold BasicAuth.Authenticate
    simp only [h]
    by_cases h0 : (Header.Get r.Header "Authorization" == "") = true
    · rw [if_pos h0]
    · rw [if_neg h0]
      rfl
  · intro raw hraw
    have h0 : (Header.Get r.Header "Authorization" == "") = false := by
      rw [hraw]
      simpa using basic_ne_empty raw
    have hp := hasPrefix_append "Basic " raw
    have pre : ∀ (o : Principal × Bool × Option String),
        (match decode raw with
          | Except.error err => (({ Name := "" } : Principal), false, some err)
          | Except.ok dec =>
            match SplitN dec with
            | [user, pass] =>
              match a.users.lookup user with
              | none => ({ Name := "" }, false, none)
              | some want =>
                if ConstantTimeCompare want pass == 1 then ({ Name := user }, true, none)
                else ({ Name := "" }, false, none)
            | _ => ({ Name := "" }, false, some "invalid basic token")) = o →
        a.Authenticate decode r = o := by
      intro o ho
      unfold BasicAuth.Authenticate
      simp only [h0, hraw, hp.1, hp.2, Bool.false_eq_true, if_false, Bool.not_true]
      exact ho
    refine ⟨?_, ?_, ?_⟩
    · intro e he
      apply pre
      rw [he]
    · intro t ht hc
      apply pre
      rw [ht]
      simp only
      rw [SplitN_none t hc]
    · intro u p hd hu
      constructor
      · intro hl
        apply pre
        rw [hd]
        simp only
        rw [SplitN_colon u p hu]
        simp only
        rw [hl]
      · intro want hl
        apply pre
        rw [hd]
        simp only
        rw [SplitN_colon u p hu]
        simp only
        rw [hl]
        simp only [ConstantTimeCompare]
        by_cases hw : want = p
        · simp [hw]
        · have : (want == p) = false := by simpa using hw
          simp [this, hw]

/-- Claim C24: for a provider built by `NewBasicAuth` from a user map (names
distinct, as in every map), `Authenticate` reports a match with principal
name u exactly when the Authorization header is "Basic " followed by a text
that decodes to u, a colon and p, with no colon in u, and the map has p as
the password of u; it returns an error exactly when the header is "Basic "
followed by a text that does not decode or decodes to a text without a
colon; and whenever there is an error there is no match. -/
theorem BasicAuth_Authenticate_matches_iff (decode : String → Except String String)
    (users : StrMap) (realm : String) (r : Request)
    (hu : (users.map Prod.fst).Nodup) :
    (∀ u, (((NewBasicAuth users realm).Authenticate decode r).2.1 = true ∧
        ((NewBasicAuth users realm).Authenticate decode r).1.Name = u) ↔
      ∃ raw p, Header.Get r.Header "Authorization" = "Basic " ++ raw ∧
        decode raw = Except.ok (u ++ ":" ++ p) ∧ ':' ∉ u.toList ∧ (u, p) ∈ users) ∧
    (((NewBasicAuth users realm).Authenticate decode r).2.2 ≠ none ↔
      ∃ raw, Header.Get r.Header "Authorization" = "Basic " ++ raw ∧
        ((∃ e, decode raw = Except.error e) ∨
          ∃ t, decode raw = Except.ok t ∧ ':' ∉ t.toList)) ∧
    (((NewBasicAuth users realm).Authenticate decode r).2.2 ≠ none →
      ((NewBasicAuth users realm).Authenticate decode r).2.1 = false) := by
  obtain ⟨c1, c2, c3⟩ := BasicAuth_Authenticate_eq decode (NewBasicAuth users realm) r
  have same : ∀ raw raw2, Header.Get r.Header "Authorization" = "Basic " ++ raw →
      Header.Get r.Header "Authorization" = "Basic " ++ raw2 → raw = raw2 := by
    intro raw raw2 h1 h2
    rw [← (hasPrefix_append "Basic " raw).2, ← (hasPrefix_append "Basic " raw2).2, ← h1, ← h2]
  by_cases hp : hasPrefix (Header.Get r.Header "Authorization") "Basic " = true
  · have hraw := hasPrefix_split _ _ hp
    generalize trimPrefix (Header.Get r.Header "Authorization") "Basic " = raw0 at hraw
    obtain ⟨d1, d2, d3⟩ := c3 raw0 hraw
    cases hd : decode raw0 with
    | error e =>
      rw [d1 e hd]
      refine ⟨?_, ?_, fun _ => rfl⟩
      · intro u
        constructor
        · rintro ⟨h, _⟩
          simp at h
        · rintro ⟨raw, p, h1, h2, _⟩
          rw [← same raw0 raw hraw h1, hd] at h2
          simp at h2
      · constructor
        · intro _
          exact ⟨raw0, hraw, Or.inl ⟨e, hd⟩⟩
        · intro _
          simp
    | ok t =>
      rcases colon_cases t with hc | ⟨u0, p0, ht, hu0⟩
      · rw [d2 t hd hc]
        refine ⟨?_, ?_, fun _ => rfl⟩
        · intro u
          constructor
          · rintro ⟨h, _⟩
            simp at h
          · rintro ⟨raw, p, h1, h2, _⟩
            rw [← same raw0 raw hraw h1, hd] at h2
            have e : t = u ++ ":" ++ p := by simpa using h2
            rw [e] at hc
            exact absurd (colon_mem u p) hc
        · constructor
          · intro _
            exact ⟨raw0, hraw, Or.inr ⟨t, hd, hc⟩⟩
          · intro _
            simp
      · subst ht
        obtain ⟨e1, e2⟩ := d3 u0 p0 hd hu0
        have noerr : ¬ ∃ raw, Header.Get r.Header "Authorization" = "Basic " ++ raw ∧
            ((∃ e, decode raw = Except.error e) ∨
              ∃ t, decode raw = Except.ok t ∧ ':' ∉ t.toList) := by
          rintro ⟨raw, h1, h2⟩
          rw [← same raw0 raw hraw h1, hd] at h2
          rcases h2 with ⟨e, he⟩ | ⟨t, ht, hc⟩
          · simp at he
          · have e : u0 ++ ":" ++ p0 = t := by simpa using ht
            rw [← e] at hc
            exact absurd (colon_mem u0 p0) hc
        have src : ∀ u, (∃ raw p, Header.Get r.Header "Authorization" = "Basic " ++ raw ∧
            decode raw = Except.ok (u ++ ":" ++ p) ∧ ':' ∉ u.toList ∧ (u, p) ∈ users) ↔
            (u = u0 ∧ users.lookup u0 = some p0) := by
          intro u
          constructor
          · rintro ⟨raw, p, h1, h2, h3, h4⟩
            rw [← same raw0 raw hraw h1, hd] at h2
            have e : u0 ++ ":" ++ p0 = u ++ ":" ++ p := by simpa using h2
            obtain ⟨e3, e4⟩ := colon_inj _ _ _ _ hu0 h3 e
            subst e3 e4
            exact ⟨rfl, (lookup_iff_mem users hu _ _).mpr h4⟩
          · rintro ⟨e3, h4⟩
            subst e3
            exact ⟨raw0, p0, hraw, hd, hu0, (lookup_iff_mem users hu _ _).mp h4⟩
        rw [NewBasicAuth_lookup users realm hu] at e1 e2
        cases hl : users.lookup u0 with
        | none =>
          rw [e1 hl]
          refine ⟨?_, ?_, fun _ => rfl⟩
          · intro u
            rw [src u, hl]
            simp
          · constructor
            · intro h; simp at h
            · intro h; exact absurd h noerr
        | some want =>
          rw [e2 want hl]
          by_cases hw : want = p0
          · subst hw
            rw [if_pos rfl]
            refine ⟨?_, ?_, fun h => by simp at h⟩
            · intro u
              rw [src u, hl]
              simp only [true_and, and_true]
              exact eq_comm
            · constructor
              · intro h; simp at h
              · intro h; exact absurd h noerr
          · rw [if_neg hw]
            refine ⟨?_, ?_, fun _ => rfl⟩
            · intro u
              rw [src u, hl]
              simp [hw]
            · constructor
              · intro h; simp at h
              · intro h; exact absurd h noerr
  · have hp2 : hasPrefix (Header.Get r.Header "Authorization") "Basic " = false := by
      simpa using hp
    rw [c2 hp2]
    have none2 : ∀ raw, Header.Get r.Header "Authorization" ≠ "Basic " ++ raw := by
      intro raw h
      rw [h, (hasPrefix_append "Basic " raw).1] at hp2
      simp at hp2
    refine ⟨?_, ?_, fun _ => rfl⟩
    · intro u
      constructor
      · rintro ⟨h, _⟩
        simp at h
      · rintro ⟨raw, _, h1, _⟩
        exact absurd h1 (none2 raw)
    · constructor
      · intro h; simp at h
      · rintro ⟨raw, h1, _⟩
        exact absurd h1 (none2 raw)

/-- Witness of C24: alice with a password that has a colon in it is matched
under her name. -/
theorem BasicAuth_Authenticate_matches_iff_witness :
    ([("alice", "pa:ss")].map Prod.fst).Nodup ∧
    ((NewBasicAuth [("alice", "pa:ss")] "mocker").Authenticate decodeT
      (reqWith "Authorization" "Basic YWxpY2U6cGE6c3M=")).2.1 = true ∧
    ((NewBasicAuth [("alice", "pa:ss")] "mocker").Authenticate decodeT
      (reqWith "Authorization" "Basic YWxpY2U6cGE6c3M=")).1.Name = "alice" :=
  ⟨by decide,
   ((BasicAuth_Authenticate_matches_iff decodeT [("alice", "pa:ss")] "mocker"
      (reqWith "Authorization" "Basic YWxpY2U6cGE6c3M=") (by decide)).1 "alice").mpr
     ⟨"YWxpY2U6cGE6c3M=", "pa:ss", by decide, rfl, by decide, by decide⟩⟩

/-! ## Configuration check: properties -/

/-- The errors after `Wrapf`. -/
theorem mem_Wrapf (c : Collector) (s : Sentinel) (m : Message) (x : WrappedError) :
    x ∈ (c.Wrapf s m).errs ↔ x ∈ c.errs ∨ x = { sentinel := s, sep := ": ", msg := m } := by
  simp [Collector.Wrapf]

/-- The errors after `Wrap`. -/
theorem mem_Wrap (c : Collector) (s : Sentinel) (m : Message) (x : WrappedError) :
    x ∈ (c.Wrap s m).errs ↔ x ∈ c.errs ∨ x = { sentinel := s, sep := ", ", msg := m } := by
  simp [Collector.Wrap]

/-- The errors after `If`. -/
theorem mem_If (c : Collector) (b : Bool) (s : Sentinel) (m : Message) (x : WrappedError) :
    x ∈ (c.If b s m).errs ↔
      x ∈ c.errs ∨ (b = true ∧ x = { sentinel := s, sep := ": ", msg := m }) := by
  unfold Collector.If
  cases b <;> simp [mem_Wrapf]

/-- The errors after a guarded `Wrapf`. -/
theorem mem_ite_Wrapf (c : Collector) (b : Bool) (s : Sentinel) (m : Message)
    (x : WrappedError) :
    x ∈ (if b = true then c.Wrapf s m else c).errs ↔
      x ∈ c.errs ∨ (b = true ∧ x = { sentinel := s, sep := ": ", msg := m }) := by
  cases b <;> simp [mem_Wrapf]

/-- The loop over the users adds user messages only. -/
theorem basicUsersLoop_mem (x : WrappedError) : ∀ (us : List BasicUser) (i : Nat) (e : Collector),
    x ∈ (basicUsersLoop i us e).errs → x ∈ e.errs ∨ ∃ k, x.msg = Message.basicUser k
  | [], _, _, h => Or.inl h
  | u :: us, i, e, h => by
    rw [basicUsersLoop] at h
    rcases basicUsersLoop_mem x us (i + 1) _ h with h1 | h1
    · rw [mem_If] at h1
      rcases h1 with h1 | ⟨_, h1⟩
      · exact Or.inl h1
      · exact Or.inr ⟨i, by rw [h1]⟩
    · exact Or.inr h1

/-- The authentication switch adds authentication messages only. -/
theorem authChecks_mem (a : AuthConfig) (e : Collector) (x : WrappedError)
    (h : x ∈ (authChecks a e).errs) : x ∈ e.errs ∨ x.msg.isAuth = true := by
  unfold authChecks at h
  split at h
  · exact Or.inl h
  · split at h
    · split at h
      · rw [mem_Wrap] at h
        rcases h with h | h
        · exact Or.inl h
        · exact Or.inr (by rw [h]; rfl)
      · simp only [mem_If] at h
        rcases h with (h | ⟨_, h⟩) | ⟨_, h⟩
        · exact Or.inl h
        · exact Or.inr (by rw [h]; rfl)
        · exact Or.inr (by rw [h]; rfl)
    · split at h
      · split at h
        · rw [mem_Wrap] at h
          rcases h with h | h
          · exact Or.inl h
          · exact Or.inr (by rw [h]; rfl)
        · rcases basicUsersLoop_mem x _ _ _ h with h | ⟨k, h⟩
          · rw [mem_If] at h
            rcases h with h | ⟨_, h⟩
            · exact Or.inl h
            · exact Or.inr (by rw [h]; rfl)
          · exact Or.inr (by rw [h]; rfl)
      · rw [mem_Wrapf] at h
        rcases h with h | h
        · exact Or.inl h
        · exact Or.inr (by rw [h]; rfl)

/-- The errors before the loop over the endpoints have no status message and
no duplicate message. -/
theorem preLoop_mem (c : Config) (x : WrappedError)
    (h : x ∈ (((authChecks c.Auth Collector.New).If (!hasPrefix c.Server.BasePath "/")
        Sentinel.ErrServerConfig Message.basePath).If (c.Endpoints.length == 0)
        Sentinel.ErrEndpointConfig Message.noEndpoints).errs) :
    x.msg.isAuth = true ∨ x.msg = Message.basePath ∨ x.msg = Message.noEndpoints := by
  simp only [mem_If] at h
  rcases h with (h | ⟨_, h⟩) | ⟨_, h⟩
  · rcases authChecks_mem _ _ _ h with h | h
    · simp [Collector.New] at h
    · exact Or.inl h
  · exact Or.inr (Or.inl (by rw [h]))
  · exact Or.inr (Or.inr (by rw [h]))

/-- The status errors after the loop over the variants of endpoint `i`. -/
theorem responsesLoop_status (env : ConfigEnv) (i i2 j2 : Nat) (st : Int) (s : Sentinel)
    (sep : String) : ∀ (rvs : List ResponseVariant) (j : Nat) (e : Collector),
    ({ sentinel := s, sep := sep, msg := Message.status i2 j2 st } ∈
        (responsesLoop env i j rvs e).errs ↔
      { sentinel := s, sep := sep, msg := Message.status i2 j2 st } ∈ e.errs ∨
      (s = Sentinel.ErrEndpointConfig ∧ sep = ": " ∧ i2 = i ∧
        ∃ k rv, rvs[k]? = some rv ∧ j2 = j + k ∧ rv.Status = st ∧ (st < 100 ∨ st > 599)))
  | [], j, e => by simp [responsesLoop]
  | rv :: rest, j, e => by
    rw [responsesLoop]
    rw [responsesLoop_status env i i2 j2 st s sep rest (j + 1), mem_ite_Wrapf, mem_If, mem_If]
    simp only [WrappedError.mk.injEq, reduceCtorEq, and_false, or_false, Message.status.injEq,
      Bool.or_eq_true, decide_eq_true_eq]
    constructor
    · rintro ((h | ⟨h1, h2, h3, h4, h5, h6⟩) | ⟨h2, h3, h4, k, rv2, h5, h6, h7, h8⟩)
      · exact Or.inl h
      · exact Or.inr ⟨h2, h3, h4, 0, rv, by simp, by omega, h6.symm, by rw [h6]; exact h1⟩
      · exact Or.inr ⟨h2, h3, h4, k + 1, rv2, by simpa using h5, by omega, h7, h8⟩
    · rintro (h | ⟨h2, h3, h4, k, rv2, h5, h6, h7, h8⟩)
      · exact Or.inl (Or.inl h)
      · cases k with
        | zero =>
          simp only [List.getElem?_cons_zero, Option.some.injEq] at h5
          subst h5
          exact Or.inl (Or.inr ⟨by rw [h7]; exact h8, h2, h3, h4, by omega, h7.symm⟩)
        | succ k =>
          exact Or.inr ⟨h2, h3, h4, k, rv2, by simpa using h5, by omega, h7, h8⟩

/-- The loop over the variants adds variant messages only. -/
theorem responsesLoop_mem (env : ConfigEnv) (i : Nat) (x : WrappedError) :
    ∀ (rvs : List ResponseVariant) (j : Nat) (e : Collector),
    x ∈ (responsesLoop env i j rvs e).errs →
      x ∈ e.errs ∨ (∃ k st, x.msg = Message.status i k st) ∨
        (∃ k, x.msg = Message.bodyChoice i k) ∨ ∃ k f, x.msg = Message.bodyFile i k f
  | [], _, _, h => Or.inl h
  | rv :: rest, j, e, h => by
    rw [responsesLoop] at h
    rcases responsesLoop_mem env i x rest (j + 1) _ h with h1 | h1
    · rw [mem_ite_Wrapf, mem_If, mem_If] at h1
      rcases h1 with ((h1 | ⟨_, h1⟩) | ⟨_, h1⟩) | ⟨_, h1⟩
      · exact Or.inl h1
      · exact Or.inr (Or.inl ⟨j, _, by rw [h1]⟩)
      · exact Or.inr (Or.inr (Or.inl ⟨j, by rw [h1]⟩))
      · exact Or.inr (Or.inr (Or.inr ⟨j, _, by rw [h1]⟩))
    · exact Or.inr h1

/-- Every loop of `Validate` keeps the errors it was given. -/
theorem responsesLoop_keeps (env : ConfigEnv) (i : Nat) (x : WrappedError) :
    ∀ (rvs : List ResponseVariant) (j : Nat) (e : Collector),
    x ∈ e.errs → x ∈ (responsesLoop env i j rvs e).errs
  | [], _, _, h => h
  | rv :: rest, j, e, h => by
    rw [responsesLoop]
    apply responsesLoop_keeps env i x rest (j + 1)
    rw [mem_ite_Wrapf, mem_If, mem_If]
    exact Or.inl (Or.inl (Or.inl h))

/-- The errors after the checks of a validation spec. -/
theorem validateChecks_mem (env : ConfigEnv) (i : Nat) (v : Option ValidateSpec) (e : Collector)
    (x : WrappedError) :
    x ∈ (validateChecks env i v e).errs ↔
      x ∈ e.errs ∨ (x ∈ (validateChecks env i v e).errs ∧
        ((∃ ct, x.msg = Message.contentType i ct) ∨ ∃ f, x.msg = Message.schemaFile i f)) := by
  constructor
  · intro h
    have h0 := h
    unfold validateChecks at h
    cases v with
    | none => exact Or.inl h
    | some vs =>
      simp only at h
      rw [mem_ite_Wrapf, mem_ite_Wrapf] at h
      rcases h with (h | ⟨_, h⟩) | ⟨_, h⟩
      · exact Or.inl h
      · exact Or.inr ⟨h0, Or.inl ⟨_, by rw [h]⟩⟩
      · exact Or.inr ⟨h0, Or.inr ⟨_, by rw [h]⟩⟩
  · rintro (h | ⟨h, _⟩)
    · unfold validateChecks
      cases v with
      | none => exact h
      | some vs =>
        simp only
        rw [mem_ite_Wrapf, mem_ite_Wrapf]
        exact Or.inl (Or.inl h)
    · exact h

/-- The loop over the variants keeps and adds no message of another kind. -/
theorem responsesLoop_other (env : ConfigEnv) (i : Nat) (x : WrappedError)
    (h1 : ∀ k st, x.msg ≠ Message.status i k st) (h2 : ∀ k, x.msg ≠ Message.bodyChoice i k)
    (h3 : ∀ k f, x.msg ≠ Message.bodyFile i k f)
    (rvs : List ResponseVariant) (j : Nat) (e : Collector) :
    x ∈ (responsesLoop env i j rvs e).errs ↔ x ∈ e.errs := by
  constructor
  · intro h
    rcases responsesLoop_mem env i x rvs j e h with h | ⟨k, st, h⟩ | ⟨k, h⟩ | ⟨k, f, h⟩
    · exact h
    · exact absurd h (h1 k st)
    · exact absurd h (h2 k)
    · exact absurd h (h3 k f)
  · exact responsesLoop_keeps env i x rvs j e

/-- The checks of a validation spec keep and add no message of another kind. -/
theorem validateChecks_other (env : ConfigEnv) (i : Nat) (v : Option ValidateSpec)
    (e : Collector) (x : WrappedError)
    (h1 : ∀ ct, x.msg ≠ Message.contentType i ct) (h2 : ∀ f, x.msg ≠ Message.schemaFile i f) :
    x ∈ (validateChecks env i v e).errs ↔ x ∈ e.errs := by
  rw [validateChecks_mem]
  constructor
  · rintro (h | ⟨_, ⟨ct, h⟩ | ⟨f, h⟩⟩)
    · exact h
    · exact absurd h (h1 ct)
    · exact absurd h (h2 f)
  · exact Or.inl

/-- The status errors after the loop over the endpoints. -/
theorem endpointsLoop_status (env : ConfigEnv) (i2 j2 : Nat) (st : Int) (s : Sentinel)
    (sep : String) : ∀ (eps : List Endpoint) (i : Nat) (seen : List String) (e : Collector),
    ({ sentinel := s, sep := sep, msg := Message.status i2 j2 st } ∈
        (endpointsLoop env i eps seen e).errs ↔
      { sentinel := s, sep := sep, msg := Message.status i2 j2 st } ∈ e.errs ∨
      (s = Sentinel.ErrEndpointConfig ∧ sep = ": " ∧
        ∃ k ep rv, eps[k]? = some ep ∧ i2 = i + k ∧ ep.Responses[j2]? = some rv ∧
          rv.Status = st ∧ (st < 100 ∨ st > 599)))
  | [], i, seen, e => by simp [endpointsLoop]
  | ep :: rest, i, seen, e => by
    rw [endpointsLoop]
    rw [endpointsLoop_status env i2 j2 st s sep rest (i + 1), responsesLoop_status,
      validateChecks_other env i ep.Validate _ _ (by simp) (by simp),
      mem_ite_Wrapf, mem_If, mem_If, mem_If]
    simp only [WrappedError.mk.injEq, reduceCtorEq, and_false, or_false]
    constructor
    · rintro ((h | ⟨h2, h3, h4, k, rv, h5, h6, h7, h8⟩) | ⟨h2, h3, k, ep2, rv, h5, h6, h7, h8, h9⟩)
      · exact Or.inl h
      · exact Or.inr ⟨h2, h3, 0, ep, rv, by simp, by omega,
          by rw [show j2 = k by omega]; exact h5, h7, h8⟩
      · exact Or.inr ⟨h2, h3, k + 1, ep2, rv, by simpa using h5, by omega, h7, h8, h9⟩
    · rintro (h | ⟨h2, h3, k, ep2, rv, h5, h6, h7, h8, h9⟩)
      · exact Or.inl (Or.inl h)
      · cases k with
        | zero =>
          simp only [List.getElem?_cons_zero, Option.some.injEq] at h5
          subst h5
          exact Or.inl (Or.inr ⟨h2, h3, by omega, j2, rv, h7, by omega, h8, h9⟩)
        | succ k =>
          exact Or.inr ⟨h2, h3, k, ep2, rv, by simpa using h5, by omega, h7, h8, h9⟩

/-- Membership in the set of keys. -/
theorem contains_iff (l : List String) (k : String) : l.contains k = true ↔ k ∈ l := by
  simp

/-- The duplicate errors after the loop over the endpoints. -/
theorem endpointsLoop_duplicate (env : ConfigEnv) (i2 : Nat) (key : String) (s : Sentinel)
    (sep : String) : ∀ (eps : List Endpoint) (i : Nat) (seen : List String) (e : Collector),
    ({ sentinel := s, sep := sep, msg := Message.duplicate i2 key } ∈
        (endpointsLoop env i eps seen e).errs ↔
      { sentinel := s, sep := sep, msg := Message.duplicate i2 key } ∈ e.errs ∨
      (s = Sentinel.ErrEndpointConfig ∧ sep = ": " ∧
        ∃ k ep, eps[k]? = some ep ∧ i2 = i + k ∧ epHasNoWhen ep = true ∧
          key = env.toUpper ep.Method ++ " " ++ ep.Path ∧
          (key ∈ seen ∨ ∃ k2 ep2, k2 < k ∧ eps[k2]? = some ep2 ∧ epHasNoWhen ep2 = true ∧
            env.toUpper ep2.Method ++ " " ++ ep2.Path = key)))
  | [], i, seen, e => by simp [endpointsLoop]
  | ep :: rest, i, seen, e => by
    rw [endpointsLoop]
    rw [endpointsLoop_duplicate env i2 key s sep rest (i + 1),
      responsesLoop_other env i _ (by simp) (by simp) (by simp),
      validateChecks_other env i ep.Validate _ _ (by simp) (by simp),
      mem_ite_Wrapf, mem_If, mem_If, mem_If]
    simp only [WrappedError.mk.injEq, reduceCtorEq, and_false, or_false, Message.duplicate.injEq,
      Bool.and_eq_true, contains_iff]
    constructor
    · rintro ((h | ⟨⟨h1, h1b⟩, h2, h3, h4, h5⟩) | ⟨h2, h3, k, ep2, h5, h6, h7, h8, h9⟩)
      · exact Or.inl h
      · exact Or.inr ⟨h2, h3, 0, ep, by simp, by omega, h1, h5, Or.inl (h5 ▸ h1b)⟩
      · refine Or.inr ⟨h2, h3, k + 1, ep2, by simpa using h5, by omega, h7, h8, ?_⟩
        rcases h9 with h9 | ⟨k2, ep3, h10, h11, h12, h13⟩
        · by_cases hn : epHasNoWhen ep = true
          · rw [if_pos hn] at h9
            rcases List.mem_cons.mp h9 with h9 | h9
            · exact Or.inr ⟨0, ep, by omega, by simp, hn, h9.symm⟩
            · exact Or.inl h9
          · rw [if_neg hn] at h9
            exact Or.inl h9
        · exact Or.inr ⟨k2 + 1, ep3, by omega, by simpa using h11, h12, h13⟩
    · rintro (h | ⟨h2, h3, k, ep2, h5, h6, h7, h8, h9⟩)
      · exact Or.inl (Or.inl h)
      · cases k with
        | zero =>
          simp only [List.getElem?_cons_zero, Option.some.injEq] at h5
          subst h5
          rcases h9 with h9 | ⟨k2, _, h10, _⟩
          · exact Or.inl (Or.inr ⟨⟨h7, h8 ▸ h9⟩, h2, h3, by omega, h8⟩)
          · omega
        | succ k =>
          refine Or.inr ⟨h2, h3, k, ep2, by simpa using h5, by omega, h7, h8, ?_⟩
          rcases h9 with h9 | ⟨k2, ep3, h10, h11, h12, h13⟩
          · left
            by_cases hn : epHasNoWhen ep = true
            · rw [if_pos hn]
              exact List.mem_cons_of_mem _ h9
            · rw [if_neg hn]
              exact h9
          · cases k2 with
            | zero =>
              simp only [List.getElem?_cons_zero, Option.some.injEq] at h11
              subst h11
              left
              rw [if_pos h12]
              exact List.mem_cons.mpr (Or.inl h13.symm)
            | succ k2 =>
              exact Or.inr ⟨k2, ep3, by omega, by simpa using h11, h12, h13⟩

/-- The error that `Validate` returns holds the collected errors. -/
theorem Validate_mem (env : ConfigEnv) (c : Config) (x : WrappedError) :
    (∃ errs, c.Validate env = some errs ∧ x ∈ errs) ↔ x ∈ (c.collect env).errs := by
  unfold Config.Validate Collector.Err
  constructor
  · rintro ⟨errs, h, hx⟩
    split at h
    · simp at h
    · simp only [Option.some.injEq] at h
      rw [h]
      exact hx
  · intro hx
    have : ((c.collect env).errs.length == 0) = false := by
      cases hl : (c.collect env).errs with
      | nil => rw [hl] at hx; simp at hx
      | cons a l => rfl
    rw [this]
    exact ⟨_, rfl, hx⟩

/-- The status errors that `Validate` collects. -/
theorem collect_status (env : ConfigEnv) (c : Config) (i j : Nat) (st : Int) (s : Sentinel)
    (sep : String) :
    ({ sentinel := s, sep := sep, msg := Message.status i j st } ∈ (c.collect env).errs ↔
      (s = Sentinel.ErrEndpointConfig ∧ sep = ": " ∧
        ∃ ep rv, c.Endpoints[i]? = some ep ∧ ep.Responses[j]? = some rv ∧
          rv.Status = st ∧ (st < 100 ∨ st > 599))) := by
  unfold Config.collect
  simp only
  rw [endpointsLoop_status]
  constructor
  · rintro (h | ⟨h2, h3, k, ep, rv, h5, h6, h7, h8, h9⟩)
    · rcases preLoop_mem c _ h with h | h | h
      · simp [Message.isAuth] at h
      · simp at h
      · simp at h
    · exact ⟨h2, h3, ep, rv, by rw [show i = k by omega]; exact h5, h7, h8, h9⟩
  · rintro ⟨h2, h3, ep, rv, h5, h7, h8, h9⟩
    exact Or.inr ⟨h2, h3, i, ep, rv, h5, by omega, h7, h8, h9⟩

/-- The duplicate errors that `Validate` collects. -/
theorem collect_duplicate (env : ConfigEnv) (c : Config) (i : Nat) (key : String) (s : Sentinel)
    (sep : String) :
    ({ sentinel := s, sep := sep, msg := Message.duplicate i key } ∈ (c.collect env).errs ↔
      (s = Sentinel.ErrEndpointConfig ∧ sep = ": " ∧
        ∃ ep, c.Endpoints[i]? = some ep ∧ epHasNoWhen ep = true ∧
          key = env.toUpper ep.Method ++ " " ++ ep.Path ∧
          ∃ k2 ep2, k2 < i ∧ c.Endpoints[k2]? = some ep2 ∧ epHasNoWhen ep2 = true ∧
            env.toUpper ep2.Method ++ " " ++ ep2.Path = key)) := by
  unfold Config.collect
  simp only
  rw [endpointsLoop_duplicate]
  constructor
  · rintro (h | ⟨h2, h3, k, ep, h5, h6, h7, h8, h9⟩)
    · rcases preLoop_mem c _ h with h | h | h
      · simp [Message.isAuth] at h
      · simp at h
      · simp at h
    · have hk : i = k := by omega
      subst hk
      rcases h9 with h9 | h9
      · simp at h9
      · exact ⟨h2, h3, ep, h5, h7, h8, h9⟩
  · rintro ⟨h2, h3, ep, h5, h7, h8, h9⟩
    exact Or.inr ⟨h2, h3, i, ep, h5, by omega, h7, h8, Or.inr h9⟩

/-- The function `epHasNoWhen` says that no variant has a when clause with an
entry. -/
theorem epHasNoWhen_iff (ep : Endpoint) : epHasNoWhen ep = true ↔ noWhenClause ep := by
  unfold epHasNoWhen noWhenClause
  rw [List.all_eq_true]
  constructor
  · intro h v hv w hw
    have := h v hv
    rw [hw] at this
    simp only [Bool.not_eq_true', Bool.or_eq_false_iff, decide_eq_false_iff_not, not_lt,
      Nat.le_zero_eq, List.length_eq_zero] at this
    exact this
  · intro h v hv
    cases hw : v.When with
    | none => rfl
    | some w =>
      obtain ⟨h1, h2⟩ := h v hv w hw
      simp [h1, h2]

/-- A key determines the method part and the path when the method part has
no space. -/
theorem key_inj (m p m2 p2 : String) (hm : ' ' ∉ m.toList) (hm2 : ' ' ∉ m2.toList)
    (h : m ++ " " ++ p = m2 ++ " " ++ p2) : m = m2 ∧ p = p2 := by
  have e : ∀ a b : String, (a ++ " " ++ b).toList = a.toList ++ ' ' :: b.toList := by
    intro a b
    simp [String.toList, String.data_append]
  have h2 := congrArg String.toList h
  rw [e, e] at h2
  have := append_sep_inj ' ' _ _ _ _ hm hm2 h2
  exact ⟨String.ext this.1, String.ext this.2⟩

/-- Counterexample to C25 as stated: the endpoints "GET /A" on /b and "GET"
on "/A /b", both without a when clause. Their methods differ after
upper-casing and their paths differ, yet both have the key "GET /A /b" and
`Validate` reports the second one as a duplicate. -/
theorem Validate_duplicate_key_collision_counterexample :
    envC.toUpper "GET /A" ≠ envC.toUpper "GET" ∧ "/b" ≠ "/A /b" ∧
    epHasNoWhen (epPlain "GET /A" "/b" 200) = true ∧
    epHasNoWhen (epPlain "GET" "/A /b" 200) = true ∧
    (cfgOf [epPlain "GET /A" "/b" 200, epPlain "GET" "/A /b" 200]).Validate envC =
      some [{ sentinel := Sentinel.ErrEndpointConfig, sep := ": ",
              msg := Message.method 0 "GET /A" },
            duplicateError 1 "GET /A /b"] ∧
    (duplicateError 1 "GET /A /b").Error envC.quote =
      "invalid endpoint config: endpoints[1] duplicate endpoint without \x27when\x27: GET /A /b" := by
  decide

/-- Claim C25, amended: for a configuration in which no upper-cased method
has a space (so for every valid method), `Validate` reports endpoint `i` as a
duplicate exactly when it has no variant with an entry in its when clause
and an earlier endpoint without such a variant has the same upper-cased
method and the same path; the key in the report is that method, a space and
the path; an endpoint with such a variant is not reported. -/
theorem Validate_duplicate_iff (env : ConfigEnv) (c : Config) (i : Nat)
    (hsp : ∀ ep ∈ c.Endpoints, ' ' ∉ (env.toUpper ep.Method).toList) :
    ((∃ errs key, c.Validate env = some errs ∧ duplicateError i key ∈ errs) ↔
      ∃ ep, c.Endpoints[i]? = some ep ∧ noWhenClause ep ∧
        ∃ j ep2, j < i ∧ c.Endpoints[j]? = some ep2 ∧ noWhenClause ep2 ∧
          env.toUpper ep2.Method = env.toUpper ep.Method ∧ ep2.Path = ep.Path) ∧
    (∀ errs x key, c.Validate env = some errs → x ∈ errs → x.msg = Message.duplicate i key →
      x = duplicateError i key ∧
      ∃ ep, c.Endpoints[i]? = some ep ∧ key = env.toUpper ep.Method ++ " " ++ ep.Path) ∧
    (∀ ep, c.Endpoints[i]? = some ep → ¬ noWhenClause ep →
      ∀ errs x key, c.Validate env = some errs → x ∈ errs → x.msg ≠ Message.duplicate i key) := by
  have mem : ∀ (ep : Endpoint) (k : Nat), c.Endpoints[k]? = some ep → ep ∈ c.Endpoints :=
    fun ep k h => List.getElem?_mem h
  refine ⟨?_, ?_, ?_⟩
  · constructor
    · rintro ⟨errs, key, h1, h2⟩
      have h3 := (Validate_mem env c _).mp ⟨errs, h1, h2⟩
      obtain ⟨_, _, ep, h5, h6, h7, j, ep2, h8, h9, h10, h11⟩ :=
        (collect_duplicate env c i key _ _).mp h3
      rw [h7] at h11
      obtain ⟨e1, e2⟩ := key_inj _ _ _ _ (hsp ep2 (mem ep2 j h9)) (hsp ep (mem ep i h5)) h11
      exact ⟨ep, h5, (epHasNoWhen_iff ep).mp h6, j, ep2, h8, h9, (epHasNoWhen_iff ep2).mp h10,
        e1, e2⟩
    · rintro ⟨ep, h5, h6, j, ep2, h8, h9, h10, e1, e2⟩
      have h3 : duplicateError i (env.toUpper ep.Method ++ " " ++ ep.Path) ∈
          (c.collect env).errs :=
        (collect_duplicate env c i _ _ _).mpr ⟨rfl, rfl, ep, h5, (epHasNoWhen_iff ep).mpr h6, rfl,
          j, ep2, h8, h9, (epHasNoWhen_iff ep2).mpr h10, by rw [e1, e2]⟩
      obtain ⟨errs, h1, h2⟩ := (Validate_mem env c _).mpr h3
      exact ⟨errs, _, h1, h2⟩
  · intro errs x key h1 h2 hm
    have h3 := (Validate_mem env c _).mp ⟨errs, h1, h2⟩
    obtain ⟨s, sep, m⟩ := x
    simp only at hm
    subst hm
    obtain ⟨e1, e2, ep, h5, _, h7, _⟩ := (collect_duplicate env c i key _ _).mp h3
    subst e1 e2
    exact ⟨rfl, ep, h5, h7⟩
  · intro ep h5 hn errs x key h1 h2 hm
    have h3 := (Validate_mem env c _).mp ⟨errs, h1, h2⟩
    obtain ⟨s, sep, m⟩ := x
    simp only at hm
    subst hm
    obtain ⟨_, _, ep2, h6, h7, _⟩ := (collect_duplicate env c i key _ _).mp h3
    rw [h5] at h6
    simp only [Option.some.injEq] at h6
    subst h6
    exact hn ((epHasNoWhen_iff ep).mp h7)

/-- Witness of C25: "get /a" and "GET /a" without when clauses are reported
as duplicates, with a when clause on the first they are not. -/
theorem Validate_duplicate_iff_witness :
    (∀ ep ∈ (cfgOf [epPlain "get" "/a" 200, epPlain "GET" "/a" 200]).Endpoints,
      ' ' ∉ (envC.toUpper ep.Method).toList) ∧
    (∃ errs key, (cfgOf [epPlain "get" "/a" 200, epPlain "GET" "/a" 200]).Validate envC =
      some errs ∧ duplicateError 1 key ∈ errs) ∧
    (cfgOf [epPlain "get" "/a" 200, epPlain "GET" "/a" 200]).Validate envC =
      some [duplicateError 1 "GET /a"] ∧
    (cfgOf [epWhen "get" "/a", epPlain "GET" "/a" 200]).Validate envC = none :=
  ⟨by decide,
   (Validate_duplicate_iff envC (cfgOf [epPlain "get" "/a" 200, epPlain "GET" "/a" 200]) 1
      (by decide)).1.mpr
     ⟨epPlain "GET" "/a" 200, rfl, (epHasNoWhen_iff _).mp (by decide), 0, epPlain "get" "/a" 200,
      by decide, rfl, (epHasNoWhen_iff _).mp (by decide), by decide, rfl⟩,
   by decide, by decide⟩

/-- Claim C26: a response variant with a status below 100 or above 599 makes
`Validate` return an error that holds, wrapped around ErrEndpointConfig, the
message naming the variant and its status; for a variant with a status from
100 to 599 no error that `Validate` returns is a status message of that
variant. -/
theorem Validate_status_range (env : ConfigEnv) (c : Config) (i j : Nat) (ep : Endpoint)
    (rv : ResponseVariant) (hep : c.Endpoints[i]? = some ep) (hrv : ep.Responses[j]? = some rv) :
    ((rv.Status < 100 ∨ rv.Status > 599) →
      ∃ errs, c.Validate env = some errs ∧ statusError i j rv.Status ∈ errs ∧
        (statusError i j rv.Status).sentinel = Sentinel.ErrEndpointConfig ∧
        (statusError i j rv.Status).Error env.quote =
          "invalid endpoint config" ++ ": " ++
            (rscopeOf i j ++ ".status " ++ toString rv.Status ++ " out of range")) ∧
    ((100 ≤ rv.Status ∧ rv.Status ≤ 599) →
      ∀ errs x st, c.Validate env = some errs → x ∈ errs → x.msg ≠ Message.status i j st) := by
  constructor
  · intro hbad
    have h3 : statusError i j rv.Status ∈ (c.collect env).errs :=
      (collect_status env c i j _ _ _).mpr ⟨rfl, rfl, ep, rv, hep, hrv, rfl, hbad⟩
    obtain ⟨errs, h1, h2⟩ := (Validate_mem env c _).mpr h3
    exact ⟨errs, h1, h2, rfl, rfl⟩
  · intro hok errs x st h1 h2 hm
    have h3 := (Validate_mem env c _).mp ⟨errs, h1, h2⟩
    obtain ⟨s, sep, m⟩ := x
    simp only at hm
    subst hm
    obtain ⟨_, _, ep2, rv2, h5, h6, h7, h8⟩ := (collect_status env c i j st _ _).mp h3
    rw [hep] at h5
    simp only [Option.some.injEq] at h5
    subst h5
    rw [hrv] at h6
    simp only [Option.some.injEq] at h6
    subst h6
    omega

/-- Witness of C26: status 99 is reported with its number, status 100 is
not. -/
theorem Validate_status_range_witness :
    (cfgOf [epPlain "GET" "/a" 99]).Validate envC = some [statusError 0 0 99] ∧
    (statusError 0 0 99).Error envC.quote =
      "invalid endpoint config: endpoints[0].responses[0].status 99 out of range" ∧
    (∃ errs, (cfgOf [epPlain "GET" "/a" 99]).Validate envC = some errs ∧
      statusError 0 0 99 ∈ errs) ∧
    (cfgOf [epPlain "GET" "/a" 100]).Validate envC = none :=
  ⟨by decide, by decide,
   match (Validate_status_range envC (cfgOf [epPlain "GET" "/a" 99]) 0 0 (epPlain "GET" "/a" 99)
      _ rfl rfl).1 (Or.inl (by decide)) with
   | ⟨errs, h1, h2, _⟩ => ⟨errs, h1, h2⟩,
   by decide⟩

/-! ## Command line: properties -/

/-- Claim C27 does not hold of the code. The usage text lists the command
word "server" for starting the mock server, but `Execute` dispatches on the
word "serve": given "server" it calls neither routine, writes "unknown
command" with the usage text to the standard error and returns 2, whatever
the server-start routine would return; given "serve" it returns the exit
code of the server-start routine on the remaining arguments. -/
theorem Execute_server_word_is_unknown_command :
    (∃ pre post, usageHeader = pre ++ "\tserver Start the mock server\n" ++ post) ∧
    (∀ (runServer : String → String → String → List String → Int)
        (runValidate : List String → Int) (quote : String → String)
        (version commit date : String) (rest : List String),
      Execute runServer runValidate quote version commit date ("mocker" :: "server" :: rest) =
        { code := 2, stdout := "",
          stderr := "unknown command " ++ quote "server" ++ "\n\n" ++ usageHeader }) ∧
    (∀ (runServer : String → String → String → List String → Int)
        (runValidate : List String → Int) (quote : String → String)
        (version commit date : String) (rest : List String),
      Execute runServer runValidate quote version commit date ("mocker" :: "serve" :: rest) =
        { code := runServer version commit date rest, stdout := "", stderr := "" }) ∧
    (Execute (fun _ _ _ _ => 0) (fun _ => 0) (fun s => "\"" ++ s ++ "\"") "dev" "none" "unknown"
      ["mocker", "server", "--config", "config.yaml"]).code = 2 ∧
    (Execute (fun _ _ _ _ => 0) (fun _ => 0) (fun s => "\"" ++ s ++ "\"") "dev" "none" "unknown"
      ["mocker", "serve", "--config", "config.yaml"]).code = 0 := by
  refine ⟨⟨"mocker - local mock API server\n\nUsage:\n\tmocker <command> [flags]\n\nCommands:\n",
    "\tvalidate Validate a config file and exit\n\tversion Print version info\n\t\n" ++
      "Run \x27mocker <command> --help\x27 for command-specific flags.\n", rfl⟩,
    ?_, ?_, by decide, by decide⟩
  · intro runServer runValidate quote version commit date rest
    rfl
  · intro runServer runValidate quote version commit date rest
    rfl

/-! ## Body limit of the validation gate: properties -/

/-- Claim C28: with a validator attached and the content-type check passed, a
body of more than 1,048,576 bytes is answered by `http.Error` with "failed to
read body" and status 400, the same for every validator and every next
handler (neither is run); a body of exactly 1,048,576 bytes is not refused:
the validator gets the whole body and its verdict decides. The response is
taken as not yet started for the status. -/
theorem validateBody_body_limit (env : Env) (wantCT : String) (val : JSONSchemaValidator)
    (next : Handler) (r : Request) (x : Exchange)
    (hct : ctMismatch env wantCT r = false) :
    maxBody = 1048576 ∧
    (r.Body.length > 1048576 →
      validateBody env wantCT (some val) next r x = httpError x "failed to read body" 400 ∧
      (∀ (val2 : JSONSchemaValidator) (next2 : Handler),
        validateBody env wantCT (some val2) next2 r x =
          validateBody env wantCT (some val) next r x) ∧
      (x.w.wroteHeader = false →
        (validateBody env wantCT (some val) next r x).panicked = false ∧
        (validateBody env wantCT (some val) next r x).exchange.w.finalStatus = 400)) ∧
    (r.Body.length = 1048576 →
      (∀ err, val.Validate r.Body = some err →
        validateBody env wantCT (some val) next r x = httpError x err 400) ∧
      (val.Validate r.Body = none →
        validateBody env wantCT (some val) next r x = next r x)) := by
  have hm : maxBody = 1048576 := by decide
  have big : r.Body.length > 1048576 → ∀ (v : JSONSchemaValidator) (n : Handler),
      validateBody env wantCT (some v) n r x = httpError x "failed to read body" 400 := by
    intro hl v n
    rw [validateBody_some, hct]
    simp only [Bool.false_eq_true, if_false]
    rw [if_pos (by rw [hm]; exact hl)]
  refine ⟨hm, ?_, ?_⟩
  · intro hl
    refine ⟨big hl val next, ?_, ?_⟩
    · intro val2 next2
      rw [big hl val2 next2, big hl val next]
    · intro hw
      obtain ⟨x1, e1, e2, e3, _⟩ := httpError_fresh x "failed to read body" 400 hw (by omega)
      rw [big hl val next, e1]
      exact ⟨rfl, by simp [Outcome.exchange, ResponseWriter.finalStatus, e2, e3]⟩
  · intro hl
    have hn : ¬ r.Body.length > maxBody := by rw [hm]; omega
    constructor
    · intro err he
      rw [validateBody_some, hct]
      simp only [Bool.false_eq_true, if_false]
      rw [if_neg hn, he]
    · intro he
      rw [validateBody_some, hct]
      simp only [Bool.false_eq_true, if_false]
      rw [if_neg hn, he]

/-- The body of a request built by `reqOfSize` has the given length. -/
theorem reqOfSize_length (n : Nat) : (reqOfSize n).Body.length = n :=
  List.length_replicate n 0

/-- Witness of C28: a JSON body of 1,048,577 bytes gets status 400 from a
validator that would accept it, and a body of 1,048,576 bytes reaches the next
handler. -/
theorem validateBody_body_limit_witness :
    ctMismatch envT "application/json" (reqOfSize 1048577) = false ∧
    ctMismatch envT "application/json" (reqOfSize 1048576) = false ∧
    (validateBody envT "application/json" (some acceptAll) accepted204 (reqOfSize 1048577)
      x0).exchange.w.finalStatus = 400 ∧
    validateBody envT "application/json" (some acceptAll) accepted204 (reqOfSize 1048576) x0 =
      accepted204 (reqOfSize 1048576) x0 :=
  ⟨rfl, rfl,
   (((validateBody_body_limit envT "application/json" acceptAll accepted204 (reqOfSize 1048577) x0
      rfl).2.1 (by rw [reqOfSize_length]; decide)).2.2 rfl).2,
   ((validateBody_body_limit envT "application/json" acceptAll accepted204 (reqOfSize 1048576) x0
      rfl).2.2 (reqOfSize_length 1048576)).2 rfl⟩

/-! ## Request identifier: properties -/

/-- The code point of a base-36 digit. -/
theorem digitChar36_toNat (d : Nat) (h : d < 36) :
    (digitChar36 d).toNat = if d < 10 then 48 + d else 87 + d := by
  interval_cases d <;> rfl

/-- Distinct digits have distinct characters. -/
theorem digitChar36_inj (a b : Nat) (ha : a < 36) (hb : b < 36)
    (h : digitChar36 a = digitChar36 b) : a = b := by
  have e := congrArg Char.toNat h
  rw [digitChar36_toNat a ha, digitChar36_toNat b hb] at e
  split at e <;> split at e <;> omega

/-- No digit is the minus sign. -/
theorem digitChar36_ne_minus (a : Nat) (ha : a < 36) : digitChar36 a ≠ '-' := by
  intro h
  have e := congrArg Char.toNat h
  rw [digitChar36_toNat a ha] at e
  have : ('-' : Char).toNat = 45 := rfl
  rw [this] at e
  split at e <;> omega

/-- Digit lists with the same characters are equal. -/
theorem map_digitChar36_inj : ∀ (l1 l2 : List Nat), (∀ a ∈ l1, a < 36) → (∀ b ∈ l2, b < 36) →
    l1.map digitChar36 = l2.map digitChar36 → l1 = l2
  | [], [], _, _, _ => rfl
  | [], _ :: _, _, _, h => by simp at h
  | _ :: _, [], _, _, h => by simp at h
  | a :: l1, b :: l2, h1, h2, h => by
    simp only [List.map_cons, List.cons.injEq] at h
    have e1 := digitChar36_inj a b (h1 a (by simp)) (h2 b (by simp)) h.1
    have e2 := map_digitChar36_inj l1 l2 (fun c hc => h1 c (by simp [hc]))
      (fun c hc => h2 c (by simp [hc])) h.2
    rw [e1, e2]

/-- The digit text of a natural number, as `formatInt36` builds it. -/
theorem formatInt36_eq (i : Int) :
    formatInt36 i =
      if i < 0 then
        String.mk ('-' :: (if i.natAbs = 0 then ['0']
          else (Nat.digits 36 i.natAbs).reverse.map digitChar36))
      else String.mk (if i.natAbs = 0 then ['0']
          else (Nat.digits 36 i.natAbs).reverse.map digitChar36) := rfl

/-- The digit text determines the number. -/
theorem digitText_inj (m n : Nat)
    (h : (if m = 0 then ['0'] else (Nat.digits 36 m).reverse.map digitChar36) =
      (if n = 0 then ['0'] else (Nat.digits 36 n).reverse.map digitChar36)) : m = n := by
  have lt : ∀ k, ∀ a ∈ (Nat.digits 36 k).reverse, a < 36 := by
    intro k a ha
    exact Nat.digits_lt_base (by omega) (List.mem_reverse.mp ha)
  have zero : ∀ k, k ≠ 0 → (Nat.digits 36 k).reverse.map digitChar36 ≠ ['0'] := by
    intro k hk hz
    have e : (Nat.digits 36 k).reverse = [0] :=
      map_digitChar36_inj _ [0] (lt k) (by simp) (by rw [hz]; rfl)
    have e2 : Nat.digits 36 k = [0] := by
      have := congrArg List.reverse e
      simpa using this
    have e3 := Nat.ofDigits_digits 36 k
    rw [e2] at e3
    simp [Nat.ofDigits] at e3
    exact hk e3.symm
  by_cases hm : m = 0 <;> by_cases hn : n = 0
  · rw [hm, hn]
  · rw [if_pos hm, if_neg hn] at h
    exact absurd h.symm (zero n hn)
  · rw [if_neg hm, if_pos hn] at h
    exact absurd h (zero m hm)
  · rw [if_neg hm, if_neg hn] at h
    have e := map_digitChar36_inj _ _ (lt m) (lt n) h
    have e2 : Nat.digits 36 m = Nat.digits 36 n := by
      have := congrArg List.reverse e
      simpa using this
    exact Nat.digits.injective 36 e2

/-- The digit text does not start with a minus sign. -/
theorem digitText_head (n : Nat) (cs : List Char) :
    (if n = 0 then ['0'] else (Nat.digits 36 n).reverse.map digitChar36) ≠ '-' :: cs := by
  by_cases hn : n = 0
  · rw [if_pos hn]
    intro h
    simp at h
  · rw [if_neg hn]
    intro h
    cases hd : (Nat.digits 36 n).reverse with
    | nil => rw [hd] at h; simp at h
    | cons a l =>
      rw [hd] at h
      simp only [List.map_cons, List.cons.injEq] at h
      have ha : a < 36 := by
        have : a ∈ (Nat.digits 36 n).reverse := by rw [hd]; simp
        exact Nat.digits_lt_base (by omega) (List.mem_reverse.mp this)
      exact digitChar36_ne_minus a ha h.1

/-- A string is determined by its characters. -/
theorem String_mk_inj (a b : List Char) (h : String.mk a = String.mk b) : a = b :=
  congrArg String.data h

/-- Distinct numbers have distinct base-36 texts. -/
theorem formatInt36_injective (i j : Int) (h : formatInt36 i = formatInt36 j) : i = j := by
  rw [formatInt36_eq, formatInt36_eq] at h
  by_cases hi : i < 0 <;> by_cases hj : j < 0
  · rw [if_pos hi, if_pos hj] at h
    have e := digitText_inj _ _ (List.cons.inj (String_mk_inj _ _ h)).2
    omega
  · rw [if_pos hi, if_neg hj] at h
    exact absurd (String_mk_inj _ _ h).symm (digitText_head _ _)
  · rw [if_neg hi, if_pos hj] at h
    exact absurd (String_mk_inj _ _ h) (digitText_head _ _)
  · rw [if_neg hi, if_neg hj] at h
    have e := digitText_inj _ _ (String_mk_inj _ _ h)
    omega

/-- Claim C29: the identifier of `requestIDMW` is the base-36 text of the clock
reading; it is not empty; the next handler gets the request with that text
as the request id of its context and the response with that text as the
X-Request-ID header; and another clock reading gives another text. -/
theorem requestIDMW_identifier (now : Int) (next : Handler) (r : Request) (x : Exchange) :
    formatInt36 now ≠ "" ∧
    requestIDMW now next r x =
      next { r with ctx := { r.ctx with reqID := some (formatInt36 now) } }
        (setHeader x "X-Request-ID" (formatInt36 now)) ∧
    Header.Get (setHeader x "X-Request-ID" (formatInt36 now)).w.header "X-Request-ID" =
      formatInt36 now ∧
    (∀ now2 : Int, now2 ≠ now → formatInt36 now2 ≠ formatInt36 now) := by
  refine ⟨formatInt36_ne_empty now, rfl, ?_, ?_⟩
  · show Header.Get (Header.Set x.w.header "X-Request-ID" (formatInt36 now)) "X-Request-ID" = _
    rw [Header_Get_Set, if_pos rfl]
  · intro now2 hne h
    exact hne (formatInt36_injective now2 now h)

/-- Witness of C29: two clock readings one nanosecond apart. -/
theorem requestIDMW_identifier_witness :
    formatInt36 1700000000000000001 ≠ formatInt36 1700000000000000000 :=
  (requestIDMW_identifier 1700000000000000000 accepted204 (reqBare "GET") x0).2.2.2
    1700000000000000001 (by decide)

/-! ## Template cache after a failure: properties -/

/-- Claim C30: when `RenderFile` fails at the stat, or at the read or at the
parse of a reload that was due, it returns that error and the cache it was
given: the same entries in the same places, so the entry of the path, if
there was one, is still the one found. -/
theorem RenderFile_failure_keeps_cache (e : RenderEnv) (tpls : Tpls) (path : String)
    (data : Data) (err : String)
    (hfail : e.stat (e.abs path) = Except.error err ∨
      (∃ mt, e.stat (e.abs path) = Except.ok mt ∧
        (tpls.lookup (e.abs path) = none ∨
          ∃ ct, tpls.lookup (e.abs path) = some ct ∧ ct.mtime < mt) ∧
        (e.readFile (e.abs path) = Except.error err ∨
          ∃ src, e.readFile (e.abs path) = Except.ok src ∧
            e.parseErr (e.base (e.abs path)) src = some err))) :
    RenderFile e tpls path data = (Except.error err, tpls) ∧
    (RenderFile e tpls path data).2 = tpls ∧
    (RenderFile e tpls path data).2.lookup (e.abs path) = tpls.lookup (e.abs path) := by
  have key : RenderFile e tpls path data = (Except.error err, tpls) := by
    rcases hfail with hs | ⟨mt, hs, hdue, hrp⟩
    · unfold RenderFile
      rw [hs]
    · have h1 : RenderFile e tpls path data = reloadTpl e tpls (e.abs path) mt data := by
        unfold RenderFile
        rw [hs]
        simp only
        rcases hdue with hnone | ⟨ct, hsome, hlt⟩
        · rw [hnone]
        · rw [hsome]
          simp only
          rw [if_pos hlt]
      rw [h1]
      unfold reloadTpl
      rcases hrp with hr | ⟨src, hr, hp⟩
      · rw [hr]
      · rw [hr]
        simp only
        rw [hp]
  rw [key]
  exact ⟨rfl, rfl, rfl⟩

/-- Witness of C30: the stat fails and the cached template stays; the
template of a newer file does not parse and the cached template stays. -/
theorem RenderFile_failure_keeps_cache_witness :
    (RenderFile renderEnvNoFile
        [("test.tmpl", { tpl := { name := "test.tmpl", src := bytesOf "hello" }, mtime := 5 })]
        "test.tmpl" dataEmpty).2 =
      [("test.tmpl", { tpl := { name := "test.tmpl", src := bytesOf "hello" }, mtime := 5 })] ∧
    (RenderFile (renderEnvOf 9 "\x7b\x7b")
        [("test.tmpl", { tpl := { name := "test.tmpl", src := bytesOf "hello" }, mtime := 5 })]
        "test.tmpl" dataEmpty).2 =
      [("test.tmpl", { tpl := { name := "test.tmpl", src := bytesOf "hello" }, mtime := 5 })] :=
  ⟨(RenderFile_failure_keeps_cache renderEnvNoFile
      [("test.tmpl", { tpl := { name := "test.tmpl", src := bytesOf "hello" }, mtime := 5 })]
      "test.tmpl" dataEmpty "no such file" (Or.inl rfl)).2.1,
   (RenderFile_failure_keeps_cache (renderEnvOf 9 "\x7b\x7b")
      [("test.tmpl", { tpl := { name := "test.tmpl", src := bytesOf "hello" }, mtime := 5 })]
      "test.tmpl" dataEmpty "unclosed action"
      (Or.inr ⟨9, rfl, Or.inr ⟨_, rfl, by decide⟩,
        Or.inr ⟨bytesOf "\x7b\x7b", rfl, by decide⟩⟩)).2.1⟩

end Mocker
